import Mathlib

/-!
# Six-Rush: a shallow embedding of the board game core

This file embeds the core of the "Six-Rush" (六子冲 / 四顶) Rust program in Lean 4:
the piece/board data model (`src/game/piece.rs`, `src/game/board.rs`), the rules
engine (`src/game/rules.rs`), the game state machine (`src/game/state.rs`,
`src/game/mod.rs`) and the AI search (`src/game/ai.rs`), and proves the testable
properties stated for them.

Modelling conventions:
* `u8` coordinates are modelled as `Nat`; the `as i8` casts used for neighbour
  probing are modelled as the embedding `(· : Nat) → Int`.  On every value a
  `u8` can hold the surrounding `is_valid_pos` bound checks give the same
  verdict for both readings, so the embeddings agree on representable inputs.
* Rust `Vec<Piece>` is a `List Piece`; in-place mutation through
  `piece_at_mut` / `piece_by_id_mut` (which update the *first* match of
  `iter_mut().find`) is modelled by `updateFirst`.
* The move-history `Vec` is used as a stack (push/pop at the end); it is
  modelled as a list with the most recent record at the *head*.
* Rust's stable `sort_by` on the line positions is modelled by the stable
  `List.insertionSort`.
* Fallible operations (`Result<T>`) are `Except String T`.
-/

set_option maxHeartbeats 1000000

deriving instance DecidableEq for Except

namespace SixRush

/-! ## Data model (src/game/piece.rs) -/

/-- The two sides. -/
inductive Side : Type
  | Black
  | White
deriving DecidableEq

/-- `Side::opposite`. -/
def Side.opposite : Side → Side
  | .Black => .White
  | .White => .Black

/-- `Side::first` — Black moves first. -/
def Side.first : Side := .Black

/-- A piece.  The UI-only `state : PieceState` field of the Rust struct is
serde-skipped and never read by the board, rules, state-machine or AI logic,
so it is omitted from the embedding. -/
structure Piece : Type where
  id : Nat
  side : Side
  position : Nat × Nat
  active : Bool
deriving DecidableEq

/-- `Piece::new` (always active). -/
def Piece.new (id : Nat) (side : Side) (x y : Nat) : Piece :=
  { id := id, side := side, position := (x, y), active := true }

/-- `initial_pieces`: the fixed 12-piece starting layout. -/
def initial_pieces : List Piece :=
  [ Piece.new 1 .Black 0 0, Piece.new 2 .Black 1 0, Piece.new 3 .Black 2 0,
    Piece.new 4 .Black 3 0, Piece.new 5 .Black 0 1, Piece.new 6 .Black 3 1,
    Piece.new 7 .White 0 3, Piece.new 8 .White 1 3, Piece.new 9 .White 2 3,
    Piece.new 10 .White 3 3, Piece.new 11 .White 0 2, Piece.new 12 .White 3 2 ]

/-! ## Board (src/game/board.rs) -/

/-- `BOARD_SIZE` (4×4). -/
def BOARD_SIZE : Nat := 4

/-- The board: the collection of all pieces. -/
structure Board : Type where
  pieces : List Piece
deriving DecidableEq

/-- Update the first element satisfying `p` with `f`, as Rust's
`iter_mut().find(p)` followed by a mutation does. -/
def updateFirst (p : α → Bool) (f : α → α) : List α → List α
  | [] => []
  | x :: xs => if p x then f x :: xs else x :: updateFirst p f xs

/-- `Board::empty`. -/
def Board.empty : Board := ⟨[]⟩

/-- `Board::initial`. -/
def Board.initial : Board := ⟨initial_pieces⟩

/-- `Board::piece_at`: the active piece occupying `(x, y)`, if any
(first match in the piece list). -/
def Board.piece_at (b : Board) (x y : Nat) : Option Piece :=
  b.pieces.find? (fun p => p.active && decide (p.position = (x, y)))

/-- `Board::piece_by_id` (active or not; first match). -/
def Board.piece_by_id (b : Board) (id : Nat) : Option Piece :=
  b.pieces.find? (fun p => p.id == id)

/-- `Board::is_valid_pos`: signed bounds check against the 4×4 grid. -/
def Board.is_valid_pos (x y : Int) : Bool :=
  0 ≤ x && x < (BOARD_SIZE : Int) && 0 ≤ y && y < (BOARD_SIZE : Int)

/-- `Board::is_empty`. -/
def Board.is_empty (b : Board) (x y : Nat) : Bool :=
  (b.piece_at x y).isNone

/-- `Board::active_pieces_of`. -/
def Board.active_pieces_of (b : Board) (side : Side) : List Piece :=
  b.pieces.filter (fun p => p.active && decide (p.side = side))

/-- `Board::count_active`. -/
def Board.count_active (b : Board) (side : Side) : Nat :=
  b.pieces.countP (fun p => p.active && decide (p.side = side))

/-- `Board::is_single_piece_mode`: some side has exactly one active piece. -/
def Board.is_single_piece_mode (b : Board) : Bool :=
  b.count_active .Black == 1 || b.count_active .White == 1

/-! ## Rules engine (src/game/rules.rs) -/

/-- `is_valid_move`: an active piece of `side` sits at `fromPos`, `toPos` is
in-bounds and empty, and the move is one orthogonal step. -/
def is_valid_move (b : Board) (fromPos toPos : Nat × Nat) (side : Side) : Bool :=
  match b.piece_at fromPos.1 fromPos.2 with
  | none => false
  | some piece =>
    if !decide (piece.side = side) then false
    else if !Board.is_valid_pos (toPos.1 : Int) (toPos.2 : Int) then false
    else if !b.is_empty toPos.1 toPos.2 then false
    else
      let dx : Int := (toPos.1 : Int) - (fromPos.1 : Int)
      let dy : Int := (toPos.2 : Int) - (fromPos.2 : Int)
      let is_horizontal := dy == 0 && dx.natAbs == 1
      let is_vertical := dx == 0 && dy.natAbs == 1
      if !is_horizontal && !is_vertical then false
      else piece.active

/-- The filter selecting the active pieces on the row through `y`
(horizontal) or the column through `x` (vertical). -/
def lineFilter (x y : Nat) (is_horizontal : Bool) (p : Piece) : Bool :=
  p.active && (if is_horizontal then p.position.2 == y else p.position.1 == x)

/-- `pieces_on_line` of `check_two_vs_one_in_direction`: the active pieces of
the row/column, in piece-list order. -/
def linePieces (b : Board) (x y : Nat) (is_horizontal : Bool) : List Piece :=
  b.pieces.filter (lineFilter x y is_horizontal)

/-- The coordinate that varies along the line. -/
def lineCoord (is_horizontal : Bool) (pos : Nat × Nat) : Nat :=
  if is_horizontal then pos.1 else pos.2

/-- `positions` of `check_two_vs_one_in_direction`: the line pieces'
positions sorted by the line coordinate (Rust's stable `sort_by` modelled by
the stable `insertionSort`). -/
def sortedLinePositions (b : Board) (x y : Nat) (is_horizontal : Bool) :
    List (Nat × Nat) :=
  ((linePieces b x y is_horizontal).map (·.position)).insertionSort
    (fun a c => lineCoord is_horizontal a ≤ lineCoord is_horizontal c)

/-- The cell of the line at coordinate `c`. -/
def lineCell (x y : Nat) (is_horizontal : Bool) (c : Nat) : Nat × Nat :=
  if is_horizontal then (c, y) else (x, c)

/-- `pieces_with_index` of `check_two_vs_one_in_direction`: (coordinate
offset from the run start, side, id) per line piece, in piece-list order
(built through the same `(position, side, id)` projection as the source's
`sorted_pieces`). -/
def piecesWithIndex (b : Board) (x y : Nat) (is_horizontal : Bool)
    (first_coord : Nat) : List (Nat × Side × Nat) :=
  ((linePieces b x y is_horizontal).map (fun p => (p.position, p.side, p.id))).map
    (fun t => (lineCoord is_horizontal t.1 - first_coord, t.2.1, t.2.2))

/-- `own_pieces_indices`. -/
def ownIndices (b : Board) (x y : Nat) (is_horizontal : Bool)
    (first_coord : Nat) (side : Side) : List Nat :=
  ((piecesWithIndex b x y is_horizontal first_coord).filter
    (fun t => decide (t.2.1 = side))).map (·.1)

/-- `enemy_pieces_indices`. -/
def enemyIndices (b : Board) (x y : Nat) (is_horizontal : Bool)
    (first_coord : Nat) (side : Side) : List Nat :=
  ((piecesWithIndex b x y is_horizontal first_coord).filter
    (fun t => !decide (t.2.1 = side))).map (·.1)

/-- `own_piece_ids`. -/
def ownIds (b : Board) (x y : Nat) (is_horizontal : Bool) (first_coord : Nat)
    (side : Side) : List Nat :=
  ((piecesWithIndex b x y is_horizontal first_coord).filter
    (fun t => decide (t.2.1 = side))).map (·.2.2)

/-- `check_two_vs_one_in_direction`.  Exactly as in the source, with the
Rust locals modelled by the named helper functions above: the `_dx`
parameter is unused and only `dy == 0` decides the axis; the three pieces of
the line are collected in list order; the copied positions are sorted by the
line coordinate (stable sort); and the checks run in the source's order,
each failing check returning `captured` unchanged.  The source's
`positions[0] / [1] / [2]` indexing (safe because the length is 3) becomes a
three-element pattern match whose default arm is unreachable; the source's
`.unwrap()` on the enemy lookup (safe because the enemy count is 1) becomes
a `match` whose `none` arm is unreachable. -/
def check_two_vs_one_in_direction (b : Board) (x y : Nat) (side : Side)
    (_dx dy : Int) (moved_piece_id : Nat) (captured : List Nat) : List Nat :=
  match b.piece_by_id moved_piece_id with
  | none => captured
  | some mp =>
    if !mp.active then captured
    else if (linePieces b x y (dy == 0)).length != 3 then captured
    else
      match sortedLinePositions b x y (dy == 0) with
      | [q0, q1, q2] =>
        if lineCoord (dy == 0) q1 - lineCoord (dy == 0) q0 != 1 ||
            lineCoord (dy == 0) q2 - lineCoord (dy == 0) q1 != 1 then captured
        else if 0 ≤ (lineCoord (dy == 0) q0 : Int) - 1 &&
            !b.is_empty (lineCell x y (dy == 0)
                ((lineCoord (dy == 0) q0 : Int) - 1).toNat).1
              (lineCell x y (dy == 0)
                ((lineCoord (dy == 0) q0 : Int) - 1).toNat).2 then captured
        else if (lineCoord (dy == 0) q2 : Int) + 1 < 4 &&
            !b.is_empty (lineCell x y (dy == 0)
                ((lineCoord (dy == 0) q2 : Int) + 1).toNat).1
              (lineCell x y (dy == 0)
                ((lineCoord (dy == 0) q2 : Int) + 1).toNat).2 then captured
        else if (ownIndices b x y (dy == 0) (lineCoord (dy == 0) q0) side).length
              != 2 ||
            (enemyIndices b x y (dy == 0) (lineCoord (dy == 0) q0) side).length
              != 1 then captured
        else if (((ownIndices b x y (dy == 0) (lineCoord (dy == 0) q0)
                side).getD 0 0 : Int) -
              ((ownIndices b x y (dy == 0) (lineCoord (dy == 0) q0)
                side).getD 1 0 : Int)).natAbs != 1 then captured
        else if !(ownIds b x y (dy == 0) (lineCoord (dy == 0) q0)
            side).contains moved_piece_id then captured
        else
          match (piecesWithIndex b x y (dy == 0)
              (lineCoord (dy == 0) q0)).find? (fun t => !decide (t.2.1 = side)) with
          | some e =>
            if captured.contains e.2.2 then captured else captured ++ [e.2.2]
          | none => captured
      | _ => captured

/-- `check_two_vs_one`: both scan orientations along one axis. -/
def check_two_vs_one (b : Board) (x y : Nat) (side : Side) (horizontal : Bool)
    (moved_piece_id : Nat) (captured : List Nat) : List Nat :=
  let dx : Int := if horizontal then 1 else 0
  let dy : Int := if horizontal then 0 else 1
  check_two_vs_one_in_direction b x y side (-dx) (-dy) moved_piece_id
    (check_two_vs_one_in_direction b x y side dx dy moved_piece_id captured)

/-- `check_single_piece_capture`: the single-piece "carry" capture on one axis. -/
def check_single_piece_capture (b : Board) (x y : Nat) (side : Side)
    (horizontal : Bool) (captured : List Nat) : List Nat :=
  let dx : Int := if horizontal then 1 else 0
  let dy : Int := if horizontal then 0 else 1
  let nx := (x : Int) + dx
  let ny := (y : Int) + dy
  let rx := (x : Int) - dx
  let ry := (y : Int) - dy
  if !Board.is_valid_pos nx ny || !Board.is_valid_pos rx ry then captured
  else
    match b.piece_at nx.toNat ny.toNat with
    | none => captured
    | some p1 =>
      match b.piece_at rx.toNat ry.toNat with
      | none => captured
      | some p2 =>
        if !decide (p1.side = side) && !decide (p2.side = side) && p1.active && p2.active then
          let captured1 := if captured.contains p1.id then captured else captured ++ [p1.id]
          if captured1.contains p2.id then captured1 else captured1 ++ [p2.id]
        else captured

/-- `calculate_captures`: dispatches on `is_single_piece_mode` of the board
(the board *after* the piece has been repositioned), then checks both axes. -/
def calculate_captures (b : Board) (moved_piece_id : Nat) : List Nat :=
  match b.piece_by_id moved_piece_id with
  | none => []
  | some p =>
    if !p.active then []
    else
      let side := p.side
      let x := p.position.1
      let y := p.position.2
      if b.is_single_piece_mode then
        check_single_piece_capture b x y side false
          (check_single_piece_capture b x y side true [])
      else
        check_two_vs_one b x y side false moved_piece_id
          (check_two_vs_one b x y side true moved_piece_id [])

/-- The four probe directions used by the rules engine and the state machine. -/
def directions : List (Int × Int) := [(0, 1), (0, -1), (1, 0), (-1, 0)]

/-- `is_stalemated`: no active piece of `side` has an in-bounds empty
orthogonal neighbour. -/
def is_stalemated (b : Board) (side : Side) : Bool :=
  (b.active_pieces_of side).all (fun p =>
    directions.all (fun d =>
      let nx := (p.position.1 : Int) + d.1
      let ny := (p.position.2 : Int) + d.2
      !(Board.is_valid_pos nx ny && b.is_empty nx.toNat ny.toNat)))

/-- `get_valid_moves`: every one-step move of an active piece of `side` onto
an empty in-bounds cell, in the source's deterministic enumeration order
(the nested push loops become a `flatMap` of per-direction `filterMap`s). -/
def get_valid_moves (b : Board) (side : Side) : List ((Nat × Nat) × (Nat × Nat)) :=
  (b.active_pieces_of side).flatMap (fun p =>
    directions.filterMap (fun d =>
      let nx := (p.position.1 : Int) + d.1
      let ny := (p.position.2 : Int) + d.2
      if Board.is_valid_pos nx ny && b.is_empty nx.toNat ny.toNat then
        some (p.position, (nx.toNat, ny.toNat))
      else none))

/-! ## Move records and move execution (src/game/mod.rs, src/game/board.rs) -/

/-- `CapturedRecord`: a captured piece's id and its position at capture time. -/
structure CapturedRecord : Type where
  piece_id : Nat
  position : Nat × Nat
deriving DecidableEq

/-- `MoveRecord`: one executed half-move (for undo). -/
structure MoveRecord : Type where
  piece_id : Nat
  fromPos : Nat × Nat
  toPos : Nat × Nat
  captured : List CapturedRecord
  was_single_piece_mode : Bool
  side : Side
deriving DecidableEq

/-- Reposition the first active piece at `fromPos` to `toPos`
(the `piece_at_mut` + `piece.position = to` step of `execute_move`). -/
def Board.movePieceAt (b : Board) (fromPos toPos : Nat × Nat) : Board :=
  ⟨updateFirst (fun p => p.active && decide (p.position = fromPos))
    (fun p => { p with position := toPos }) b.pieces⟩

/-- Deactivate the (first) piece with the given id
(the `piece_by_id_mut` + `p.active = false` step of `execute_move`). -/
def Board.deactivateById (b : Board) (id : Nat) : Board :=
  ⟨updateFirst (fun p => p.id == id) (fun p => { p with active := false }) b.pieces⟩

/-- One iteration of `execute_move`'s capture loop: record the captured
piece's current position, then deactivate it. -/
def captureStep (acc : Board × List CapturedRecord) (cid : Nat) :
    Board × List CapturedRecord :=
  let recs := match acc.1.piece_by_id cid with
    | some p => acc.2 ++ [⟨cid, p.position⟩]
    | none => acc.2
  (acc.1.deactivateById cid, recs)

/-- `Board::execute_move`: record the pre-move single-piece-mode flag, fail if
no active piece occupies `fromPos`, reposition it, compute the captures on the
post-move board, deactivate each captured piece while recording its position,
and return the new board with the `MoveRecord`. -/
def Board.execute_move (b : Board) (fromPos toPos : Nat × Nat) (side : Side) :
    Except String (Board × MoveRecord) :=
  let was_single := b.is_single_piece_mode
  match b.piece_at fromPos.1 fromPos.2 with
  | none => .error "no piece at the start position"
  | some piece =>
    let piece_id := piece.id
    let b1 := b.movePieceAt fromPos toPos
    let captured := calculate_captures b1 piece_id
    let folded := captured.foldl captureStep (b1, [])
    .ok (folded.1,
      { piece_id := piece_id, fromPos := fromPos, toPos := toPos,
        captured := folded.2, was_single_piece_mode := was_single, side := side })

/-- Restore the (first) piece with the given id to `pos` and reactivate it
(the `piece_by_id_mut` update of `undo_move`; a missing id is skipped). -/
def Board.restorePiece (b : Board) (id : Nat) (pos : Nat × Nat) : Board :=
  ⟨updateFirst (fun p => p.id == id)
    (fun p => { p with position := pos, active := true }) b.pieces⟩

/-- `Board::undo_move`: put the moved piece back at `fromPos` (reactivating
it), then restore every captured piece at its recorded capture position.
The Rust function returns `Ok(())` unconditionally, so it is total here. -/
def Board.undo_move (b : Board) (r : MoveRecord) : Board :=
  r.captured.foldl (fun bd cr => bd.restorePiece cr.piece_id cr.position)
    (b.restorePiece r.piece_id r.fromPos)

/-! ## Terminal conditions (src/game/rules.rs, src/game/state.rs) -/

/-- `GameResult`. -/
inductive GameResult : Type
  | PlayerWin
  | AiWin
  | Draw
deriving DecidableEq

/-- `check_game_end`: in order — a side with zero active pieces loses; both
sides at most 2 active pieces is a draw; a stalemated side-to-move loses;
otherwise the game continues.  Wins are mapped through `player_side`. -/
def check_game_end (b : Board) (side_to_move player_side : Side) :
    Option GameResult :=
  let black_count := b.count_active .Black
  let white_count := b.count_active .White
  if black_count == 0 then
    some (if decide (player_side = .White) then .PlayerWin else .AiWin)
  else if white_count == 0 then
    some (if decide (player_side = .Black) then .PlayerWin else .AiWin)
  else if black_count ≤ 2 && white_count ≤ 2 then
    some .Draw
  else if is_stalemated b side_to_move then
    some (if decide (side_to_move.opposite = player_side) then .PlayerWin else .AiWin)
  else
    none

/-! ## Game state machine (src/game/state.rs, src/game/mod.rs) -/

/-- `GameState`. -/
inductive GameState : Type
  | NewGame
  | AiThinking
  | WaitingForPlayer
  | PieceSelected
  | PieceDragging
  | WaitingForTargetClick
  | PieceMoving
  | PieceReturning
  | CheckingCapture
  | CaptureAnimating
  | CheckingGameEnd
  | GameOverDialog (result : GameResult)
  | UndoAnimating
deriving DecidableEq

/-- `GameState::can_undo`. -/
def GameState.can_undo : GameState → Bool
  | .WaitingForPlayer => true
  | .WaitingForTargetClick => true
  | _ => false

/-- `DialogAction`. -/
inductive DialogAction : Type
  | Undo
  | NewGame
  | Confirm
deriving DecidableEq

/-- `GameEvent`.  `StartNewGame` carries the `ai_level` field that
`Game::handle_event`'s pattern binds, and `PlayerSelectPiece` is the variant
`Game::handle_event` matches (the `state.rs` declaration spells it
`PlayerStartDrag`); both variants are kept. -/
inductive GameEvent : Type
  | StartNewGame (player_first : Bool) (ai_level : Nat)
  | AiMoveSelected (fromPos toPos : Nat × Nat)
  | PlayerSelectPiece (piece_id : Nat) (start_pos : Nat × Nat)
  | PlayerStartDrag (piece_id : Nat) (start_pos : Nat × Nat)
  | PlayerStartMoving
  | PlayerReleaseWithoutMove
  | PlayerClickTarget (target_pos : Nat × Nat)
  | PlayerDrop (target_pos : Nat × Nat)
  | PlayerCancel
  | PlayerClickInvalid
  | PieceMoveAnimationComplete (moved : Bool)
  | PieceReturnAnimationComplete
  | CaptureCheckComplete (has_capture : Bool) (captured_piece_ids : List Nat)
  | CaptureAnimationComplete
  | GameEndCheckComplete (result : Option GameResult)
  | DialogAction (action : DialogAction)
  | StartUndo
  | UndoAnimationComplete
deriving DecidableEq

/-- `SelectedPiece`. -/
structure SelectedPiece : Type where
  piece_id : Nat
  start_pos : Nat × Nat
deriving DecidableEq

/-- `PendingMove`. -/
structure PendingMove : Type where
  fromPos : Nat × Nat
  toPos : Nat × Nat
  is_ai : Bool
deriving DecidableEq

/-- `Game`: the aggregate root.  `move_history` keeps the most recent
`MoveRecord` at the head (the Rust `Vec` pushes and pops at the end). -/
structure Game : Type where
  board : Board
  state : GameState
  player_side : Side
  current_turn : Side
  move_history : List MoveRecord
  ai_level : Nat
  selected_piece : Option SelectedPiece
  pending_move : Option PendingMove
  last_captured : List Nat
  last_result : Option GameResult
deriving DecidableEq

/-- `Game::default` / `Game::new`. -/
def Game.new : Game :=
  { board := Board.empty, state := .NewGame, player_side := .Black,
    current_turn := .Black, move_history := [], ai_level := 3,
    selected_piece := none, pending_move := none, last_captured := [],
    last_result := none }

/-- `Game::start_new_game`. -/
def Game.start_new_game (g : Game) (player_first : Bool) (ai_level : Nat) : Game :=
  { g with
    board := Board.initial,
    player_side := if player_first then .Black else .White,
    current_turn := .Black,
    move_history := [],
    selected_piece := none,
    pending_move := none,
    last_captured := [],
    last_result := none,
    ai_level := min (max ai_level 1) 5,
    state := if player_first then .WaitingForPlayer else .AiThinking }

/-- `Game::can_piece_move`: the piece exists, belongs to the player, is
active, and has at least one in-bounds empty neighbour. -/
def Game.can_piece_move (g : Game) (piece_id : Nat) : Bool :=
  match g.board.piece_by_id piece_id with
  | none => false
  | some piece =>
    if !decide (piece.side = g.player_side) || !piece.active then false
    else
      directions.any (fun d =>
        let nx := (piece.position.1 : Int) + d.1
        let ny := (piece.position.2 : Int) + d.2
        Board.is_valid_pos nx ny && g.board.is_empty nx.toNat ny.toNat)

/-- `Game::can_undo`: the state allows undo and the history is nonempty. -/
def Game.can_undo (g : Game) : Bool :=
  g.state.can_undo && !g.move_history.isEmpty

/-- `Game::perform_undo`: pop and revert up to two half-moves, then force the
turn back to the player and clear the stored result.  (`Board::undo_move`
never fails, so the Rust `?` never fires and the operation is total.) -/
def Game.perform_undo (g : Game) : Game :=
  let g1 :=
    match g.move_history with
    | [] => g
    | r1 :: rest1 =>
      let ga := { g with board := g.board.undo_move r1, move_history := rest1,
                         current_turn := g.current_turn.opposite }
      match rest1 with
      | [] => ga
      | r2 :: rest2 =>
        { ga with board := ga.board.undo_move r2, move_history := rest2,
                  current_turn := ga.current_turn.opposite }
  { g1 with current_turn := g.player_side, last_result := none }

/-- `Game::check_stalemate_for_current_turn`. -/
def Game.check_stalemate_for_current_turn (g : Game) : Option GameResult :=
  if is_stalemated g.board g.current_turn then
    some (if decide (g.current_turn.opposite = g.player_side)
      then .PlayerWin else .AiWin)
  else
    none

/-- `Game::handle_event`.  The Rust method mutates `self` and returns
`Result<()>`; here it returns the updated game together with the error, if
any, that the `?` operator would propagate to the caller.  When the `?`
fires nothing has been mutated yet, so the game component of the result is
the unchanged input.  The arms appear in the source's match order; every
unmatched combination falls through to the final no-op arm. -/
def Game.handle_event (g : Game) (e : GameEvent) : Game × Option String :=
  match g.state, e with
  | .NewGame, .StartNewGame player_first ai_level =>
    (g.start_new_game player_first ai_level, none)
  | .NewGame, _ =>
    if decide (g.current_turn ≠ g.player_side) then
      ({ g with state := .AiThinking }, none)
    else
      ({ g with state := .WaitingForPlayer }, none)
  | .WaitingForPlayer, .PlayerSelectPiece piece_id start_pos =>
    if g.can_piece_move piece_id then
      ({ g with selected_piece := some ⟨piece_id, start_pos⟩,
                state := .PieceSelected }, none)
    else (g, none)
  | .WaitingForPlayer, .StartUndo =>
    if g.can_undo then ({ g with state := .UndoAnimating }, none) else (g, none)
  | .PieceSelected, .PlayerClickTarget target_pos =>
    match g.selected_piece with
    | some selected =>
      ({ g with pending_move := some ⟨selected.start_pos, target_pos, false⟩,
                state := .PieceMoving, selected_piece := none }, none)
    | none => (g, none)
  | .PieceSelected, .PlayerClickInvalid =>
    ({ g with selected_piece := none, state := .WaitingForPlayer }, none)
  | .PieceSelected, .PlayerCancel =>
    ({ g with selected_piece := none, state := .WaitingForPlayer }, none)
  | .PieceMoving, .PieceMoveAnimationComplete moved =>
    match g.pending_move with
    | some pending =>
      if moved then
        match g.board.execute_move pending.fromPos pending.toPos g.player_side with
        | .ok (b, record) =>
          ({ g with board := b,
                    last_captured := record.captured.map (·.piece_id),
                    move_history := record :: g.move_history,
                    state := .CheckingCapture,
                    pending_move := none }, none)
        | .error err => (g, some err)
      else
        ({ g with state := .WaitingForPlayer, pending_move := none }, none)
    | none => (g, none)
  | .CheckingCapture, .CaptureCheckComplete has_capture _ =>
    if has_capture then ({ g with state := .CaptureAnimating }, none)
    else ({ g with state := .CheckingGameEnd }, none)
  | .CaptureAnimating, .CaptureAnimationComplete =>
    ({ g with state := .CheckingGameEnd }, none)
  | .CheckingGameEnd, .GameEndCheckComplete result =>
    (match result with
    | some r =>
      ({ g with last_result := some r, state := .GameOverDialog r }, none)
    | none =>
      let g1 := { g with current_turn := g.current_turn.opposite }
      match g1.check_stalemate_for_current_turn with
      | some sr =>
        ({ g1 with last_result := some sr, state := .GameOverDialog sr }, none)
      | none =>
        if decide (g1.current_turn = g1.player_side) then
          ({ g1 with state := .WaitingForPlayer }, none)
        else
          ({ g1 with state := .AiThinking }, none))
  | .GameOverDialog _, .DialogAction action =>
    (match action with
    | .Undo =>
      if g.can_undo then ({ g with state := .UndoAnimating }, none) else (g, none)
    | .NewGame => ({ g with state := .NewGame }, none)
    | .Confirm =>
      (g.start_new_game (decide (g.player_side = .Black)) g.ai_level, none))
  | .AiThinking, .AiMoveSelected fromPos toPos =>
    ({ g with pending_move := some ⟨fromPos, toPos, true⟩,
              state := .PieceMoving }, none)
  | .UndoAnimating, .UndoAnimationComplete =>
    ({ g.perform_undo with state := .WaitingForPlayer }, none)
  | _, _ => (g, none)

/-- The (state, event) combinations handled by an explicit arm of
`Game::handle_event`'s match (every event is matched in `NewGame` because of
the two catch-all arms there). -/
def matchedTransition : GameState → GameEvent → Bool
  | .NewGame, _ => true
  | .WaitingForPlayer, .PlayerSelectPiece _ _ => true
  | .WaitingForPlayer, .StartUndo => true
  | .PieceSelected, .PlayerClickTarget _ => true
  | .PieceSelected, .PlayerClickInvalid => true
  | .PieceSelected, .PlayerCancel => true
  | .PieceMoving, .PieceMoveAnimationComplete _ => true
  | .CheckingCapture, .CaptureCheckComplete _ _ => true
  | .CaptureAnimating, .CaptureAnimationComplete => true
  | .CheckingGameEnd, .GameEndCheckComplete _ => true
  | .GameOverDialog _, .DialogAction _ => true
  | .AiThinking, .AiMoveSelected _ _ => true
  | .UndoAnimating, .UndoAnimationComplete => true
  | _, _ => false

/-! ## AI search (src/game/ai.rs)

The random number generator is modelled by a function `pick : Nat → Nat`
standing for `rng.gen_range(0..n)`; theorems quantify over every `pick`
that satisfies the `gen_range` contract `0 < n → pick n < n`. -/

/-- `i32::MIN`. -/
def i32min : Int := -(2 ^ 31)

/-- `i32::MAX`. -/
def i32max : Int := 2 ^ 31 - 1

/-- `AiPlayer::evaluate`: material, mobility, stalemate dominance,
single-piece endgame shaping, own single-piece penalty. -/
def evaluate (b : Board) (ai_side : Side) : Int :=
  let player_side := ai_side.opposite
  let ai_count : Int := b.count_active ai_side
  let player_count : Int := b.count_active player_side
  let score0 := (ai_count - player_count) * 100
  let ai_moves : Int := (get_valid_moves b ai_side).length
  let player_moves : Int := (get_valid_moves b player_side).length
  let score1 := score0 + (ai_moves - player_moves) * 5
  let score2 := score1 + (if is_stalemated b player_side then 10000 else 0)
  let score3 := score2 - (if is_stalemated b ai_side then 10000 else 0)
  let score4 := score3 +
    (if player_count == 1 && 2 ≤ ai_count then
      match b.active_pieces_of player_side with
      | [] => 0
      | single_piece :: _ =>
        let px := single_piece.position.1
        let py := single_piece.position.2
        let empty_neighbors := (directions.filter (fun d =>
          let nx := (px : Int) + d.1
          let ny := (py : Int) + d.2
          Board.is_valid_pos nx ny && b.is_empty nx.toNat ny.toNat)).length
        let shaping := (4 - (empty_neighbors : Int)) * 50
        shaping + ((b.active_pieces_of ai_side).map (fun ap =>
          let dist : Int :=
            ((ap.position.1 : Int) - (px : Int)).natAbs +
              ((ap.position.2 : Int) - (py : Int)).natAbs
          (6 - dist) * 10)).sum
    else 0)
  score4 + (if ai_count == 1 && 2 ≤ player_count then -200 else 0)

/-- The alpha-beta loop body shared by the maximizing and minimizing branches
of `AiPlayer::minimax`: walk the move list, evaluate each successor with
`next`, keep the running best value and narrow the window, and stop early on
a beta/alpha cutoff exactly where the Rust `break` does. -/
def abLoop (next : Board → Int → Int → Int) (current : Side) (isMax : Bool) :
    List ((Nat × Nat) × (Nat × Nat)) → Board → Int → Int → Int → Int
  | [], _, _, _, best => best
  | (f, t) :: rest, b, alpha, beta, best =>
    match b.execute_move f t current with
    | .error _ => abLoop next current isMax rest b alpha beta best
    | .ok (tb, _) =>
      let ev := next tb alpha beta
      if isMax then
        let best1 := max best ev
        let alpha1 := max alpha ev
        if beta ≤ alpha1 then best1
        else abLoop next current isMax rest b alpha1 beta best1
      else
        let best1 := min best ev
        let beta1 := min beta ev
        if beta1 ≤ alpha then best1
        else abLoop next current isMax rest b alpha beta1 best1

/-- `AiPlayer::minimax` (with alpha-beta pruning), by recursion on the depth.
A stalemated ply returns the large-but-finite sentinel of the source. -/
def minimax (ai_side : Side) : Nat → Board → Bool → Int → Int → Int
  | 0, b, _, _, _ => evaluate b ai_side
  | depth + 1, b, is_maximizing, alpha, beta =>
    let current_side := if is_maximizing then ai_side else ai_side.opposite
    let moves := get_valid_moves b current_side
    if moves.isEmpty then
      if is_maximizing then i32min + 100 else i32max - 100
    else
      abLoop (fun tb a bt => minimax ai_side depth tb (!is_maximizing) a bt)
        current_side is_maximizing moves b alpha beta
        (if is_maximizing then i32min else i32max)

/-- The selection loop of `AiPlayer::minimax_move`: try every candidate,
score the successor with a full-window minimax, and keep the first candidate
that strictly improves on the running best score (initially `i32::MIN`). -/
def minimaxMoveLoop (ai_side : Side) (depth : Nat) (b : Board) :
    List ((Nat × Nat) × (Nat × Nat)) → Option ((Nat × Nat) × (Nat × Nat)) → Int →
      Option ((Nat × Nat) × (Nat × Nat))
  | [], best_move, _ => best_move
  | (f, t) :: rest, best_move, best_score =>
    match b.execute_move f t ai_side with
    | .error _ => minimaxMoveLoop ai_side depth b rest best_move best_score
    | .ok (tb, _) =>
      let score := minimax ai_side depth tb false i32min i32max
      if best_score < score then
        minimaxMoveLoop ai_side depth b rest (some (f, t)) score
      else
        minimaxMoveLoop ai_side depth b rest best_move best_score

/-- `AiPlayer::minimax_move` (depth is the Rust `depth`; the loop scores each
successor at `depth - 1`). -/
def minimax_move (b : Board) (moves : List ((Nat × Nat) × (Nat × Nat)))
    (side : Side) (depth : Nat) : Except String ((Nat × Nat) × (Nat × Nat)) :=
  match minimaxMoveLoop side (depth - 1) b moves none i32min with
  | some m => .ok m
  | none => .error "no best move found"

/-- `AiPlayer::random_move`, with the rng draw supplied by `pick`. -/
def random_move (pick : Nat → Nat) (moves : List ((Nat × Nat) × (Nat × Nat))) :
    Except String ((Nat × Nat) × (Nat × Nat)) :=
  match moves[pick moves.length]? with
  | some m => .ok m
  | none => .error "no available move"

/-- `AiPlayer::simple_eval_move`: prefer a random capturing move (simulated
on a scratch board), falling back to a uniformly random move. -/
def simple_eval_move (pick : Nat → Nat) (b : Board)
    (moves : List ((Nat × Nat) × (Nat × Nat))) (side : Side) :
    Except String ((Nat × Nat) × (Nat × Nat)) :=
  let capturing_moves := moves.filter (fun m =>
    match b.execute_move m.1 m.2 side with
    | .ok (_, record) => !record.captured.isEmpty
    | .error _ => false)
  if !capturing_moves.isEmpty then random_move pick capturing_moves
  else random_move pick moves

/-- `AiPlayer::optimal_move` (level 5): depth-8 minimax. -/
def optimal_move (b : Board) (moves : List ((Nat × Nat) × (Nat × Nat)))
    (side : Side) : Except String ((Nat × Nat) × (Nat × Nat)) :=
  minimax_move b moves side 8

/-- `AiPlayer::select_move`: fail when the side has no legal move, otherwise
dispatch on the difficulty level (any other level plays randomly). -/
def select_move (pick : Nat → Nat) (level : Nat) (b : Board) (side : Side) :
    Except String ((Nat × Nat) × (Nat × Nat)) :=
  let valid_moves := get_valid_moves b side
  if valid_moves.isEmpty then .error "no legal move"
  else
    match level with
    | 1 => random_move pick valid_moves
    | 2 => simple_eval_move pick b valid_moves side
    | 3 => minimax_move b valid_moves side 4
    | 4 => minimax_move b valid_moves side 6
    | 5 => optimal_move b valid_moves side
    | _ => random_move pick valid_moves

/-! ## Board well-formedness

The spec's Board data model (§3) carries an invariant: piece ids are unique,
no two active pieces share a position, and every active piece is inside the
4×4 bounds.  The three parts are stated separately so each theorem can assume
exactly the parts it needs. -/

/-- Piece ids are pairwise distinct. -/
def idsNodup (b : Board) : Prop := (b.pieces.map Piece.id).Nodup

/-- No two active pieces occupy the same position. -/
def activePosDistinct (b : Board) : Prop :=
  b.pieces.Pairwise (fun p q => p.active = true → q.active = true → p.position ≠ q.position)

/-- Every active piece is inside the 4×4 bounds. -/
def activeInBounds (b : Board) : Prop :=
  ∀ p ∈ b.pieces, p.active = true → p.position.1 < 4 ∧ p.position.2 < 4

/-- The full board invariant of the spec's data model. -/
def BoardWF (b : Board) : Prop :=
  idsNodup b ∧ activePosDistinct b ∧ activeInBounds b

instance (b : Board) : Decidable (idsNodup b) := by unfold idsNodup; infer_instance

instance (b : Board) : Decidable (activePosDistinct b) := by
  unfold activePosDistinct; infer_instance

instance (b : Board) : Decidable (activeInBounds b) := by
  unfold activeInBounds; infer_instance

instance (b : Board) : Decidable (BoardWF b) := by unfold BoardWF; infer_instance

/-! ## General lemmas about `updateFirst` -/

theorem updateFirst_of_forall_not {p : α → Bool} {f : α → α} {l : List α}
    (h : ∀ x ∈ l, p x = false) : updateFirst p f l = l := by
  induction l with
  | nil => rfl
  | cons x xs ih =>
    simp only [updateFirst, h x (List.mem_cons_self x xs)]
    simp only [Bool.false_eq_true, if_false, List.cons.injEq, true_and]
    exact ih (fun y hy => h y (List.mem_cons_of_mem x hy))

theorem length_updateFirst (p : α → Bool) (f : α → α) (l : List α) :
    (updateFirst p f l).length = l.length := by
  induction l with
  | nil => rfl
  | cons x xs ih =>
    simp only [updateFirst]
    split <;> simp [ih]

theorem countP_updateFirst {q : α → Bool} (p : α → Bool) (f : α → α) (l : List α)
    (hf : ∀ x, q (f x) = q x) : (updateFirst p f l).countP q = l.countP q := by
  induction l with
  | nil => rfl
  | cons x xs ih =>
    simp only [updateFirst]
    split
    · simp [List.countP_cons, hf]
    · simp [List.countP_cons, ih]

theorem map_updateFirst_of_preserved (p : α → Bool) (f : α → α) (g : α → β)
    (l : List α) (hf : ∀ x, g (f x) = g x) :
    (updateFirst p f l).map g = l.map g := by
  induction l with
  | nil => rfl
  | cons x xs ih =>
    simp only [updateFirst]
    split <;> simp [hf, ih]

theorem mem_updateFirst_of_prop {p : α → Bool} {f : α → α} {l : List α}
    (P : α → Prop) (hl : ∀ x ∈ l, P x) (hf : ∀ x, P x → P (f x)) :
    ∀ y ∈ updateFirst p f l, P y := by
  induction l with
  | nil => intro y hy; cases hy
  | cons x xs ih =>
    intro y hy
    simp only [updateFirst] at hy
    split at hy
    · rcases List.mem_cons.mp hy with h | h
      · exact h ▸ hf x (hl x (List.mem_cons_self x xs))
      · exact hl y (List.mem_cons_of_mem x h)
    · rcases List.mem_cons.mp hy with h | h
      · exact h ▸ hl x (List.mem_cons_self x xs)
      · exact ih (fun z hz => hl z (List.mem_cons_of_mem x hz)) y h

/-- With pairwise-distinct keys, updating the first match behaves like a
pointwise map keyed on the found element's key. -/
theorem updateFirst_eq_map_of_nodup_keys {p : α → Bool} {f : α → α} {l : List α}
    (g : α → β) [DecidableEq β] (hn : (l.map g).Nodup) {a : α}
    (ha : l.find? p = some a) :
    updateFirst p f l = l.map (fun z => if g z = g a then f z else z) := by
  induction l with
  | nil => simp at ha
  | cons x xs ih =>
    simp only [List.map_cons, List.nodup_cons] at hn
    by_cases hx : p x
    · rw [List.find?_cons_of_pos _ hx] at ha
      injection ha with ha
      subst ha
      simp only [updateFirst, hx, if_true, List.map_cons, if_pos rfl,
        List.cons.injEq, true_and]
      have hz : ∀ z ∈ xs, (if g z = g x then f z else z) = z := by
        intro z hz
        rw [if_neg]
        intro hgz
        exact hn.1 (hgz ▸ List.mem_map_of_mem g hz)
      simp only [List.map_congr_left hz]
      exact (List.map_id' xs).symm
    · rw [List.find?_cons_of_neg _ hx] at ha
      have hax : a ∈ xs := List.mem_of_find?_eq_some ha
      have hgx : g x ≠ g a := by
        intro hgx
        exact hn.1 (hgx ▸ List.mem_map_of_mem g hax)
      simp only [updateFirst, hx, Bool.false_eq_true, if_false, List.map_cons,
        if_neg hgx, List.cons.injEq, true_and]
      exact ih hn.2 ha

/-- With no key collisions, updating by key is a pointwise map. -/
theorem updateFirst_key_eq_map {f : α → α} {l : List α} (g : α → β)
    [DecidableEq β] (hn : (l.map g).Nodup) (k : β) :
    updateFirst (fun z => decide (g z = k)) f l =
      l.map (fun z => if g z = k then f z else z) := by
  induction l with
  | nil => rfl
  | cons x xs ih =>
    simp only [List.map_cons, List.nodup_cons] at hn
    simp only [updateFirst, List.map_cons]
    by_cases hx : g x = k
    · have hz : ∀ z ∈ xs, (if g z = k then f z else z) = z := by
        intro z hz
        rw [if_neg]
        intro hgz
        exact hn.1 (by rw [← hx] at hgz; exact hgz ▸ List.mem_map_of_mem g hz)
      simp only [hx, decide_True, if_true, if_pos rfl, List.cons.injEq, true_and]
      simp only [List.map_congr_left hz]
      exact (List.map_id' xs).symm
    · simp only [hx, decide_False, Bool.false_eq_true, if_false, List.cons.injEq,
        true_and, if_neg hx]
      exact ih hn.2

/-! ## Small list facts -/

theorem two_le_countP_of_mem {l : List α} {x y : α} {p : α → Bool}
    (hx : x ∈ l) (hy : y ∈ l) (hxy : x ≠ y) (hpx : p x) (hpy : p y) :
    2 ≤ l.countP p := by
  induction l with
  | nil => cases hx
  | cons a as ih =>
    rcases List.mem_cons.mp hx with rfl | hx'
    · have hy' : y ∈ as := by
        rcases List.mem_cons.mp hy with rfl | h
        · exact absurd rfl hxy
        · exact h
      have : 1 ≤ as.countP p := List.countP_pos_iff.mpr ⟨y, hy', hpy⟩
      simp only [List.countP_cons, hpx, if_pos]
      omega
    · rcases List.mem_cons.mp hy with rfl | hy'
      · have : 1 ≤ as.countP p := List.countP_pos_iff.mpr ⟨x, hx', hpx⟩
        simp only [List.countP_cons, hpy, if_pos]
        omega
      · have := ih hx' hy'
        simp only [List.countP_cons]
        omega

theorem find?_of_filter_singleton {l : List α} {p : α → Bool} {e : α}
    (h : l.filter p = [e]) : l.find? p = some e := by
  induction l with
  | nil => simp at h
  | cons x xs ih =>
    by_cases hx : p x
    · rw [List.filter_cons_of_pos hx] at h
      injection h with h1 h2
      rw [List.find?_cons_of_pos _ hx, h1]
    · rw [List.filter_cons_of_neg hx] at h
      rw [List.find?_cons_of_neg _ hx]
      exact ih h

/-! ## Counts are stable under repositioning -/

/-- Repositioning a piece changes neither side's active-piece count. -/
theorem count_active_movePieceAt (b : Board) (fromPos toPos : Nat × Nat)
    (side : Side) :
    (b.movePieceAt fromPos toPos).count_active side = b.count_active side := by
  unfold Board.movePieceAt Board.count_active
  exact countP_updateFirst _ _ _ (fun x => rfl)

/-- Repositioning a piece does not change `is_single_piece_mode`. -/
theorem is_single_piece_mode_movePieceAt (b : Board) (fromPos toPos : Nat × Nat) :
    (b.movePieceAt fromPos toPos).is_single_piece_mode = b.is_single_piece_mode := by
  unfold Board.is_single_piece_mode
  rw [count_active_movePieceAt, count_active_movePieceAt]

/-! ## Claim theorems -/

/-- C10: for every move executed through `execute_move`, the
`was_single_piece_mode` flag recorded before the piece is repositioned equals
the `is_single_piece_mode` value of the repositioned board — the board that
`calculate_captures` dispatches on inside `execute_move` (the deactivation of
captured pieces happens only afterwards) — because relocating a piece changes
neither side's active-piece count.  The pre-move and post-move single-piece
snapshots therefore always agree and the capture-rule selection is
unambiguous. -/
theorem single_piece_mode_snapshots_agree (b : Board) (fromPos toPos : Nat × Nat)
    (side : Side) (b2 : Board) (rec : MoveRecord)
    (h : b.execute_move fromPos toPos side = .ok (b2, rec)) :
    rec.was_single_piece_mode = (b.movePieceAt fromPos toPos).is_single_piece_mode ∧
      ∀ s, (b.movePieceAt fromPos toPos).count_active s = b.count_active s := by
  refine ⟨?_, fun s => count_active_movePieceAt b fromPos toPos s⟩
  unfold Board.execute_move at h
  cases hp : b.piece_at fromPos.1 fromPos.2 with
  | none => rw [hp] at h; cases h
  | some piece =>
    rw [hp] at h
    simp only [Except.ok.injEq, Prod.mk.injEq] at h
    rw [← h.2]
    exact (is_single_piece_mode_movePieceAt b fromPos toPos).symm

/-- The board after the opening move (0,1)→(1,1), used by witnesses. -/
def boardAfterOpening : Board :=
  ⟨[ Piece.new 1 .Black 0 0, Piece.new 2 .Black 1 0, Piece.new 3 .Black 2 0,
     Piece.new 4 .Black 3 0, Piece.new 5 .Black 1 1, Piece.new 6 .Black 3 1,
     Piece.new 7 .White 0 3, Piece.new 8 .White 1 3, Piece.new 9 .White 2 3,
     Piece.new 10 .White 3 3, Piece.new 11 .White 0 2, Piece.new 12 .White 3 2 ]⟩

/-- The move record of the opening move (0,1)→(1,1), used by witnesses. -/
def openingRecord : MoveRecord :=
  { piece_id := 5, fromPos := (0, 1), toPos := (1, 1), captured := [],
    was_single_piece_mode := false, side := .Black }

/-- Witness for C10 at a concrete input: the opening move (0,1)→(1,1). -/
theorem single_piece_mode_snapshots_agree_witness :
    Board.initial.execute_move (0, 1) (1, 1) .Black =
      .ok (boardAfterOpening, openingRecord) ∧
    openingRecord.was_single_piece_mode =
      (Board.initial.movePieceAt (0, 1) (1, 1)).is_single_piece_mode :=
  ⟨by decide,
    (single_piece_mode_snapshots_agree Board.initial (0, 1) (1, 1) .Black
      boardAfterOpening openingRecord (by decide)).1⟩

/-- C5 counterexample: on a board where Black has zero active pieces and
White one, both counts are ≤ 2, yet `check_game_end` returns a win (the
zero-pieces rule fires first), not `Draw` — refuting the claim's parenthesis
"Draw is returned exactly when both counts are ≤ 2". -/
theorem check_game_end_draw_parenthesis_false :
    let b : Board := ⟨[Piece.new 7 .White 0 0]⟩
    b.count_active .Black ≤ 2 ∧ b.count_active .White ≤ 2 ∧
      check_game_end b .Black .Black = some .AiWin ∧
      check_game_end b .Black .Black ≠ some .Draw := by
  decide

/-- C5 (amended): `check_game_end` evaluates its conditions in order — zero
pieces for either side, then the both-at-most-two draw, then stalemate of the
side to move — mapping wins through `player_side`; and `Draw` is returned
exactly when both sides have between 1 and 2 active pieces (the claim's
"both counts ≤ 2" parenthesis must exclude the zero-count boards, which the
earlier win conditions capture). -/
theorem check_game_end_characterization (b : Board) (side_to_move player_side : Side) :
    (check_game_end b side_to_move player_side =
      if b.count_active .Black = 0 then
        some (if player_side = .White then .PlayerWin else .AiWin)
      else if b.count_active .White = 0 then
        some (if player_side = .Black then .PlayerWin else .AiWin)
      else if b.count_active .Black ≤ 2 ∧ b.count_active .White ≤ 2 then
        some .Draw
      else if is_stalemated b side_to_move then
        some (if side_to_move.opposite = player_side then .PlayerWin else .AiWin)
      else none) ∧
    (check_game_end b side_to_move player_side = some .Draw ↔
      (1 ≤ b.count_active .Black ∧ b.count_active .Black ≤ 2 ∧
        1 ≤ b.count_active .White ∧ b.count_active .White ≤ 2)) := by
  have heq : check_game_end b side_to_move player_side =
      (if b.count_active .Black = 0 then
        some (if player_side = .White then GameResult.PlayerWin else .AiWin)
      else if b.count_active .White = 0 then
        some (if player_side = .Black then GameResult.PlayerWin else .AiWin)
      else if b.count_active .Black ≤ 2 ∧ b.count_active .White ≤ 2 then
        some GameResult.Draw
      else if is_stalemated b side_to_move then
        some (if side_to_move.opposite = player_side then GameResult.PlayerWin else .AiWin)
      else none) := by
    unfold check_game_end
    simp only [Bool.and_eq_true, beq_iff_eq, decide_eq_true_eq]
  refine ⟨heq, ?_⟩
  rw [heq]
  constructor
  · intro h
    split_ifs at h
    all_goals first
      | (exfalso; exact Option.noConfusion h (fun hh => GameResult.noConfusion hh))
      | omega
  · rintro ⟨a1, a2, a3, a4⟩
    rw [if_neg (by omega), if_neg (by omega), if_pos ⟨a2, a4⟩]

/-- C8: the state machine never corrupts the `Game` on bad input.  (a) Any
(state, event) combination outside `handle_event`'s transition table falls
through to the final catch-all arm: the call succeeds (no error) and every
component of the `Game` is unchanged.  (b) When an inner operation of a
matched transition fails — `execute_move` finding no piece at the pending
move's origin — the failure is handed back to the immediate caller as the
call's error result while the `Game` itself is left completely unchanged
(nothing has been mutated when the `?` fires), so the machine cannot be left
in an invalid state by a caller error. -/
theorem handle_event_safe (g : Game) (e : GameEvent) :
    (matchedTransition g.state e = false → g.handle_event e = (g, none)) ∧
    (∀ pm, g.state = .PieceMoving → e = .PieceMoveAnimationComplete true →
      g.pending_move = some pm →
      g.board.piece_at pm.fromPos.1 pm.fromPos.2 = none →
      (g.handle_event e).1 = g ∧ (g.handle_event e).2.isSome = true) := by
  obtain ⟨bd, st, ps, ct, mh, lvl, sel, pm0, lc, lr⟩ := g
  constructor
  · intro h
    cases st <;> cases e <;>
      first
        | rfl
        | (exfalso; simp [matchedTransition] at h)
  · intro pm hst he hpm hpa
    simp only at hst hpm
    subst hst he hpm
    simp only [Game.handle_event, Board.execute_move, hpa]
    exact ⟨rfl, rfl⟩

/-- Witness for C8 at concrete inputs: `StartUndo` during `AiThinking` is a
silent no-op, and a pending move whose origin is empty leaves the game
unchanged while reporting the failure. -/
theorem handle_event_safe_witness :
    (matchedTransition GameState.AiThinking .StartUndo = false ∧
      Game.handle_event { Game.new with state := .AiThinking } .StartUndo =
        ({ Game.new with state := .AiThinking }, none)) ∧
    ((Game.handle_event
        { Game.new with state := .PieceMoving,
                        pending_move := some ⟨(0, 0), (1, 0), false⟩ }
        (.PieceMoveAnimationComplete true)).1 =
      { Game.new with state := .PieceMoving,
                      pending_move := some ⟨(0, 0), (1, 0), false⟩ }) :=
  ⟨⟨by decide, (handle_event_safe { Game.new with state := .AiThinking }
      .StartUndo).1 (by decide)⟩,
    ((handle_event_safe
        { Game.new with state := .PieceMoving,
                        pending_move := some ⟨(0, 0), (1, 0), false⟩ }
        (.PieceMoveAnimationComplete true)).2
      ⟨(0, 0), (1, 0), false⟩ rfl rfl rfl (by decide)).1⟩

/-- C4 counterexample: a `WaitingForPlayer` game holding exactly one
`MoveRecord`.  Processing `StartUndo` then `UndoAnimationComplete` pops and
reverts that single record, so the board *does* change even though fewer than
two half-moves of history exist — refuting the claim's "when fewer than two
half-moves of history exist ... no board change". -/
def singleRecordGame : Game :=
  { board := boardAfterOpening, state := .WaitingForPlayer,
    player_side := .Black, current_turn := .Black,
    move_history := [openingRecord], ai_level := 3, selected_piece := none,
    pending_move := none, last_captured := [], last_result := none }

theorem undo_single_record_changes_board :
    singleRecordGame.move_history.length < 2 ∧
      (Game.handle_event (Game.handle_event singleRecordGame .StartUndo).1
        .UndoAnimationComplete).1.state = .WaitingForPlayer ∧
      (Game.handle_event (Game.handle_event singleRecordGame .StartUndo).1
        .UndoAnimationComplete).1.board ≠ singleRecordGame.board := by
  decide

/-- C4 (amended): processing `StartUndo` then `UndoAnimationComplete` from
`WaitingForPlayer` reverts exactly two `MoveRecord`s when at least two exist,
ending in `WaitingForPlayer` with the side-to-move forced to the human side
and the stored result cleared; with exactly one record it reverts that one
record (the board changes accordingly) with the same forcing; with no
records the `StartUndo` guard rejects the undo and the pair of events leaves
the whole game unchanged — still `WaitingForPlayer` with no board change,
but the side-to-move and stored result keep whatever values they had. -/
theorem undo_pair_of_events (g : Game) (hst : g.state = .WaitingForPlayer) :
    (∀ r2 r1 rest, g.move_history = r2 :: r1 :: rest →
      (Game.handle_event (Game.handle_event g .StartUndo).1
          .UndoAnimationComplete).1 =
        { g with board := (g.board.undo_move r2).undo_move r1,
                 move_history := rest, current_turn := g.player_side,
                 last_result := none, state := .WaitingForPlayer }) ∧
    (∀ r, g.move_history = [r] →
      (Game.handle_event (Game.handle_event g .StartUndo).1
          .UndoAnimationComplete).1 =
        { g with board := g.board.undo_move r, move_history := [],
                 current_turn := g.player_side, last_result := none,
                 state := .WaitingForPlayer }) ∧
    (g.move_history = [] →
      (Game.handle_event (Game.handle_event g .StartUndo).1
          .UndoAnimationComplete).1 = g) := by
  obtain ⟨bd, st, ps, ct, mh, lvl, sel, pm, lc, lr⟩ := g
  simp only at hst
  subst hst
  refine ⟨?_, ?_, ?_⟩
  · rintro r2 r1 rest rfl
    simp [Game.handle_event, Game.can_undo, GameState.can_undo, Game.perform_undo]
  · rintro r rfl
    simp [Game.handle_event, Game.can_undo, GameState.can_undo, Game.perform_undo]
  · rintro rfl
    simp [Game.handle_event, Game.can_undo, GameState.can_undo]

/-- A concrete two-record game for the C4 witness, with the turn away from
the human and a stale stored result so the forcing is visible. -/
def undoWitnessGame : Game :=
  { board := boardAfterOpening, state := .WaitingForPlayer,
    player_side := .Black, current_turn := .White,
    move_history := [openingRecord, openingRecord], ai_level := 3,
    selected_piece := none, pending_move := none, last_captured := [],
    last_result := some .Draw }

/-- Witness for C4 (amended) at a concrete two-record game. -/
theorem undo_pair_of_events_witness :
    (Game.handle_event (Game.handle_event undoWitnessGame .StartUndo).1
        .UndoAnimationComplete).1 =
      { undoWitnessGame with
          board := (undoWitnessGame.board.undo_move openingRecord).undo_move
            openingRecord,
          move_history := [], current_turn := .Black, last_result := none,
          state := .WaitingForPlayer } :=
  (undo_pair_of_events undoWitnessGame rfl).1 openingRecord openingRecord [] rfl

/-! ## Membership characterizations for the rules engine -/

/-- Unfolded membership in `get_valid_moves`. -/
theorem mem_get_valid_moves {b : Board} {side : Side}
    {m : (Nat × Nat) × (Nat × Nat)} :
    m ∈ get_valid_moves b side ↔
      ∃ p, p ∈ b.pieces ∧ p.active = true ∧ p.side = side ∧
        ∃ d, d ∈ directions ∧
          Board.is_valid_pos ((p.position.1 : Int) + d.1)
            ((p.position.2 : Int) + d.2) = true ∧
          b.is_empty ((p.position.1 : Int) + d.1).toNat
            ((p.position.2 : Int) + d.2).toNat = true ∧
          m = (p.position, (((p.position.1 : Int) + d.1).toNat,
            ((p.position.2 : Int) + d.2).toNat)) := by
  unfold get_valid_moves Board.active_pieces_of
  simp only [List.mem_flatMap, List.mem_filter, List.mem_filterMap,
    Bool.and_eq_true, decide_eq_true_eq]
  constructor
  · rintro ⟨p, ⟨hp, hact, hside⟩, d, hd, hsome⟩
    by_cases hc : Board.is_valid_pos ((p.position.1 : Int) + d.1)
        ((p.position.2 : Int) + d.2) = true ∧
        b.is_empty ((p.position.1 : Int) + d.1).toNat
          ((p.position.2 : Int) + d.2).toNat = true
    · rw [if_pos (by simp [hc.1, hc.2])] at hsome
      exact ⟨p, hp, hact, hside, d, hd, hc.1, hc.2,
        (Option.some_injective _ hsome).symm⟩
    · rw [if_neg (by simpa [Bool.and_eq_true] using hc)] at hsome
      cases hsome
  · rintro ⟨p, hp, hact, hside, d, hd, hv, he, rfl⟩
    exact ⟨p, ⟨hp, hact, hside⟩, d, hd, by rw [if_pos (by simp [hv, he])]⟩

/-- `piece_at` returns an active piece of the queried position. -/
theorem piece_at_spec {b : Board} {x y : Nat} {q : Piece}
    (h : b.piece_at x y = some q) :
    q ∈ b.pieces ∧ q.active = true ∧ q.position = (x, y) := by
  have hm := List.mem_of_find?_eq_some h
  have hq := List.find?_some h
  simp only [Bool.and_eq_true, decide_eq_true_eq] at hq
  exact ⟨hm, hq.1, hq.2⟩

/-- Two active pieces sharing a position are the same piece
(the no-overlap half of the board invariant). -/
theorem active_pos_inj {b : Board} (h : activePosDistinct b) {p q : Piece}
    (hp : p ∈ b.pieces) (hq : q ∈ b.pieces) (hpa : p.active = true)
    (hqa : q.active = true) (hpos : p.position = q.position) : p = q := by
  by_contra hne
  have hsym : Symmetric
      (fun p q : Piece => p.active = true → q.active = true →
        p.position ≠ q.position) := by
    intro a c hac hca hac2 hpos2
    exact (hac hac2 hca) hpos2.symm
  exact (List.Pairwise.forall hsym h hp hq hne) hpa hqa hpos

/-- Under the no-overlap invariant, `piece_at` finds exactly the active piece
claiming the position. -/
theorem piece_at_of_mem {b : Board} (hwf : activePosDistinct b) {p : Piece}
    (hp : p ∈ b.pieces) (hact : p.active = true) :
    b.piece_at p.position.1 p.position.2 = some p := by
  cases hfind : b.piece_at p.position.1 p.position.2 with
  | none =>
    exfalso
    rw [Board.piece_at, List.find?_eq_none] at hfind
    exact hfind p hp (by simp [hact])
  | some q =>
    obtain ⟨hqmem, hqact, hqpos⟩ := piece_at_spec hfind
    rw [active_pos_inj hwf hqmem hp hqact hact (by rw [hqpos])]

/-- Under the no-overlap invariant, `get_valid_moves` membership coincides
with `is_valid_move` (shared workhorse for the enumeration claims). -/
theorem gvm_mem_iff_valid (b : Board) (side : Side)
    (hwf : activePosDistinct b) (m : (Nat × Nat) × (Nat × Nat)) :
    m ∈ get_valid_moves b side ↔ is_valid_move b m.1 m.2 side = true := by
  rw [mem_get_valid_moves]
  constructor
  · rintro ⟨p, hp, hact, hside, d, hd, hv, he, rfl⟩
    have hpa : b.piece_at p.position.1 p.position.2 = some p :=
      piece_at_of_mem hwf hp hact
    simp only [is_valid_move, hpa]
    have hnx : (0 : Int) ≤ (p.position.1 : Int) + d.1 ∧
        (p.position.1 : Int) + d.1 < 4 ∧
        (0 : Int) ≤ (p.position.2 : Int) + d.2 ∧
        (p.position.2 : Int) + d.2 < 4 := by
      simpa [Board.is_valid_pos, BOARD_SIZE, Bool.and_eq_true,
        decide_eq_true_eq, and_assoc] using hv
    have hx : ((((p.position.1 : Int) + d.1).toNat : Int)) =
        (p.position.1 : Int) + d.1 := Int.toNat_of_nonneg hnx.1
    have hy : ((((p.position.2 : Int) + d.2).toNat : Int)) =
        (p.position.2 : Int) + d.2 := Int.toNat_of_nonneg hnx.2.2.1
    rw [if_neg, if_neg, if_neg, if_neg]
    · exact hact
    · fin_cases hd <;> simp_all
    · simpa using he
    · simp only [Bool.not_eq_true', Bool.not_eq_false]
      simp only [Board.is_valid_pos, BOARD_SIZE, Bool.and_eq_true,
        decide_eq_true_eq]
      refine ⟨⟨⟨?_, ?_⟩, ?_⟩, ?_⟩ <;> omega
    · simp [hside]
  · intro hvm
    unfold is_valid_move at hvm
    cases hpa : b.piece_at m.1.1 m.1.2 with
    | none => rw [hpa] at hvm; cases hvm
    | some piece =>
      rw [hpa] at hvm
      simp only at hvm
      obtain ⟨hmem, hact0, hpos0⟩ := piece_at_spec hpa
      by_cases hside : piece.side = side
      case neg => simp [hside] at hvm
      rw [if_neg (by simp [hside])] at hvm
      by_cases hbnd : Board.is_valid_pos (m.2.1 : Int) (m.2.2 : Int) = true
      case neg => simp [hbnd] at hvm
      rw [if_neg (by simp [hbnd])] at hvm
      by_cases hemp : b.is_empty m.2.1 m.2.2 = true
      case neg => simp [hemp] at hvm
      rw [if_neg (by simp [hemp])] at hvm
      set dx : Int := (m.2.1 : Int) - (m.1.1 : Int) with hdx
      set dy : Int := (m.2.2 : Int) - (m.1.2 : Int) with hdy
      by_cases hstep : (dy = 0 ∧ dx.natAbs = 1) ∨ (dx = 0 ∧ dy.natAbs = 1)
      case neg =>
        exfalso
        have hc1 : (dy == 0 && dx.natAbs == 1) = false := by
          by_cases hdy0 : dy = 0
          · have hna : dx.natAbs ≠ 1 := fun hh => hstep (Or.inl ⟨hdy0, hh⟩)
            simp [hdy0, hna]
          · simp [hdy0]
        have hc2 : (dx == 0 && dy.natAbs == 1) = false := by
          by_cases hdx0 : dx = 0
          · have hna : dy.natAbs ≠ 1 := fun hh => hstep (Or.inr ⟨hdx0, hh⟩)
            simp [hdx0, hna]
          · simp [hdx0]
        rw [hc1, hc2] at hvm
        simp at hvm
      case pos =>
        have hact : piece.active = true := by
          have hcond : (!(dy == 0 && dx.natAbs == 1) &&
              !(dx == 0 && dy.natAbs == 1)) = false := by
            rcases hstep with ⟨h1, h2⟩ | ⟨h1, h2⟩ <;> simp [h1, h2]
          rw [hcond] at hvm
          simpa using hvm
        have hbnd2 : (0 : Int) ≤ (m.2.1 : Int) ∧ (m.2.1 : Int) < 4 ∧
            (0 : Int) ≤ (m.2.2 : Int) ∧ (m.2.2 : Int) < 4 := by
          simpa [Board.is_valid_pos, BOARD_SIZE, Bool.and_eq_true,
            decide_eq_true_eq, and_assoc] using hbnd
        have hdd : ((dx, dy) : Int × Int) ∈ directions := by
          rcases hstep with ⟨h1, h2⟩ | ⟨h1, h2⟩ <;>
            [rcases Int.natAbs_eq_iff.mp h2 with h3 | h3;
             rcases Int.natAbs_eq_iff.mp h2 with h3 | h3] <;>
            simp_all [directions]
        refine ⟨piece, hmem, hact, hside, (dx, dy), hdd, ?_, ?_, ?_⟩
        · have e1 : ((piece.position.1 : Int) + dx) = (m.2.1 : Int) := by
            rw [hpos0, hdx]; ring
          have e2 : ((piece.position.2 : Int) + dy) = (m.2.2 : Int) := by
            rw [hpos0, hdy]; ring
          rw [e1, e2]
          exact hbnd
        · have e1 : ((piece.position.1 : Int) + dx) = (m.2.1 : Int) := by
            rw [hpos0, hdx]; ring
          have e2 : ((piece.position.2 : Int) + dy) = (m.2.2 : Int) := by
            rw [hpos0, hdy]; ring
          simp only [e1, e2, Int.toNat_natCast]
          exact hemp
        · have e1 : ((piece.position.1 : Int) + dx) = (m.2.1 : Int) := by
            rw [hpos0, hdx]; ring
          have e2 : ((piece.position.2 : Int) + dy) = (m.2.2 : Int) := by
            rw [hpos0, hdy]; ring
          simp only [e1, e2, Int.toNat_natCast]
          rw [hpos0]

/-- C6: under the board invariant's no-overlap clause (§3 of the spec: no two
active pieces share a position), `get_valid_moves` contains exactly the
(from, to) pairs accepted by `is_valid_move`. -/
theorem get_valid_moves_iff_is_valid_move (b : Board) (side : Side)
    (hwf : activePosDistinct b) (m : (Nat × Nat) × (Nat × Nat)) :
    m ∈ get_valid_moves b side ↔ is_valid_move b m.1 m.2 side = true :=
  gvm_mem_iff_valid b side hwf m

/-- Witness for C6 at a concrete input: on the initial board, the opening
move (0,1)→(1,1) is both enumerated and accepted. -/
theorem get_valid_moves_iff_is_valid_move_witness :
    activePosDistinct Board.initial ∧
      (((0, 1), (1, 1)) ∈ get_valid_moves Board.initial .Black ↔
        is_valid_move Board.initial (0, 1) (1, 1) .Black = true) :=
  ⟨by decide, get_valid_moves_iff_is_valid_move Board.initial .Black
    (by decide) ((0, 1), (1, 1))⟩

/-! ## C3: the single-piece "carry" capture -/

/-- The two immediate orthogonal neighbours of `pos` on one axis, when both
are in-bounds and occupied.  (`piece_at` only sees active pieces, so the
occupants are active by construction.)  Written from the spec's wording:
"both immediate orthogonal neighbors ... are in-bounds, active". -/
def carryNeighbors (b : Board) (pos : Nat × Nat) (horizontal : Bool) :
    Option (Piece × Piece) :=
  let d : Int × Int := if horizontal then (1, 0) else (0, 1)
  let n1 : Int × Int := ((pos.1 : Int) + d.1, (pos.2 : Int) + d.2)
  let n2 : Int × Int := ((pos.1 : Int) - d.1, (pos.2 : Int) - d.2)
  if Board.is_valid_pos n1.1 n1.2 && Board.is_valid_pos n2.1 n2.2 then
    match b.piece_at n1.1.toNat n1.2.toNat, b.piece_at n2.1.toNat n2.2.toNat with
    | some p1, some p2 => some (p1, p2)
    | _, _ => none
  else none

/-- The spec's firing condition for the carry capture on one axis: both
immediate neighbours exist (in-bounds, active) and belong to the opponent. -/
def carryFires (b : Board) (M : Piece) (horizontal : Bool) : Prop :=
  ∃ p1 p2, carryNeighbors b M.position horizontal = some (p1, p2) ∧
    p1.side ≠ M.side ∧ p2.side ≠ M.side

/-- The spec's captured ids for the carry capture on one axis: when it
fires, both neighbour pieces are captured. -/
def specCarryCapture (b : Board) (M : Piece) (horizontal : Bool) (i : Nat) : Prop :=
  ∃ p1 p2, carryNeighbors b M.position horizontal = some (p1, p2) ∧
    p1.side ≠ M.side ∧ p2.side ≠ M.side ∧ (i = p1.id ∨ i = p2.id)

theorem mem_push_if_new {l : List Nat} {a i : Nat} :
    (i ∈ (if l.contains a then l else l ++ [a])) ↔ (i ∈ l ∨ i = a) := by
  by_cases h : l.contains a = true
  · rw [if_pos h]
    constructor
    · exact Or.inl
    · rintro (hi | rfl)
      · exact hi
      · exact List.elem_iff.mp h
  · rw [if_neg h]
    simp [List.mem_append]

/-- Membership characterization of `check_single_piece_capture`. -/
theorem mem_check_single_piece_capture {b : Board} {x y : Nat} {side : Side}
    {horiz : Bool} {acc : List Nat} {i : Nat} :
    i ∈ check_single_piece_capture b x y side horiz acc ↔
      i ∈ acc ∨ ∃ p1 p2, carryNeighbors b (x, y) horiz = some (p1, p2) ∧
        p1.side ≠ side ∧ p2.side ≠ side ∧ (i = p1.id ∨ i = p2.id) := by
  unfold check_single_piece_capture carryNeighbors
  cases horiz <;>
    simp only [eq_self_iff_true, ite_true, Bool.false_eq_true, ite_false,
      add_zero, sub_zero, Int.toNat_natCast]
  case false =>
    by_cases hv1 : Board.is_valid_pos (x : Int) ((y : Int) + 1) = true
    · by_cases hv2 : Board.is_valid_pos (x : Int) ((y : Int) - 1) = true
      · rw [if_neg (by simp [hv1, hv2]), if_pos (by simp [hv1, hv2])]
        cases h1 : b.piece_at x ((y : Int) + 1).toNat with
        | none => simp
        | some p1 =>
          cases h2 : b.piece_at x ((y : Int) - 1).toNat with
          | none => simp
          | some p2 =>
            have ha1 : p1.active = true := (piece_at_spec h1).2.1
            have ha2 : p2.active = true := (piece_at_spec h2).2.1
            simp only [Option.some.injEq, Prod.mk.injEq]
            by_cases hs : p1.side ≠ side ∧ p2.side ≠ side
            · rw [if_pos (by simp [hs.1, hs.2, ha1, ha2])]
              simp only [mem_push_if_new]
              constructor
              · rintro ((hi | rfl) | rfl)
                · exact Or.inl hi
                · exact Or.inr ⟨p1, p2, ⟨rfl, rfl⟩, hs.1, hs.2, Or.inl rfl⟩
                · exact Or.inr ⟨p1, p2, ⟨rfl, rfl⟩, hs.1, hs.2, Or.inr rfl⟩
              · rintro (hi | ⟨q1, q2, ⟨rfl, rfl⟩, _, _, (rfl | rfl)⟩)
                · exact Or.inl (Or.inl hi)
                · exact Or.inl (Or.inr rfl)
                · exact Or.inr rfl
            · rw [if_neg (by
                intro hcond
                simp only [Bool.and_eq_true, Bool.not_eq_true',
                  decide_eq_false_iff_not] at hcond
                exact hs ⟨hcond.1.1.1, hcond.1.1.2⟩)]
              constructor
              · exact Or.inl
              · rintro (hi | ⟨q1, q2, ⟨rfl, rfl⟩, hq1, hq2, _⟩)
                · exact hi
                · exact absurd ⟨hq1, hq2⟩ hs
      · rw [if_pos (by simp [hv2]), if_neg (by simp [hv2])]
        simp
    · rw [if_pos (by simp [hv1]), if_neg (by simp [hv1])]
      simp
  case true =>
    by_cases hv1 : Board.is_valid_pos ((x : Int) + 1) (y : Int) = true
    · by_cases hv2 : Board.is_valid_pos ((x : Int) - 1) (y : Int) = true
      · rw [if_neg (by simp [hv1, hv2]), if_pos (by simp [hv1, hv2])]
        cases h1 : b.piece_at ((x : Int) + 1).toNat y with
        | none => simp
        | some p1 =>
          cases h2 : b.piece_at ((x : Int) - 1).toNat y with
          | none => simp
          | some p2 =>
            have ha1 : p1.active = true := (piece_at_spec h1).2.1
            have ha2 : p2.active = true := (piece_at_spec h2).2.1
            simp only [Option.some.injEq, Prod.mk.injEq]
            by_cases hs : p1.side ≠ side ∧ p2.side ≠ side
            · rw [if_pos (by simp [hs.1, hs.2, ha1, ha2])]
              simp only [mem_push_if_new]
              constructor
              · rintro ((hi | rfl) | rfl)
                · exact Or.inl hi
                · exact Or.inr ⟨p1, p2, ⟨rfl, rfl⟩, hs.1, hs.2, Or.inl rfl⟩
                · exact Or.inr ⟨p1, p2, ⟨rfl, rfl⟩, hs.1, hs.2, Or.inr rfl⟩
              · rintro (hi | ⟨q1, q2, ⟨rfl, rfl⟩, _, _, (rfl | rfl)⟩)
                · exact Or.inl (Or.inl hi)
                · exact Or.inl (Or.inr rfl)
                · exact Or.inr rfl
            · rw [if_neg (by
                intro hcond
                simp only [Bool.and_eq_true, Bool.not_eq_true',
                  decide_eq_false_iff_not] at hcond
                exact hs ⟨hcond.1.1.1, hcond.1.1.2⟩)]
              constructor
              · exact Or.inl
              · rintro (hi | ⟨q1, q2, ⟨rfl, rfl⟩, hq1, hq2, _⟩)
                · exact hi
                · exact absurd ⟨hq1, hq2⟩ hs
      · rw [if_pos (by simp [hv2]), if_neg (by simp [hv2])]
        simp
    · rw [if_pos (by simp [hv1]), if_neg (by simp [hv1])]
      simp
/-- The two carry neighbours are distinct active pieces of the board. -/
theorem carryNeighbors_distinct {b : Board} {pos : Nat × Nat} {h : Bool}
    {p1 p2 : Piece} (hc : carryNeighbors b pos h = some (p1, p2)) :
    p1 ∈ b.pieces ∧ p2 ∈ b.pieces ∧ p1.active = true ∧ p2.active = true ∧
      p1 ≠ p2 := by
  unfold carryNeighbors at hc
  cases h <;>
    simp only [eq_self_iff_true, ite_true, Bool.false_eq_true, ite_false,
      add_zero, sub_zero, Int.toNat_natCast] at hc <;>
    (split at hc
     case isFalse => cases hc
     case isTrue hv =>
      split at hc
      case h_2 => cases hc
      rename_i q1 q2 h1 h2
      injection hc with hc
      injection hc with e1 e2
      subst e1 e2
      obtain ⟨hm1, ha1, hp1⟩ := piece_at_spec h1
      obtain ⟨hm2, ha2, hp2⟩ := piece_at_spec h2
      simp only [Bool.and_eq_true, Board.is_valid_pos, BOARD_SIZE,
        decide_eq_true_eq] at hv
      refine ⟨hm1, hm2, ha1, ha2, fun heq => ?_⟩
      rw [heq, hp2] at hp1
      injection hp1 with hpa hpb
      omega)

/-- C3: carry-capture characterization.  With the moved piece `M` looked up
by id and active: (a) whenever the board is in single-piece mode,
`calculate_captures` contains an id exactly when the carry capture fires on
the horizontal or the vertical axis through `M`'s new position and the id is
one of that axis's two neighbour pieces — both neighbours of a qualifying
axis are captured, and the axes contribute independently; (b) whenever some
axis qualifies (both neighbours in-bounds, active, opposing), single-piece
mode is equivalent to the *moving* side having exactly one active piece —
two active opposing neighbours force the opponent's count above one, so the
side with exactly one piece can only be the mover's. -/
theorem single_piece_capture_characterization (b : Board) (pid : Nat)
    (M : Piece) (hM : b.piece_by_id pid = some M) (hact : M.active = true) :
    (b.is_single_piece_mode = true →
      ∀ i, i ∈ calculate_captures b pid ↔
        specCarryCapture b M true i ∨ specCarryCapture b M false i) ∧
    ((carryFires b M true ∨ carryFires b M false) →
      (b.is_single_piece_mode = true ↔ b.count_active M.side = 1)) := by
  constructor
  · intro hmode i
    unfold calculate_captures
    rw [hM]
    simp only [hact, Bool.not_true, Bool.false_eq_true, ite_false, hmode,
      eq_self_iff_true, ite_true]
    rw [mem_check_single_piece_capture, mem_check_single_piece_capture]
    simp only [List.not_mem_nil, false_or]
    unfold specCarryCapture
    constructor
    · rintro (h | h)
      · exact Or.inl h
      · exact Or.inr h
    · rintro (h | h)
      · exact Or.inl h
      · exact Or.inr h
  · intro hfires
    have hdist : ∃ p1 p2, p1 ∈ b.pieces ∧ p2 ∈ b.pieces ∧ p1.active = true ∧
        p2.active = true ∧ p1 ≠ p2 ∧ p1.side ≠ M.side ∧ p2.side ≠ M.side := by
      rcases hfires with ⟨p1, p2, hc, hs1, hs2⟩ | ⟨p1, p2, hc, hs1, hs2⟩ <;>
        (obtain ⟨hm1, hm2, ha1, ha2, hne⟩ := carryNeighbors_distinct hc
         exact ⟨p1, p2, hm1, hm2, ha1, ha2, hne, hs1, hs2⟩)
    obtain ⟨p1, p2, hm1, hm2, ha1, ha2, hne, hs1, hs2⟩ := hdist
    have hopp1 : p1.side = M.side.opposite := by
      cases hps : p1.side <;> cases hMs : M.side <;>
        simp_all [Side.opposite]
    have hopp2 : p2.side = M.side.opposite := by
      cases hps : p2.side <;> cases hMs : M.side <;>
        simp_all [Side.opposite]
    have h2 : 2 ≤ b.count_active M.side.opposite :=
      two_le_countP_of_mem hm1 hm2 hne (by simp [ha1, hopp1])
        (by simp [ha2, hopp2])
    constructor
    · intro hmode
      unfold Board.is_single_piece_mode at hmode
      have hmode2 : b.count_active .Black = 1 ∨ b.count_active .White = 1 := by
        rcases Bool.or_eq_true _ _ ▸ hmode with h | h
        · exact Or.inl (by simpa using h)
        · exact Or.inr (by simpa using h)
      cases hMs : M.side
      · rw [hMs] at h2
        simp only [Side.opposite] at h2
        rcases hmode2 with h | h
        · exact h
        · omega
      · rw [hMs] at h2
        simp only [Side.opposite] at h2
        rcases hmode2 with h | h
        · omega
        · exact h
    · intro hcount
      unfold Board.is_single_piece_mode
      cases hMs : M.side <;> rw [hMs] at hcount <;>
        simp [hcount]

/-- A concrete single-piece board for the C3 witness: a lone White piece at
(1,1) surrounded by Black pieces on all four sides. -/
def singleCaptureBoard : Board :=
  ⟨[ Piece.new 1 .White 1 1, Piece.new 2 .Black 0 1, Piece.new 3 .Black 2 1,
     Piece.new 4 .Black 1 0, Piece.new 5 .Black 1 2 ]⟩

/-- Witness for C3 at a concrete input: White's lone piece at (1,1) carries
on both axes; id 2 (the left neighbour) is captured. -/
theorem single_piece_capture_characterization_witness :
    (2 ∈ calculate_captures singleCaptureBoard 1 ↔
      specCarryCapture singleCaptureBoard (Piece.new 1 .White 1 1) true 2 ∨
      specCarryCapture singleCaptureBoard (Piece.new 1 .White 1 1) false 2) ∧
    2 ∈ calculate_captures singleCaptureBoard 1 :=
  ⟨(single_piece_capture_characterization singleCaptureBoard 1
      (Piece.new 1 .White 1 1) (by decide) (by decide)).1 (by decide) 2,
    by decide⟩

/-! ## C1/C9: round trip and invariant preservation machinery -/

/-- Every id pushed by `check_two_vs_one_in_direction` is the id of an
active enemy piece of the board. -/
theorem mem_check_two_vs_one_in_direction_imp {b : Board} {x y : Nat}
    {side : Side} {dx dy : Int} {pid : Nat} {acc : List Nat} {i : Nat}
    (h : i ∈ check_two_vs_one_in_direction b x y side dx dy pid acc) :
    i ∈ acc ∨ ∃ q, q ∈ b.pieces ∧ q.active = true ∧ q.side ≠ side ∧ q.id = i := by
  rw [check_two_vs_one_in_direction.eq_def] at h
  split at h
  · exact Or.inl h
  · split at h
    · exact Or.inl h
    · split at h
      · exact Or.inl h
      · split at h
        case h_2 => exact Or.inl h
        case h_1 q0 q1 q2 hpos =>
          split at h
          · exact Or.inl h
          · split at h
            · exact Or.inl h
            · split at h
              · exact Or.inl h
              · split at h
                · exact Or.inl h
                · split at h
                  · exact Or.inl h
                  · split at h
                    · exact Or.inl h
                    · split at h
                      case h_2 => exact Or.inl h
                      case h_1 e hfind =>
                        split at h
                        · exact Or.inl h
                        · rcases List.mem_append.mp h with h | h
                          · exact Or.inl h
                          · right
                            have hmem := List.mem_of_find?_eq_some hfind
                            have hpred := List.find?_some hfind
                            simp only [piecesWithIndex, List.mem_map] at hmem
                            obtain ⟨t, ht, rfl⟩ := hmem
                            obtain ⟨q, hq, rfl⟩ := ht
                            rw [linePieces] at hq
                            have hqmem := List.mem_filter.mp hq
                            have hqact : q.active = true := by
                              have hlf := hqmem.2
                              unfold lineFilter at hlf
                              exact (Bool.and_eq_true _ _ ▸ hlf).1
                            refine ⟨q, hqmem.1, hqact, ?_, ?_⟩
                            · simpa using hpred
                            · simpa using (List.mem_singleton.mp h).symm

/-- Every id returned by `calculate_captures` is the id of an active piece
of the board opposing the moved piece. -/
theorem mem_calculate_captures_imp {b : Board} {pid i : Nat}
    (h : i ∈ calculate_captures b pid) :
    ∃ M, b.piece_by_id pid = some M ∧ M.active = true ∧
      ∃ q, q ∈ b.pieces ∧ q.active = true ∧ q.side ≠ M.side ∧ q.id = i := by
  unfold calculate_captures at h
  cases hmp : b.piece_by_id pid with
  | none => rw [hmp] at h; cases h
  | some M =>
    rw [hmp] at h
    simp only at h
    by_cases hact : M.active = true
    case neg =>
      rw [if_pos (by simp [Bool.not_eq_true] at hact ⊢; simp [hact])] at h
      cases h
    case pos =>
      rw [if_neg (by simp [hact])] at h
      refine ⟨M, rfl, hact, ?_⟩
      split at h
      · rcases mem_check_single_piece_capture.mp h with h2 | h2
        · rcases mem_check_single_piece_capture.mp h2 with h3 | h3
          · cases h3
          · obtain ⟨p1, p2, hc, hs1, hs2, hi⟩ := h3
            obtain ⟨hm1, hm2, ha1, ha2, _⟩ := carryNeighbors_distinct hc
            rcases hi with rfl | rfl
            · exact ⟨p1, hm1, ha1, hs1, rfl⟩
            · exact ⟨p2, hm2, ha2, hs2, rfl⟩
        · obtain ⟨p1, p2, hc, hs1, hs2, hi⟩ := h2
          obtain ⟨hm1, hm2, ha1, ha2, _⟩ := carryNeighbors_distinct hc
          rcases hi with rfl | rfl
          · exact ⟨p1, hm1, ha1, hs1, rfl⟩
          · exact ⟨p2, hm2, ha2, hs2, rfl⟩
      · unfold check_two_vs_one at h
        rcases mem_check_two_vs_one_in_direction_imp h with h2 | h2
        · rcases mem_check_two_vs_one_in_direction_imp h2 with h3 | h3
          · rcases mem_check_two_vs_one_in_direction_imp h3 with h4 | h4
            · rcases mem_check_two_vs_one_in_direction_imp h4 with h5 | h5
              · cases h5
              · exact h5
            · exact h4
          · exact h3
        · exact h2

theorem updateFirst_congr {p q : α → Bool} (h : ∀ x, p x = q x) (f : α → α)
    (l : List α) : updateFirst p f l = updateFirst q f l := by
  induction l with
  | nil => rfl
  | cons x xs ih => simp only [updateFirst, h x, ih]

/-- Updating by id is a pointwise map when ids are unique. -/
theorem updateFirst_id_eq_map {f : Piece → Piece} {l : List Piece}
    (hn : (l.map Piece.id).Nodup) (k : Nat) :
    updateFirst (fun p => p.id == k) f l =
      l.map (fun z => if z.id = k then f z else z) := by
  rw [updateFirst_congr (q := fun p => decide (p.id = k))
    (fun x => by by_cases h : x.id = k <;> simp [h]) f l]
  exact updateFirst_key_eq_map Piece.id hn k

/-- Two board members with the same id are the same piece when ids are
unique. -/
theorem mem_id_inj {b : Board} (hn : idsNodup b) {p q : Piece}
    (hp : p ∈ b.pieces) (hq : q ∈ b.pieces) (h : p.id = q.id) : p = q :=
  List.inj_on_of_nodup_map hn hp hq h

/-- With unique ids, `piece_by_id` finds exactly the member carrying the
id. -/
theorem piece_by_id_of_mem {b : Board} (hn : idsNodup b) {p : Piece}
    (hp : p ∈ b.pieces) : b.piece_by_id p.id = some p := by
  cases hfind : b.piece_by_id p.id with
  | none =>
    exfalso
    rw [Board.piece_by_id, List.find?_eq_none] at hfind
    exact hfind p hp (by simp)
  | some q =>
    have hqmem := List.mem_of_find?_eq_some hfind
    have hqid : q.id = p.id := by simpa using List.find?_some hfind
    rw [mem_id_inj hn hqmem hp hqid]

/-- `movePieceAt` is a pointwise map keyed on the moved piece's id. -/
theorem movePieceAt_eq_map {b : Board} (hn : idsNodup b)
    {fromPos toPos : Nat × Nat} {P : Piece}
    (hfind : b.piece_at fromPos.1 fromPos.2 = some P) :
    (b.movePieceAt fromPos toPos).pieces =
      b.pieces.map (fun z =>
        if z.id = P.id then { z with position := toPos } else z) := by
  unfold Board.movePieceAt
  exact updateFirst_eq_map_of_nodup_keys Piece.id hn hfind

/-- `deactivateById` is a pointwise map when ids are unique. -/
theorem deactivateById_eq_map {b : Board} (hn : idsNodup b) (cid : Nat) :
    (b.deactivateById cid).pieces =
      b.pieces.map (fun z => if z.id = cid then { z with active := false } else z) := by
  unfold Board.deactivateById
  exact updateFirst_id_eq_map hn cid

/-- `restorePiece` is a pointwise map when ids are unique. -/
theorem restorePiece_eq_map {b : Board} (hn : idsNodup b) (cid : Nat)
    (pos : Nat × Nat) :
    (b.restorePiece cid pos).pieces =
      b.pieces.map (fun z =>
        if z.id = cid then { z with position := pos, active := true } else z) := by
  unfold Board.restorePiece
  exact updateFirst_id_eq_map hn cid

/-- The record list appended for one captured id. -/
def capRecordOf (bd : Board) (cid : Nat) : List CapturedRecord :=
  match bd.piece_by_id cid with
  | some p => [⟨cid, p.position⟩]
  | none => []

theorem captureStep_eq (acc : Board × List CapturedRecord) (cid : Nat) :
    captureStep acc cid = (acc.1.deactivateById cid, acc.2 ++ capRecordOf acc.1 cid) := by
  unfold captureStep capRecordOf
  cases acc.1.piece_by_id cid <;> simp

/-- Updating one piece by id never changes what `find?` by another (or the
same) id reports about positions, as long as the update preserves ids and
positions. -/
theorem find?_id_updateFirst_pos {l : List Piece} {c cid : Nat}
    {f : Piece → Piece} (hid : ∀ z, (f z).id = z.id)
    (hpos : ∀ z, (f z).position = z.position) :
    ((updateFirst (fun p => p.id == c) f l).find? (fun p => p.id == cid)).map
        Piece.position =
      (l.find? (fun p => p.id == cid)).map Piece.position := by
  induction l with
  | nil => rfl
  | cons x xs ih =>
    simp only [updateFirst]
    by_cases hcx : x.id = c
    · rw [if_pos (by simp [hcx])]
      by_cases hcid : x.id = cid
      · simp [List.find?_cons, hid, hpos, hcid]
      · simp [List.find?_cons, hid, hcid]
    · rw [if_neg (by simp [hcx])]
      by_cases hcid : x.id = cid
      · simp [List.find?_cons, hcid]
      · have hf : (x.id == cid) = false := by simp [hcid]
        simp only [List.find?_cons, hf]
        exact ih

theorem capRecordOf_deactivateById (bd : Board) (c cid : Nat) :
    capRecordOf (bd.deactivateById c) cid = capRecordOf bd cid := by
  have h : (((bd.deactivateById c).piece_by_id cid).map Piece.position) =
      ((bd.piece_by_id cid).map Piece.position) := by
    show ((updateFirst (fun p => p.id == c)
        (fun p => { p with active := false }) bd.pieces).find?
        (fun p => p.id == cid)).map Piece.position =
      ((bd.pieces.find? (fun p => p.id == cid))).map Piece.position
    exact find?_id_updateFirst_pos (fun z => rfl) (fun z => rfl)
  unfold capRecordOf
  cases h1 : (bd.deactivateById c).piece_by_id cid with
  | none =>
    cases h2 : bd.piece_by_id cid with
    | none => rfl
    | some q => rw [h1, h2] at h; cases h
  | some q =>
    cases h2 : bd.piece_by_id cid with
    | none => rw [h1, h2] at h; cases h
    | some q2 =>
      rw [h1, h2] at h
      have hq : q.position = q2.position := by simpa using h
      simp [hq]

/-- The capture loop's record list: one record per captured id, read off the
board as it was when the loop started (deactivation does not move pieces). -/
theorem foldl_captureStep_records (caps : List Nat) (bd : Board)
    (rs : List CapturedRecord) :
    (caps.foldl captureStep (bd, rs)).2 = rs ++ caps.flatMap (capRecordOf bd) := by
  induction caps generalizing bd rs with
  | nil => simp
  | cons c cs ih =>
    rw [List.foldl_cons, captureStep_eq]
    rw [ih]
    have hcongr : ∀ cid ∈ cs, capRecordOf (bd.deactivateById c) cid =
        capRecordOf bd cid :=
      fun cid _ => capRecordOf_deactivateById bd c cid
    simp only [List.flatMap_cons, List.append_assoc]
    congr 1
    congr 1
    unfold List.flatMap
    rw [List.map_congr_left hcongr]

/-- The capture loop's final board: every piece whose id was captured is
deactivated, pointwise (ids unique). -/
theorem foldl_captureStep_board (caps : List Nat) (bd : Board)
    (rs : List CapturedRecord) (hn : idsNodup bd) :
    (caps.foldl captureStep (bd, rs)).1.pieces =
      bd.pieces.map (fun z =>
        if z.id ∈ caps then { z with active := false } else z) := by
  induction caps generalizing bd rs with
  | nil =>
    simp only [List.foldl_nil, List.not_mem_nil, if_false]
    exact (List.map_id' bd.pieces).symm
  | cons c cs ih =>
    rw [List.foldl_cons, captureStep_eq]
    have hn2 : idsNodup (bd.deactivateById c) := by
      show (List.map Piece.id (updateFirst (fun p => p.id == c)
        (fun p => { p with active := false }) bd.pieces)).Nodup
      rw [map_updateFirst_of_preserved (fun p => p.id == c)
        (fun p => { p with active := false }) Piece.id bd.pieces (fun z => rfl)]
      exact hn
    rw [ih _ _ hn2, deactivateById_eq_map hn c, List.map_map]
    refine List.map_congr_left (fun z hz => ?_)
    simp only [Function.comp_apply, List.mem_cons]
    by_cases h1 : z.id = c
    · rw [if_pos h1]
      by_cases h2 : z.id ∈ cs <;> simp [h1, h2]
    · rw [if_neg h1]
      by_cases h2 : z.id ∈ cs <;> simp [h1, h2]

/-- One step of the undo restore loop, applied pointwise to a piece. -/
def restorePoint (z : Piece) (cr : CapturedRecord) : Piece :=
  if z.id = cr.piece_id then { z with position := cr.position, active := true }
  else z

theorem board_eq_of_pieces {b c : Board} (h : b.pieces = c.pieces) : b = c := by
  cases b; cases c; simpa using h

theorem idsNodup_movePieceAt {b : Board} (hn : idsNodup b)
    (fromPos toPos : Nat × Nat) : idsNodup (b.movePieceAt fromPos toPos) := by
  show (List.map Piece.id (updateFirst
    (fun p => p.active && decide (p.position = fromPos))
    (fun p => { p with position := toPos }) b.pieces)).Nodup
  rw [map_updateFirst_of_preserved
    (fun p => p.active && decide (p.position = fromPos))
    (fun p => { p with position := toPos }) Piece.id b.pieces (fun z => rfl)]
  exact hn

theorem idsNodup_restorePiece {b : Board} (hn : idsNodup b) (cid : Nat)
    (pos : Nat × Nat) : idsNodup (b.restorePiece cid pos) := by
  show (List.map Piece.id (updateFirst (fun p => p.id == cid)
    (fun p => { p with position := pos, active := true }) b.pieces)).Nodup
  rw [map_updateFirst_of_preserved (fun p => p.id == cid)
    (fun p => { p with position := pos, active := true }) Piece.id b.pieces
    (fun z => rfl)]
  exact hn

theorem idsNodup_of_map {b : Board} (hn : idsNodup b) (f : Piece → Piece)
    (hf : ∀ z, (f z).id = z.id) : idsNodup ⟨b.pieces.map f⟩ := by
  unfold idsNodup
  simp only [List.map_map]
  rw [show Piece.id ∘ f = Piece.id from funext hf]
  exact hn

theorem piece_by_id_map_of_id_preserved {b : Board} {f : Piece → Piece}
    (hf : ∀ z, (f z).id = z.id) (cid : Nat) :
    (Board.mk (b.pieces.map f)).piece_by_id cid = (b.piece_by_id cid).map f := by
  unfold Board.piece_by_id
  simp only [List.find?_map]
  rw [show ((fun p : Piece => p.id == cid) ∘ f) = (fun p : Piece => p.id == cid)
    from funext (fun z => by simp [Function.comp, hf])]

theorem mem_capRecordOf {bd : Board} {cid : Nat} {cr : CapturedRecord}
    (h : cr ∈ capRecordOf bd cid) :
    cr.piece_id = cid ∧ ∃ p, bd.piece_by_id cid = some p ∧
      cr.position = p.position := by
  unfold capRecordOf at h
  cases hbp : bd.piece_by_id cid with
  | none => rw [hbp] at h; cases h
  | some p =>
    rw [hbp] at h
    rcases List.mem_singleton.mp h with rfl
    exact ⟨rfl, p, rfl, rfl⟩

theorem foldl_restorePoint_of_no_match {recs : List CapturedRecord} {z : Piece}
    (h : ∀ cr ∈ recs, cr.piece_id ≠ z.id) :
    recs.foldl restorePoint z = z := by
  induction recs with
  | nil => rfl
  | cons cr crs ih =>
    rw [List.foldl_cons]
    have hz : restorePoint z cr = z := by
      unfold restorePoint
      rw [if_neg (fun he => h cr (List.mem_cons_self cr crs) he.symm)]
    rw [hz]
    exact ih (fun cr2 h2 => h cr2 (List.mem_cons_of_mem cr h2))

theorem foldl_restorePoint_of_match {recs : List CapturedRecord} {z : Piece}
    {pos : Nat × Nat}
    (hall : ∀ cr ∈ recs, cr.piece_id = z.id → cr.position = pos)
    (hex : ∃ cr ∈ recs, cr.piece_id = z.id) :
    recs.foldl restorePoint z = { z with position := pos, active := true } := by
  induction recs generalizing z with
  | nil => obtain ⟨cr, h, _⟩ := hex; cases h
  | cons cr crs ih =>
    rw [List.foldl_cons]
    by_cases h1 : cr.piece_id = z.id
    · have hpos := hall cr (List.mem_cons_self cr crs) h1
      have hz1 : restorePoint z cr = { z with position := pos, active := true } := by
        unfold restorePoint
        rw [if_pos h1.symm, hpos]
      rw [hz1]
      by_cases h2 : ∃ cr2 ∈ crs, cr2.piece_id = z.id
      · have hres := ih
          (z := { z with position := pos, active := true })
          (fun cr2 hm he => hall cr2 (List.mem_cons_of_mem cr hm) he) h2
        rw [hres]
      · push_neg at h2
        exact foldl_restorePoint_of_no_match (fun cr2 hm => h2 cr2 hm)
    · have hz1 : restorePoint z cr = z := by
        unfold restorePoint
        rw [if_neg (fun he => h1 he.symm)]
      rw [hz1]
      rcases hex with ⟨cr2, hm2, he2⟩
      rcases List.mem_cons.mp hm2 with rfl | hm2
      · exact absurd he2 h1
      · exact ih (fun cr3 hm3 he3 => hall cr3 (List.mem_cons_of_mem cr hm3) he3)
          ⟨cr2, hm2, he2⟩

/-- The undo restore loop is a pointwise map when ids are unique. -/
theorem foldl_restore_eq_map (recs : List CapturedRecord) (bd : Board)
    (hn : idsNodup bd) :
    (recs.foldl (fun b2 cr => b2.restorePiece cr.piece_id cr.position) bd).pieces =
      bd.pieces.map (fun z => recs.foldl restorePoint z) := by
  induction recs generalizing bd with
  | nil =>
    simp only [List.foldl_nil]
    exact (List.map_id' bd.pieces).symm
  | cons cr crs ih =>
    rw [List.foldl_cons]
    have hn2 : idsNodup (bd.restorePiece cr.piece_id cr.position) :=
      idsNodup_restorePiece hn cr.piece_id cr.position
    rw [ih _ hn2, restorePiece_eq_map hn, List.map_map]
    refine List.map_congr_left (fun z hz => ?_)
    simp only [Function.comp_apply, List.foldl_cons]
    rfl

/-- `undo_move` as a pointwise map when ids are unique. -/
theorem undo_move_eq_map (b : Board) (hn : idsNodup b) (r : MoveRecord) :
    (b.undo_move r).pieces =
      b.pieces.map (fun z => r.captured.foldl restorePoint
        (if z.id = r.piece_id then
          { z with position := r.fromPos, active := true } else z)) := by
  unfold Board.undo_move
  have hn1 : idsNodup (b.restorePiece r.piece_id r.fromPos) :=
    idsNodup_restorePiece hn r.piece_id r.fromPos
  rw [foldl_restore_eq_map _ _ hn1, restorePiece_eq_map hn, List.map_map]
  rfl

/-- A valid move starts from an active piece of the moving side. -/
theorem is_valid_move_piece_at {b : Board} {fromPos toPos : Nat × Nat}
    {side : Side} (h : is_valid_move b fromPos toPos side = true) :
    ∃ P, b.piece_at fromPos.1 fromPos.2 = some P ∧ P.side = side ∧
      P.active = true := by
  unfold is_valid_move at h
  cases hfind : b.piece_at fromPos.1 fromPos.2 with
  | none => rw [hfind] at h; cases h
  | some P =>
    rw [hfind] at h
    simp only at h
    split_ifs at h with h1 h2 h3 h4
    exact ⟨P, rfl, by simpa using h1, h⟩

/-- A valid move's target is in-bounds and empty. -/
theorem is_valid_move_target {b : Board} {fromPos toPos : Nat × Nat}
    {side : Side} (h : is_valid_move b fromPos toPos side = true) :
    toPos.1 < 4 ∧ toPos.2 < 4 ∧ b.is_empty toPos.1 toPos.2 = true := by
  unfold is_valid_move at h
  cases hfind : b.piece_at fromPos.1 fromPos.2 with
  | none => rw [hfind] at h; cases h
  | some P =>
    rw [hfind] at h
    simp only at h
    split_ifs at h with h1 h2 h3 h4
    simp only [Bool.not_eq_true', Bool.not_eq_false] at h2 h3
    simp only [Board.is_valid_pos, BOARD_SIZE, Bool.and_eq_true,
      decide_eq_true_eq] at h2
    refine ⟨?_, ?_, h3⟩ <;> omega

/-- The capture list computed inside `execute_move` after repositioning. -/
def capturesOf (b : Board) (fromPos toPos : Nat × Nat) (P : Piece) : List Nat :=
  calculate_captures (b.movePieceAt fromPos toPos) P.id

/-- `execute_move`'s result in normal form. -/
theorem execute_move_normal_form {b : Board} {fromPos toPos : Nat × Nat}
    {side : Side} (hn : idsNodup b) {P : Piece}
    (hfind : b.piece_at fromPos.1 fromPos.2 = some P) {b2 : Board}
    {rec : MoveRecord}
    (hexec : b.execute_move fromPos toPos side = .ok (b2, rec)) :
    rec.piece_id = P.id ∧ rec.fromPos = fromPos ∧ rec.toPos = toPos ∧
      rec.was_single_piece_mode = b.is_single_piece_mode ∧ rec.side = side ∧
      rec.captured = (capturesOf b fromPos toPos P).flatMap
        (capRecordOf (b.movePieceAt fromPos toPos)) ∧
      b2.pieces = (b.movePieceAt fromPos toPos).pieces.map (fun z =>
        if z.id ∈ capturesOf b fromPos toPos P then
          { z with active := false } else z) := by
  unfold Board.execute_move at hexec
  rw [hfind] at hexec
  simp only [Except.ok.injEq, Prod.mk.injEq] at hexec
  obtain ⟨hb2, hrec⟩ := hexec
  subst hrec
  have hn1 : idsNodup (b.movePieceAt fromPos toPos) :=
    idsNodup_movePieceAt hn fromPos toPos
  refine ⟨rfl, rfl, rfl, rfl, rfl, ?_, ?_⟩
  · simp only [foldl_captureStep_records, List.nil_append]
    rfl
  · rw [← hb2]
    exact foldl_captureStep_board _ _ _ hn1

/-- C1 (round trip): on any board whose piece ids are unique — the
uniqueness clause of the spec's Board invariant (§3) — executing a valid
move and then undoing the returned `MoveRecord` restores the board exactly:
every piece's id, side, position and active flag (indeed the whole piece
list) is identical to before the move, including the capture-time positions
of captured pieces. -/
theorem execute_undo_roundtrip (b : Board) (fromPos toPos : Nat × Nat)
    (side : Side) (hn : idsNodup b)
    (hvalid : is_valid_move b fromPos toPos side = true)
    (b2 : Board) (rec : MoveRecord)
    (hexec : b.execute_move fromPos toPos side = .ok (b2, rec)) :
    b2.undo_move rec = b := by
  obtain ⟨fx, fy⟩ := fromPos
  obtain ⟨tx, ty⟩ := toPos
  obtain ⟨P, hfind, hPside, hPact⟩ := is_valid_move_piece_at hvalid
  obtain ⟨hPmem, hPact2, hPpos⟩ := piece_at_spec hfind
  obtain ⟨hrid, hrfrom, hrto, hrws, hrside, hrcap, hb2⟩ :=
    execute_move_normal_form hn hfind hexec
  have hb1map : (b.movePieceAt (fx, fy) (tx, ty)).pieces = b.pieces.map
      (fun z => if z.id = P.id then { z with position := (tx, ty) } else z) :=
    movePieceAt_eq_map hn hfind
  have hn1 : idsNodup (b.movePieceAt (fx, fy) (tx, ty)) :=
    idsNodup_movePieceAt hn (fx, fy) (tx, ty)
  have hmvid : ∀ z : Piece,
      ((fun z => if z.id = P.id then { z with position := (tx, ty) } else z) z).id
        = z.id := by
    intro z
    by_cases h : z.id = P.id <;> simp [h]
  have hb1eq : b.movePieceAt (fx, fy) (tx, ty) = Board.mk (b.pieces.map
      (fun z => if z.id = P.id then { z with position := (tx, ty) } else z)) :=
    board_eq_of_pieces hb1map
  have hbyid : ∀ cid : Nat, (b.movePieceAt (fx, fy) (tx, ty)).piece_by_id cid =
      (b.piece_by_id cid).map
        (fun z => if z.id = P.id then { z with position := (tx, ty) } else z) := by
    intro cid
    rw [hb1eq]
    exact piece_by_id_map_of_id_preserved hmvid cid
  have hPbyid : b.piece_by_id P.id = some P := piece_by_id_of_mem hn hPmem
  have hM1 : (b.movePieceAt (fx, fy) (tx, ty)).piece_by_id P.id =
      some { P with position := (tx, ty) } := by
    rw [hbyid P.id, hPbyid]
    simp
  have hcapsElem : ∀ i ∈ capturesOf b (fx, fy) (tx, ty) P,
      ∃ q, q ∈ b.pieces ∧ q.active = true ∧ q.side ≠ P.side ∧ q.id = i ∧
        i ≠ P.id := by
    intro i hi
    obtain ⟨M, hMfind, hMact, q1, hq1mem, hq1act, hq1side, hq1id⟩ :=
      mem_calculate_captures_imp hi
    rw [hM1] at hMfind
    injection hMfind with hMeq
    subst hMeq
    rw [hb1map] at hq1mem
    obtain ⟨w, hwmem, rfl⟩ := List.mem_map.mp hq1mem
    by_cases hwP : w.id = P.id
    · exfalso
      have hwPeq : w = P := mem_id_inj hn hwmem hPmem hwP
      subst hwPeq
      simp at hq1side
    · rw [if_neg hwP] at hq1act hq1side hq1id
      simp only at hq1side
      refine ⟨w, hwmem, hq1act, hq1side, hq1id, ?_⟩
      rw [← hq1id]
      exact hwP
  have hrecs : ∀ cr ∈ rec.captured,
      cr.piece_id ∈ capturesOf b (fx, fy) (tx, ty) P ∧
        ∃ q, q ∈ b.pieces ∧ q.id = cr.piece_id ∧ cr.position = q.position := by
    intro cr hcr
    rw [hrcap] at hcr
    obtain ⟨cid, hcid, hcr2⟩ := List.mem_flatMap.mp hcr
    obtain ⟨hpid, p, hbp, hpos⟩ := mem_capRecordOf hcr2
    subst hpid
    refine ⟨hcid, ?_⟩
    rw [hbyid cr.piece_id] at hbp
    cases hw : b.piece_by_id cr.piece_id with
    | none => rw [hw] at hbp; cases hbp
    | some w =>
      rw [hw] at hbp
      simp only [Option.map_some', Option.some.injEq] at hbp
      have hwmem := List.mem_of_find?_eq_some hw
      have hwid : w.id = cr.piece_id := by simpa using List.find?_some hw
      have hcidne : cr.piece_id ≠ P.id := by
        obtain ⟨q, _, _, _, _, hne⟩ := hcapsElem cr.piece_id hcid
        exact hne
      have hwP : ¬(w.id = P.id) := fun h => hcidne (hwid ▸ h)
      rw [← hbp, if_neg hwP] at hpos
      exact ⟨w, hwmem, hwid, hpos⟩
  have hPnotin : P.id ∉ capturesOf b (fx, fy) (tx, ty) P := by
    intro hin
    obtain ⟨q, _, _, _, _, hne⟩ := hcapsElem P.id hin
    exact hne rfl
  have hn2 : idsNodup b2 := by
    have : b2 = Board.mk ((b.movePieceAt (fx, fy) (tx, ty)).pieces.map
        (fun z => if z.id ∈ capturesOf b (fx, fy) (tx, ty) P then
          { z with active := false } else z)) := board_eq_of_pieces hb2
    rw [this]
    refine idsNodup_of_map hn1 _ (fun z => ?_)
    by_cases h : z.id ∈ capturesOf b (fx, fy) (tx, ty) P <;> simp [h]
  apply board_eq_of_pieces
  rw [undo_move_eq_map b2 hn2 rec, hb2, hb1map, List.map_map, List.map_map]
  refine (List.map_congr_left ?_).trans (List.map_id' b.pieces)
  intro z hz
  simp only [Function.comp_apply]
  rw [hrid, hrfrom]
  by_cases hzP : z.id = P.id
  · have hzPeq : z = P := mem_id_inj hn hz hPmem hzP
    subst hzPeq
    have hc2 : (z.id ∈ capturesOf b (fx, fy) (tx, ty) z) = False := by
      simp only [eq_iff_iff, iff_false]
      exact hPnotin
    have hnm : ∀ cr ∈ rec.captured, cr.piece_id ≠ z.id := by
      intro cr hcr he
      obtain ⟨hcid, _⟩ := hrecs cr hcr
      obtain ⟨q, _, _, _, _, hne⟩ := hcapsElem cr.piece_id hcid
      exact hne he
    simp only [eq_self_iff_true, if_true, hc2, if_false]
    rw [foldl_restorePoint_of_no_match (z := Piece.mk z.id z.side (fx, fy) true)
      hnm]
    cases z
    simp only [Piece.mk.injEq] at hPpos ⊢
    simp [hPpos, hPact]
    exact hPact
  · have hc1 : (z.id = P.id) = False := by
      simp only [eq_iff_iff, iff_false]
      exact hzP
    by_cases hzc : z.id ∈ capturesOf b (fx, fy) (tx, ty) P
    · have hzact : z.active = true := by
        obtain ⟨q, hqmem, hqact, _, hqid, _⟩ := hcapsElem z.id hzc
        have hq : q = z := mem_id_inj hn hqmem hz hqid
        rw [← hq]
        exact hqact
      have hc2 : (z.id ∈ capturesOf b (fx, fy) (tx, ty) P) = True := by
        simp only [eq_iff_iff, iff_true]
        exact hzc
      have hall : ∀ cr ∈ rec.captured, cr.piece_id = z.id →
          cr.position = z.position := by
        intro cr hcr he
        obtain ⟨hcid, q, hqmem, hqid, hqpos⟩ := hrecs cr hcr
        have hqz : q = z := mem_id_inj hn hqmem hz (by rw [hqid, he])
        rw [hqpos, hqz]
      have hex : ∃ cr ∈ rec.captured, cr.piece_id = z.id := by
        have hbz : b.piece_by_id z.id = some z := piece_by_id_of_mem hn hz
        have hb1z : (b.movePieceAt (fx, fy) (tx, ty)).piece_by_id z.id =
            some z := by
          rw [hbyid z.id, hbz]
          simp [hzP]
        refine ⟨⟨z.id, z.position⟩, ?_, rfl⟩
        rw [hrcap]
        refine List.mem_flatMap.mpr ⟨z.id, hzc, ?_⟩
        unfold capRecordOf
        rw [hb1z]
        exact List.mem_singleton.mpr rfl
      simp only [hc1, if_false, hc2, if_true]
      rw [foldl_restorePoint_of_match
        (z := Piece.mk z.id z.side z.position false) hall hex]
      cases z
      simp [Piece.mk.injEq, hzact]
      exact hzact
    · have hc2 : (z.id ∈ capturesOf b (fx, fy) (tx, ty) P) = False := by
        simp only [eq_iff_iff, iff_false]
        exact hzc
      have hnm : ∀ cr ∈ rec.captured, cr.piece_id ≠ z.id := by
        intro cr hcr he
        obtain ⟨hcid, _⟩ := hrecs cr hcr
        exact hzc (he ▸ hcid)
      simp only [hc1, if_false, hc2]
      exact foldl_restorePoint_of_no_match (z := z) hnm

/-- A concrete normal-mode board where the move (1,2)→(1,1) completes a
two-vs-one capture of White's piece 3 on row 1. -/
def captureBoard : Board :=
  ⟨[ Piece.new 1 .Black 1 2, Piece.new 2 .Black 2 1, Piece.new 3 .White 3 1,
     Piece.new 4 .Black 0 3, Piece.new 5 .White 0 0, Piece.new 6 .White 2 3 ]⟩

/-- `captureBoard` after the capturing move (1,2)→(1,1). -/
def captureBoardMoved : Board :=
  ⟨[ Piece.new 1 .Black 1 1, Piece.new 2 .Black 2 1,
     { id := 3, side := .White, position := (3, 1), active := false },
     Piece.new 4 .Black 0 3, Piece.new 5 .White 0 0, Piece.new 6 .White 2 3 ]⟩

/-- The record of the capturing move (1,2)→(1,1) on `captureBoard`. -/
def captureRecord : MoveRecord :=
  { piece_id := 1, fromPos := (1, 2), toPos := (1, 1),
    captured := [⟨3, (3, 1)⟩], was_single_piece_mode := false, side := .Black }

/-- Witness for C1 at a concrete input: a capturing move and its undo. -/
theorem execute_undo_roundtrip_witness :
    idsNodup captureBoard ∧
      is_valid_move captureBoard (1, 2) (1, 1) .Black = true ∧
      captureBoard.execute_move (1, 2) (1, 1) .Black =
        .ok (captureBoardMoved, captureRecord) ∧
      captureBoardMoved.undo_move captureRecord = captureBoard :=
  ⟨by decide, by decide, by decide,
    execute_undo_roundtrip captureBoard (1, 2) (1, 1) .Black (by decide)
      (by decide) captureBoardMoved captureRecord (by decide)⟩

/-- Executing an `is_valid_move`-accepted move preserves the full board
invariant (shared workhorse). -/
theorem execute_move_WF (b : Board)
    (fromPos toPos : Nat × Nat) (side : Side) (hwf : BoardWF b)
    (hvalid : is_valid_move b fromPos toPos side = true)
    (b2 : Board) (rec : MoveRecord)
    (hexec : b.execute_move fromPos toPos side = .ok (b2, rec)) :
    BoardWF b2 := by
  obtain ⟨hn, hpd, hib⟩ := hwf
  obtain ⟨P, hfind, hPside, hPact⟩ := is_valid_move_piece_at hvalid
  obtain ⟨htx, hty, hemp⟩ := is_valid_move_target hvalid
  obtain ⟨_, _, _, _, _, _, hb2⟩ := execute_move_normal_form hn hfind hexec
  have hb1map := @movePieceAt_eq_map b hn fromPos toPos P hfind
  have hmap : b2.pieces = b.pieces.map (fun z =>
      (fun w : Piece =>
        if w.id ∈ capturesOf b fromPos toPos P then
          { w with active := false } else w)
      ((fun w : Piece =>
        if w.id = P.id then { w with position := toPos } else w) z)) := by
    rw [hb2, hb1map, List.map_map]
    rfl
  have hnoTarget : ∀ r ∈ b.pieces, r.active = true →
      r.position ≠ (toPos.1, toPos.2) := by
    intro r hr hra hrp
    have : b.piece_at toPos.1 toPos.2 = none := by
      have := hemp
      unfold Board.is_empty at this
      cases hpa : b.piece_at toPos.1 toPos.2 with
      | none => rfl
      | some w => rw [hpa] at this; simp at this
    rw [Board.piece_at, List.find?_eq_none] at this
    exact this r hr (by simp [hra, hrp])
  have hFact : ∀ z : Piece,
      ((fun w : Piece =>
        if w.id ∈ capturesOf b fromPos toPos P then
          { w with active := false } else w)
      ((fun w : Piece =>
        if w.id = P.id then { w with position := toPos } else w) z)).active =
        true → z.active = true := by
    intro z h
    by_cases h1 : z.id = P.id
    · by_cases h2 : P.id ∈ capturesOf b fromPos toPos P <;>
        simp [h1, h2] at h <;> exact h
    · by_cases h2 : z.id ∈ capturesOf b fromPos toPos P <;>
        simp [h1, h2] at h <;> exact h
  have hFpos : ∀ z : Piece,
      ((fun w : Piece =>
        if w.id ∈ capturesOf b fromPos toPos P then
          { w with active := false } else w)
      ((fun w : Piece =>
        if w.id = P.id then { w with position := toPos } else w) z)).position =
        if z.id = P.id then toPos else z.position := by
    intro z
    by_cases h1 : z.id = P.id
    · by_cases h2 : P.id ∈ capturesOf b fromPos toPos P <;> simp [h1, h2]
    · by_cases h2 : z.id ∈ capturesOf b fromPos toPos P <;> simp [h1, h2]
  refine ⟨?_, ?_, ?_⟩
  · rw [idsNodup, hmap]
    have : idsNodup b := hn
    refine idsNodup_of_map this _ (fun z => ?_)
    by_cases h1 : z.id = P.id
    · by_cases h2 : P.id ∈ capturesOf b fromPos toPos P <;> simp [h1, h2]
    · by_cases h2 : z.id ∈ capturesOf b fromPos toPos P <;> simp [h1, h2]
  · rw [activePosDistinct, hmap, List.pairwise_map]
    have hids : b.pieces.Pairwise (fun p q => p.id ≠ q.id) :=
      List.pairwise_map.mp hn
    refine List.Pairwise.imp_of_mem ?_ (hpd.and hids)
    intro p q hp hq hpq hap haq hpos
    obtain ⟨hprop, hidne⟩ := hpq
    have hpa : p.active = true := hFact p hap
    have hqa : q.active = true := hFact q haq
    rw [hFpos p, hFpos q] at hpos
    by_cases hpP : p.id = P.id <;> by_cases hqP : q.id = P.id
    · exact hidne (by rw [hpP, hqP])
    · rw [if_pos hpP, if_neg hqP] at hpos
      exact hnoTarget q hq hqa (by rw [← hpos])
    · rw [if_neg hpP, if_pos hqP] at hpos
      exact hnoTarget p hp hpa (by rw [hpos])
    · rw [if_neg hpP, if_neg hqP] at hpos
      exact hprop hpa hqa hpos
  · intro w hw hwa
    rw [hmap] at hw
    obtain ⟨z, hz, rfl⟩ := List.mem_map.mp hw
    have hza : z.active = true := hFact z hwa
    rw [hFpos z]
    by_cases h1 : z.id = P.id
    · rw [if_pos h1]
      exact ⟨htx, hty⟩
    · rw [if_neg h1]
      exact hib z hz hza

/-- C9 (invariant preservation): on a board satisfying the full invariant —
unique ids, no two active pieces sharing a position, all active pieces in
bounds — executing any `is_valid_move`-accepted move yields a board that
still satisfies the invariant. -/
theorem execute_move_preserves_invariant (b : Board)
    (fromPos toPos : Nat × Nat) (side : Side) (hwf : BoardWF b)
    (hvalid : is_valid_move b fromPos toPos side = true)
    (b2 : Board) (rec : MoveRecord)
    (hexec : b.execute_move fromPos toPos side = .ok (b2, rec)) :
    BoardWF b2 :=
  execute_move_WF b fromPos toPos side hwf hvalid b2 rec hexec

/-- Witness for C9 at a concrete input: the capturing move on `captureBoard`
preserves the full board invariant. -/
theorem execute_move_preserves_invariant_witness :
    BoardWF captureBoard ∧
      is_valid_move captureBoard (1, 2) (1, 1) .Black = true ∧
      captureBoard.execute_move (1, 2) (1, 1) .Black =
        .ok (captureBoardMoved, captureRecord) ∧
      BoardWF captureBoardMoved :=
  ⟨by decide, by decide, by decide,
    execute_move_preserves_invariant captureBoard (1, 2) (1, 1) .Black
      (by decide) (by decide) captureBoardMoved captureRecord (by decide)⟩

/-! ## Machinery for C7: data-model size bounds and AI value bounds -/

/-- The spec's data model for boards reached in play: at most the 12 initial
pieces, satisfying the board invariant. -/
def ModelWF (b : Board) : Prop := b.pieces.length ≤ 12 ∧ BoardWF b

theorem length_flatMap_le {α β : Type _} (l : List α) (f : α → List β) (n : Nat)
    (h : ∀ a, (f a).length ≤ n) : (l.flatMap f).length ≤ l.length * n := by
  induction l with
  | nil => simp
  | cons a t ih =>
    rw [List.flatMap_cons, List.length_append]
    calc (f a).length + (t.flatMap f).length ≤ n + t.length * n :=
      Nat.add_le_add (h a) ih
    _ = (t.length + 1) * n := by ring
    _ = (a :: t).length * n := by rw [List.length_cons]

theorem active_pieces_of_length_le (b : Board) (s : Side) :
    (b.active_pieces_of s).length ≤ b.pieces.length :=
  List.length_filter_le _ _

theorem count_active_le (b : Board) (s : Side) :
    b.count_active s ≤ b.pieces.length :=
  List.countP_le_length _

theorem gvm_length_le (b : Board) (s : Side) :
    (get_valid_moves b s).length ≤ b.pieces.length * 4 := by
  unfold get_valid_moves
  refine le_trans (length_flatMap_le _ _ 4 (fun p => ?_)) ?_
  · exact List.length_filterMap_le _ _
  · exact Nat.mul_le_mul_right 4 (active_pieces_of_length_le b s)

theorem length_deactivateById (b : Board) (cid : Nat) :
    (b.deactivateById cid).pieces.length = b.pieces.length := by
  unfold Board.deactivateById
  exact length_updateFirst _ _ _

theorem length_foldl_captureStep (caps : List Nat) :
    ∀ acc : Board × List CapturedRecord,
      (caps.foldl captureStep acc).1.pieces.length = acc.1.pieces.length := by
  induction caps with
  | nil => intro acc; rfl
  | cons c cs ih =>
    intro acc
    rw [List.foldl_cons, ih]
    show (acc.1.deactivateById c).pieces.length = acc.1.pieces.length
    exact length_deactivateById _ _

theorem execute_move_length {b : Board} {fp tp : Nat × Nat} {side : Side}
    {b2 : Board} {rec : MoveRecord}
    (h : b.execute_move fp tp side = .ok (b2, rec)) :
    b2.pieces.length = b.pieces.length := by
  unfold Board.execute_move at h
  cases hfind : b.piece_at fp.1 fp.2 with
  | none => rw [hfind] at h; cases h
  | some P =>
    rw [hfind] at h
    simp only [Except.ok.injEq, Prod.mk.injEq] at h
    obtain ⟨hb2, _⟩ := h
    rw [← hb2, length_foldl_captureStep]
    show (b.movePieceAt fp tp).pieces.length = b.pieces.length
    unfold Board.movePieceAt
    exact length_updateFirst _ _ _

theorem execute_move_ModelWF {b : Board} {fp tp : Nat × Nat} {side : Side}
    (hm : ModelWF b) (hv : is_valid_move b fp tp side = true)
    {b2 : Board} {rec : MoveRecord}
    (h : b.execute_move fp tp side = .ok (b2, rec)) : ModelWF b2 :=
  ⟨by rw [execute_move_length h]; exact hm.1,
   execute_move_WF b fp tp side hm.2 hv b2 rec h⟩

theorem execute_move_ok_of_valid {b : Board} {fp tp : Nat × Nat} {side : Side}
    (hv : is_valid_move b fp tp side = true) :
    ∃ b2 rec, b.execute_move fp tp side = .ok (b2, rec) := by
  obtain ⟨P, hfind, _, _⟩ := is_valid_move_piece_at hv
  unfold Board.execute_move
  rw [hfind]
  exact ⟨_, _, rfl⟩

theorem interval_sum {A B C D S F : Int}
    (hA1 : -1200 ≤ A) (hA2 : A ≤ 1200) (hB1 : -240 ≤ B) (hB2 : B ≤ 240)
    (hC1 : 0 ≤ C) (hC2 : C ≤ 10000) (hD1 : 0 ≤ D) (hD2 : D ≤ 10000)
    (hS1 : 0 ≤ S) (hS2 : S ≤ 920) (hF1 : -200 ≤ F) (hF2 : F ≤ 0) :
    -30000 ≤ A + B + C - D + S + F ∧ A + B + C - D + S + F ≤ 30000 := by
  omega

/-- Under the data-model size and in-bounds hypotheses the static evaluation
is confined to a small interval, far away from the `i32` sentinels. -/
theorem evaluate_bounds (b : Board) (s : Side) (hsz : b.pieces.length ≤ 12)
    (hib : activeInBounds b) :
    -30000 ≤ evaluate b s ∧ evaluate b s ≤ 30000 := by
  have hcs : (b.count_active s : Int) ≤ 12 := by
    exact_mod_cast le_trans (count_active_le b s) hsz
  have hcs0 : (0 : Int) ≤ (b.count_active s : Int) := Int.natCast_nonneg _
  have hco : (b.count_active s.opposite : Int) ≤ 12 := by
    exact_mod_cast le_trans (count_active_le b s.opposite) hsz
  have hco0 : (0 : Int) ≤ (b.count_active s.opposite : Int) := Int.natCast_nonneg _
  have hms : ((get_valid_moves b s).length : Int) ≤ 48 := by
    exact_mod_cast le_trans (gvm_length_le b s) (Nat.mul_le_mul_right 4 hsz)
  have hms0 : (0 : Int) ≤ ((get_valid_moves b s).length : Int) := Int.natCast_nonneg _
  have hmo : ((get_valid_moves b s.opposite).length : Int) ≤ 48 := by
    exact_mod_cast le_trans (gvm_length_le b s.opposite) (Nat.mul_le_mul_right 4 hsz)
  have hmo0 : (0 : Int) ≤ ((get_valid_moves b s.opposite).length : Int) :=
    Int.natCast_nonneg _
  have hshap : (0 : Int) ≤ (if (b.count_active s.opposite : Int) == 1 && decide (2 ≤ (b.count_active s : Int)) then
        match b.active_pieces_of s.opposite with
        | [] => (0 : Int)
        | single_piece :: _ =>
          (4 - (((directions.filter (fun d =>
              Board.is_valid_pos ((single_piece.position.1 : Int) + d.1)
                ((single_piece.position.2 : Int) + d.2) &&
              b.is_empty ((single_piece.position.1 : Int) + d.1).toNat
                ((single_piece.position.2 : Int) + d.2).toNat)).length : Int))) * 50
          + ((b.active_pieces_of s).map (fun ap =>
              (6 - ((((ap.position.1 : Int) - (single_piece.position.1 : Int)).natAbs : Int)
                + (((ap.position.2 : Int) - (single_piece.position.2 : Int)).natAbs : Int))) * 10)).sum
      else 0) ∧ (if (b.count_active s.opposite : Int) == 1 && decide (2 ≤ (b.count_active s : Int)) then
        match b.active_pieces_of s.opposite with
        | [] => (0 : Int)
        | single_piece :: _ =>
          (4 - (((directions.filter (fun d =>
              Board.is_valid_pos ((single_piece.position.1 : Int) + d.1)
                ((single_piece.position.2 : Int) + d.2) &&
              b.is_empty ((single_piece.position.1 : Int) + d.1).toNat
                ((single_piece.position.2 : Int) + d.2).toNat)).length : Int))) * 50
          + ((b.active_pieces_of s).map (fun ap =>
              (6 - ((((ap.position.1 : Int) - (single_piece.position.1 : Int)).natAbs : Int)
                + (((ap.position.2 : Int) - (single_piece.position.2 : Int)).natAbs : Int))) * 10)).sum
      else 0) ≤ (920 : Int) := by
    split_ifs with hcond
    · cases hap : b.active_pieces_of s.opposite with
      | nil => exact ⟨le_refl 0, by norm_num⟩
      | cons sp rest =>
        have hspmem : sp ∈ b.active_pieces_of s.opposite := by
          rw [hap]; exact List.mem_cons_self sp rest
        have hsp := List.mem_filter.mp hspmem
        have hspact : sp.active = true := by
          have := hsp.2
          simp only [Bool.and_eq_true, decide_eq_true_eq] at this
          exact this.1
        obtain ⟨hsx, hsy⟩ := hib sp hsp.1 hspact
        have hsxI : (sp.position.1 : Int) ≤ 3 := by exact_mod_cast Nat.lt_succ_iff.mp hsx
        have hsyI : (sp.position.2 : Int) ≤ 3 := by exact_mod_cast Nat.lt_succ_iff.mp hsy
        have hsxI0 : (0 : Int) ≤ (sp.position.1 : Int) := Int.natCast_nonneg _
        have hsyI0 : (0 : Int) ≤ (sp.position.2 : Int) := Int.natCast_nonneg _
        have hel : ((directions.filter (fun d =>
            Board.is_valid_pos ((sp.position.1 : Int) + d.1)
              ((sp.position.2 : Int) + d.2) &&
            b.is_empty ((sp.position.1 : Int) + d.1).toNat
              ((sp.position.2 : Int) + d.2).toNat)).length : Int) ≤ 4 := by
          exact_mod_cast List.length_filter_le _ directions
        have hel0 : (0 : Int) ≤ ((directions.filter (fun d =>
            Board.is_valid_pos ((sp.position.1 : Int) + d.1)
              ((sp.position.2 : Int) + d.2) &&
            b.is_empty ((sp.position.1 : Int) + d.1).toNat
              ((sp.position.2 : Int) + d.2).toNat)).length : Int) :=
          Int.natCast_nonneg _
        have hterm : ∀ x ∈ (b.active_pieces_of s).map (fun ap =>
            (6 - ((((ap.position.1 : Int) - (sp.position.1 : Int)).natAbs : Int)
              + (((ap.position.2 : Int) - (sp.position.2 : Int)).natAbs : Int))) * 10),
            0 ≤ x ∧ x ≤ 60 := by
          intro x hx
          obtain ⟨ap, hapmem, rfl⟩ := List.mem_map.mp hx
          have hap2 := List.mem_filter.mp hapmem
          have hapact : ap.active = true := by
            have := hap2.2
            simp only [Bool.and_eq_true, decide_eq_true_eq] at this
            exact this.1
          obtain ⟨hax, hay⟩ := hib ap hap2.1 hapact
          have haxI : (ap.position.1 : Int) ≤ 3 := by exact_mod_cast Nat.lt_succ_iff.mp hax
          have hayI : (ap.position.2 : Int) ≤ 3 := by exact_mod_cast Nat.lt_succ_iff.mp hay
          have haxI0 : (0 : Int) ≤ (ap.position.1 : Int) := Int.natCast_nonneg _
          have hayI0 : (0 : Int) ≤ (ap.position.2 : Int) := Int.natCast_nonneg _
          constructor <;> omega
        have hsum0 : 0 ≤ ((b.active_pieces_of s).map (fun ap =>
            (6 - ((((ap.position.1 : Int) - (sp.position.1 : Int)).natAbs : Int)
              + (((ap.position.2 : Int) - (sp.position.2 : Int)).natAbs : Int))) * 10)).sum :=
          List.sum_nonneg (fun x hx => (hterm x hx).1)
        have hsumlen : (((b.active_pieces_of s).map (fun ap =>
            (6 - ((((ap.position.1 : Int) - (sp.position.1 : Int)).natAbs : Int)
              + (((ap.position.2 : Int) - (sp.position.2 : Int)).natAbs : Int))) * 10)).length : Int) ≤ 12 := by
          rw [List.length_map]
          exact_mod_cast le_trans (active_pieces_of_length_le b s) hsz
        have hsumhi : ((b.active_pieces_of s).map (fun ap =>
            (6 - ((((ap.position.1 : Int) - (sp.position.1 : Int)).natAbs : Int)
              + (((ap.position.2 : Int) - (sp.position.2 : Int)).natAbs : Int))) * 10)).sum ≤ 720 := by
          refine le_trans (List.sum_le_card_nsmul _ 60 (fun x hx => (hterm x hx).2)) ?_
          rw [nsmul_eq_mul]
          omega
        show (0 : Int) ≤ (4 - (((directions.filter (fun d =>
            Board.is_valid_pos ((sp.position.1 : Int) + d.1)
              ((sp.position.2 : Int) + d.2) &&
            b.is_empty ((sp.position.1 : Int) + d.1).toNat
              ((sp.position.2 : Int) + d.2).toNat)).length : Int))) * 50
          + ((b.active_pieces_of s).map (fun ap =>
            (6 - ((((ap.position.1 : Int) - (sp.position.1 : Int)).natAbs : Int)
              + (((ap.position.2 : Int) - (sp.position.2 : Int)).natAbs : Int))) * 10)).sum
          ∧ (4 - (((directions.filter (fun d =>
            Board.is_valid_pos ((sp.position.1 : Int) + d.1)
              ((sp.position.2 : Int) + d.2) &&
            b.is_empty ((sp.position.1 : Int) + d.1).toNat
              ((sp.position.2 : Int) + d.2).toNat)).length : Int))) * 50
          + ((b.active_pieces_of s).map (fun ap =>
            (6 - ((((ap.position.1 : Int) - (sp.position.1 : Int)).natAbs : Int)
              + (((ap.position.2 : Int) - (sp.position.2 : Int)).natAbs : Int))) * 10)).sum ≤ (920 : Int)
        constructor <;> omega
    · exact ⟨le_refl 0, by norm_num⟩
  have hst1 : 0 ≤ (if is_stalemated b s.opposite then (10000 : Int) else 0) ∧
      (if is_stalemated b s.opposite then (10000 : Int) else 0) ≤ 10000 := by
    split_ifs <;> constructor <;> norm_num
  have hst2 : 0 ≤ (if is_stalemated b s then (10000 : Int) else 0) ∧
      (if is_stalemated b s then (10000 : Int) else 0) ≤ 10000 := by
    split_ifs <;> constructor <;> norm_num
  have hlast : -200 ≤ (if (b.count_active s : Int) == 1 &&
        decide (2 ≤ (b.count_active s.opposite : Int)) then (-200 : Int) else 0) ∧
      (if (b.count_active s : Int) == 1 &&
        decide (2 ≤ (b.count_active s.opposite : Int)) then (-200 : Int) else 0) ≤ 0 := by
    split_ifs <;> constructor <;> norm_num
  show -30000 ≤ ((b.count_active s : Int) - (b.count_active s.opposite : Int)) * 100
      + (((get_valid_moves b s).length : Int)
          - ((get_valid_moves b s.opposite).length : Int)) * 5
      + (if is_stalemated b s.opposite then (10000 : Int) else 0)
      - (if is_stalemated b s then (10000 : Int) else 0)
      + (if (b.count_active s.opposite : Int) == 1 && decide (2 ≤ (b.count_active s : Int)) then
        match b.active_pieces_of s.opposite with
        | [] => (0 : Int)
        | single_piece :: _ =>
          (4 - (((directions.filter (fun d =>
              Board.is_valid_pos ((single_piece.position.1 : Int) + d.1)
                ((single_piece.position.2 : Int) + d.2) &&
              b.is_empty ((single_piece.position.1 : Int) + d.1).toNat
                ((single_piece.position.2 : Int) + d.2).toNat)).length : Int))) * 50
          + ((b.active_pieces_of s).map (fun ap =>
              (6 - ((((ap.position.1 : Int) - (single_piece.position.1 : Int)).natAbs : Int)
                + (((ap.position.2 : Int) - (single_piece.position.2 : Int)).natAbs : Int))) * 10)).sum
      else 0)
      + (if (b.count_active s : Int) == 1 && decide (2 ≤ (b.count_active s.opposite : Int)) then (-200 : Int) else 0)
    ∧ ((b.count_active s : Int) - (b.count_active s.opposite : Int)) * 100
      + (((get_valid_moves b s).length : Int)
          - ((get_valid_moves b s.opposite).length : Int)) * 5
      + (if is_stalemated b s.opposite then (10000 : Int) else 0)
      - (if is_stalemated b s then (10000 : Int) else 0)
      + (if (b.count_active s.opposite : Int) == 1 && decide (2 ≤ (b.count_active s : Int)) then
        match b.active_pieces_of s.opposite with
        | [] => (0 : Int)
        | single_piece :: _ =>
          (4 - (((directions.filter (fun d =>
              Board.is_valid_pos ((single_piece.position.1 : Int) + d.1)
                ((single_piece.position.2 : Int) + d.2) &&
              b.is_empty ((single_piece.position.1 : Int) + d.1).toNat
                ((single_piece.position.2 : Int) + d.2).toNat)).length : Int))) * 50
          + ((b.active_pieces_of s).map (fun ap =>
              (6 - ((((ap.position.1 : Int) - (single_piece.position.1 : Int)).natAbs : Int)
                + (((ap.position.2 : Int) - (single_piece.position.2 : Int)).natAbs : Int))) * 10)).sum
      else 0)
      + (if (b.count_active s : Int) == 1 && decide (2 ≤ (b.count_active s.opposite : Int)) then (-200 : Int) else 0) ≤ 30000
  exact interval_sum (by omega) (by omega) (by omega) (by omega)
    hst1.1 hst1.2 hst2.1 hst2.2 hshap.1 hshap.2 hlast.1 hlast.2

theorem abLoop_ge_best (next : Board → Int → Int → Int) (current : Side) :
    ∀ (moves : List ((Nat × Nat) × (Nat × Nat))) (b : Board)
      (alpha beta best : Int),
      best ≤ abLoop next current true moves b alpha beta best := by
  intro moves
  induction moves with
  | nil => intro b a bt best; exact le_refl best
  | cons m rest ih =>
    intro b a bt best
    obtain ⟨f, t⟩ := m
    cases hexec : b.execute_move f t current with
    | error e =>
      simp only [abLoop, hexec, eq_self_iff_true, if_true]
      exact ih b a bt best
    | ok pr =>
      obtain ⟨tb, rec⟩ := pr
      simp only [abLoop, hexec, eq_self_iff_true, if_true]
      split
      · exact le_max_left _ _
      · exact le_trans (le_max_left best _) (ih b _ bt _)

theorem abLoop_le_best (next : Board → Int → Int → Int) (current : Side) :
    ∀ (moves : List ((Nat × Nat) × (Nat × Nat))) (b : Board)
      (alpha beta best : Int),
      abLoop next current false moves b alpha beta best ≤ best := by
  intro moves
  induction moves with
  | nil => intro b a bt best; exact le_refl best
  | cons m rest ih =>
    intro b a bt best
    obtain ⟨f, t⟩ := m
    cases hexec : b.execute_move f t current with
    | error e =>
      simp only [abLoop, hexec, Bool.false_eq_true, if_false]
      exact ih b a bt best
    | ok pr =>
      obtain ⟨tb, rec⟩ := pr
      simp only [abLoop, hexec, Bool.false_eq_true, if_false]
      split
      · exact min_le_left _ _
      · exact le_trans (ih b a _ _) (min_le_left best _)

theorem abLoop_le (next : Board → Int → Int → Int) (current : Side) (hi : Int) :
    ∀ (moves : List ((Nat × Nat) × (Nat × Nat))) (b : Board)
      (alpha beta best : Int),
      (∀ m ∈ moves, ∀ tb rec,
        b.execute_move m.1 m.2 current = .ok (tb, rec) →
        ∀ a bt, next tb a bt ≤ hi) →
      abLoop next current true moves b alpha beta best ≤ max best hi := by
  intro moves
  induction moves with
  | nil => intro b a bt best h; exact le_max_left best hi
  | cons m rest ih =>
    intro b a bt best h
    obtain ⟨f, t⟩ := m
    cases hexec : b.execute_move f t current with
    | error e =>
      simp only [abLoop, hexec, eq_self_iff_true, if_true]
      exact ih b a bt best (fun m hm => h m (List.mem_cons_of_mem _ hm))
    | ok pr =>
      obtain ⟨tb, rec⟩ := pr
      simp only [abLoop, hexec, eq_self_iff_true, if_true]
      have hev : next tb a bt ≤ hi :=
        h (f, t) (List.mem_cons_self _ _) tb rec hexec a bt
      split
      · exact max_le_max (le_refl best) hev
      · refine le_trans
          (ih b _ bt _ (fun m hm => h m (List.mem_cons_of_mem _ hm))) ?_
        exact max_le (max_le (le_max_left best hi)
          (le_trans hev (le_max_right best hi))) (le_max_right best hi)

theorem abLoop_ge (next : Board → Int → Int → Int) (current : Side) (lo : Int) :
    ∀ (moves : List ((Nat × Nat) × (Nat × Nat))) (b : Board)
      (alpha beta best : Int),
      (∀ m ∈ moves, ∀ tb rec,
        b.execute_move m.1 m.2 current = .ok (tb, rec) →
        ∀ a bt, lo ≤ next tb a bt) →
      min best lo ≤ abLoop next current false moves b alpha beta best := by
  intro moves
  induction moves with
  | nil => intro b a bt best h; exact min_le_left best lo
  | cons m rest ih =>
    intro b a bt best h
    obtain ⟨f, t⟩ := m
    cases hexec : b.execute_move f t current with
    | error e =>
      simp only [abLoop, hexec, Bool.false_eq_true, if_false]
      exact ih b a bt best (fun m hm => h m (List.mem_cons_of_mem _ hm))
    | ok pr =>
      obtain ⟨tb, rec⟩ := pr
      simp only [abLoop, hexec, Bool.false_eq_true, if_false]
      have hev : lo ≤ next tb a bt :=
        h (f, t) (List.mem_cons_self _ _) tb rec hexec a bt
      split
      · exact min_le_min (le_refl best) hev
      · refine le_trans ?_
          (ih b a _ _ (fun m hm => h m (List.mem_cons_of_mem _ hm)))
        exact le_min (le_min (min_le_left best lo)
          (le_trans (min_le_right best lo) hev)) (min_le_right best lo)

theorem abLoop_lo_of_ok (next : Board → Int → Int → Int) (current : Side)
    (lo : Int) :
    ∀ (moves : List ((Nat × Nat) × (Nat × Nat))) (b : Board)
      (alpha beta best : Int),
      (∀ m ∈ moves, ∀ tb rec,
        b.execute_move m.1 m.2 current = .ok (tb, rec) →
        ∀ a bt, lo ≤ next tb a bt) →
      (∃ m ∈ moves, ∃ tb rec, b.execute_move m.1 m.2 current = .ok (tb, rec)) →
      lo ≤ abLoop next current true moves b alpha beta best := by
  intro moves
  induction moves with
  | nil =>
    rintro b a bt best h ⟨m, hm, _⟩
    cases hm
  | cons m rest ih =>
    rintro b a bt best h hex
    obtain ⟨f, t⟩ := m
    cases hexec : b.execute_move f t current with
    | error e =>
      simp only [abLoop, hexec, eq_self_iff_true, if_true]
      refine ih b a bt best (fun m hm => h m (List.mem_cons_of_mem _ hm)) ?_
      obtain ⟨m2, hm2, tb, rec, hok⟩ := hex
      rcases List.mem_cons.mp hm2 with rfl | hm2
      · rw [hexec] at hok
        cases hok
      · exact ⟨m2, hm2, tb, rec, hok⟩
    | ok pr =>
      obtain ⟨tb, rec⟩ := pr
      simp only [abLoop, hexec, eq_self_iff_true, if_true]
      have hev : lo ≤ next tb a bt :=
        h (f, t) (List.mem_cons_self _ _) tb rec hexec a bt
      split
      · exact le_trans hev (le_max_right best _)
      · exact le_trans (le_trans hev (le_max_right best _))
          (abLoop_ge_best next current rest b _ bt _)

theorem abLoop_hi_of_ok (next : Board → Int → Int → Int) (current : Side)
    (hi : Int) :
    ∀ (moves : List ((Nat × Nat) × (Nat × Nat))) (b : Board)
      (alpha beta best : Int),
      (∀ m ∈ moves, ∀ tb rec,
        b.execute_move m.1 m.2 current = .ok (tb, rec) →
        ∀ a bt, next tb a bt ≤ hi) →
      (∃ m ∈ moves, ∃ tb rec, b.execute_move m.1 m.2 current = .ok (tb, rec)) →
      abLoop next current false moves b alpha beta best ≤ hi := by
  intro moves
  induction moves with
  | nil =>
    rintro b a bt best h ⟨m, hm, _⟩
    cases hm
  | cons m rest ih =>
    rintro b a bt best h hex
    obtain ⟨f, t⟩ := m
    cases hexec : b.execute_move f t current with
    | error e =>
      simp only [abLoop, hexec, Bool.false_eq_true, if_false]
      refine ih b a bt best (fun m hm => h m (List.mem_cons_of_mem _ hm)) ?_
      obtain ⟨m2, hm2, tb, rec, hok⟩ := hex
      rcases List.mem_cons.mp hm2 with rfl | hm2
      · rw [hexec] at hok
        cases hok
      · exact ⟨m2, hm2, tb, rec, hok⟩
    | ok pr =>
      obtain ⟨tb, rec⟩ := pr
      simp only [abLoop, hexec, Bool.false_eq_true, if_false]
      have hev : next tb a bt ≤ hi :=
        h (f, t) (List.mem_cons_self _ _) tb rec hexec a bt
      split
      · exact le_trans (min_le_right best _) hev
      · exact le_trans (abLoop_le_best next current rest b a _ _)
          (le_trans (min_le_right best _) hev)

/-- Under the data model, every minimax value stays strictly inside the
`i32::MIN`/`i32::MAX` sentinels (with the source's ±100 stalemate margins). -/
theorem minimax_bounds (s : Side) :
    ∀ (depth : Nat) (b : Board), ModelWF b → ∀ (isMax : Bool) (alpha beta : Int),
      i32min + 100 ≤ minimax s depth b isMax alpha beta ∧
        minimax s depth b isMax alpha beta ≤ i32max - 100 := by
  intro depth
  induction depth with
  | zero =>
    intro b hm isMax a bt
    have := evaluate_bounds b s hm.1 hm.2.2.2
    show i32min + 100 ≤ evaluate b s ∧ evaluate b s ≤ i32max - 100
    unfold i32min i32max
    omega
  | succ d ih =>
    intro b hm isMax a bt
    cases isMax with
    | true =>
      show i32min + 100 ≤
          (if (get_valid_moves b s).isEmpty then i32min + 100
           else abLoop (fun tb a bt => minimax s d tb false a bt) s true
             (get_valid_moves b s) b a bt i32min) ∧
        (if (get_valid_moves b s).isEmpty then i32min + 100
           else abLoop (fun tb a bt => minimax s d tb false a bt) s true
             (get_valid_moves b s) b a bt i32min) ≤ i32max - 100
      by_cases hmv : (get_valid_moves b s).isEmpty
      · rw [if_pos hmv]
        refine ⟨le_refl _, ?_⟩
        unfold i32min i32max
        omega
      · rw [if_neg hmv]
        have hsub : ∀ m ∈ get_valid_moves b s, is_valid_move b m.1 m.2 s = true :=
          fun m hm2 => (gvm_mem_iff_valid b s hm.2.2.1 m).mp hm2
        have hnext : ∀ m ∈ get_valid_moves b s, ∀ tb rec,
            b.execute_move m.1 m.2 s = .ok (tb, rec) → ∀ a2 bt2,
            i32min + 100 ≤ minimax s d tb false a2 bt2 ∧
              minimax s d tb false a2 bt2 ≤ i32max - 100 := by
          intro m hm2 tb rec hok a2 bt2
          exact ih tb (execute_move_ModelWF hm (hsub m hm2) hok) false a2 bt2
        have hex : ∃ m ∈ get_valid_moves b s, ∃ tb rec,
            b.execute_move m.1 m.2 s = .ok (tb, rec) := by
          cases hgv : get_valid_moves b s with
          | nil => rw [hgv] at hmv; simp at hmv
          | cons m0 r =>
            have hm0 : m0 ∈ get_valid_moves b s := by
              rw [hgv]
              exact List.mem_cons_self _ _
            obtain ⟨tb, rec, hok⟩ := execute_move_ok_of_valid (hsub m0 hm0)
            exact ⟨m0, List.mem_cons_self _ _, tb, rec, hok⟩
        constructor
        · exact abLoop_lo_of_ok _ s (i32min + 100) _ b a bt i32min
            (fun m hm2 tb rec hok a2 bt2 => (hnext m hm2 tb rec hok a2 bt2).1)
            hex
        · refine le_trans (abLoop_le _ s (i32max - 100) _ b a bt i32min
            (fun m hm2 tb rec hok a2 bt2 =>
              (hnext m hm2 tb rec hok a2 bt2).2)) ?_
          refine max_le ?_ (le_refl _)
          unfold i32min i32max
          omega
    | false =>
      show i32min + 100 ≤
          (if (get_valid_moves b s.opposite).isEmpty then i32max - 100
           else abLoop (fun tb a bt => minimax s d tb true a bt) s.opposite false
             (get_valid_moves b s.opposite) b a bt i32max) ∧
        (if (get_valid_moves b s.opposite).isEmpty then i32max - 100
           else abLoop (fun tb a bt => minimax s d tb true a bt) s.opposite false
             (get_valid_moves b s.opposite) b a bt i32max) ≤ i32max - 100
      by_cases hmv : (get_valid_moves b s.opposite).isEmpty
      · rw [if_pos hmv]
        refine ⟨?_, le_refl _⟩
        unfold i32min i32max
        omega
      · rw [if_neg hmv]
        have hsub : ∀ m ∈ get_valid_moves b s.opposite,
            is_valid_move b m.1 m.2 s.opposite = true :=
          fun m hm2 => (gvm_mem_iff_valid b s.opposite hm.2.2.1 m).mp hm2
        have hnext : ∀ m ∈ get_valid_moves b s.opposite, ∀ tb rec,
            b.execute_move m.1 m.2 s.opposite = .ok (tb, rec) → ∀ a2 bt2,
            i32min + 100 ≤ minimax s d tb true a2 bt2 ∧
              minimax s d tb true a2 bt2 ≤ i32max - 100 := by
          intro m hm2 tb rec hok a2 bt2
          exact ih tb (execute_move_ModelWF hm (hsub m hm2) hok) true a2 bt2
        have hex : ∃ m ∈ get_valid_moves b s.opposite, ∃ tb rec,
            b.execute_move m.1 m.2 s.opposite = .ok (tb, rec) := by
          cases hgv : get_valid_moves b s.opposite with
          | nil => rw [hgv] at hmv; simp at hmv
          | cons m0 r =>
            have hm0 : m0 ∈ get_valid_moves b s.opposite := by
              rw [hgv]
              exact List.mem_cons_self _ _
            obtain ⟨tb, rec, hok⟩ := execute_move_ok_of_valid (hsub m0 hm0)
            exact ⟨m0, List.mem_cons_self _ _, tb, rec, hok⟩
        constructor
        · refine le_trans ?_ (abLoop_ge _ s.opposite (i32min + 100) _ b a bt
            i32max (fun m hm2 tb rec hok a2 bt2 =>
              (hnext m hm2 tb rec hok a2 bt2).1))
          refine le_min ?_ (le_refl _)
          unfold i32min i32max
          omega
        · exact abLoop_hi_of_ok _ s.opposite (i32max - 100) _ b a bt i32max
            (fun m hm2 tb rec hok a2 bt2 => (hnext m hm2 tb rec hok a2 bt2).2)
            hex

theorem minimaxMoveLoop_mem (s : Side) (d : Nat) (b : Board) :
    ∀ (ms : List ((Nat × Nat) × (Nat × Nat)))
      (bm : Option ((Nat × Nat) × (Nat × Nat))) (bs : Int)
      (m : (Nat × Nat) × (Nat × Nat)),
      minimaxMoveLoop s d b ms bm bs = some m → bm = some m ∨ m ∈ ms := by
  intro ms
  induction ms with
  | nil => intro bm bs m h; exact Or.inl h
  | cons p rest ih =>
    intro bm bs m h
    obtain ⟨f, t⟩ := p
    cases hexec : b.execute_move f t s with
    | error e =>
      simp only [minimaxMoveLoop, hexec] at h
      rcases ih bm bs m h with h2 | h2
      · exact Or.inl h2
      · exact Or.inr (List.mem_cons_of_mem _ h2)
    | ok pr =>
      obtain ⟨tb, rec⟩ := pr
      simp only [minimaxMoveLoop, hexec] at h
      by_cases hlt : bs < minimax s d tb false i32min i32max
      · rw [if_pos hlt] at h
        rcases ih _ _ m h with h2 | h2
        · injection h2 with h3
          exact Or.inr (h3 ▸ List.mem_cons_self _ _)
        · exact Or.inr (List.mem_cons_of_mem _ h2)
      · rw [if_neg hlt] at h
        rcases ih bm bs m h with h2 | h2
        · exact Or.inl h2
        · exact Or.inr (List.mem_cons_of_mem _ h2)

theorem minimaxMoveLoop_isSome (s : Side) (d : Nat) (b : Board) :
    ∀ (ms : List ((Nat × Nat) × (Nat × Nat)))
      (m0 : (Nat × Nat) × (Nat × Nat)) (bs : Int),
      ∃ m, minimaxMoveLoop s d b ms (some m0) bs = some m := by
  intro ms
  induction ms with
  | nil => intro m0 bs; exact ⟨m0, rfl⟩
  | cons p rest ih =>
    intro m0 bs
    obtain ⟨f, t⟩ := p
    cases hexec : b.execute_move f t s with
    | error e =>
      simp only [minimaxMoveLoop, hexec]
      exact ih m0 bs
    | ok pr =>
      obtain ⟨tb, rec⟩ := pr
      simp only [minimaxMoveLoop, hexec]
      by_cases hlt : bs < minimax s d tb false i32min i32max
      · rw [if_pos hlt]
        exact ih (f, t) _
      · rw [if_neg hlt]
        exact ih m0 bs

theorem minimaxMoveLoop_progress (s : Side) (d : Nat) (b : Board) :
    ∀ (ms : List ((Nat × Nat) × (Nat × Nat))) (bs : Int),
      (∃ p ∈ ms, ∃ tb rec, b.execute_move p.1 p.2 s = .ok (tb, rec) ∧
        bs < minimax s d tb false i32min i32max) →
      ∃ m, minimaxMoveLoop s d b ms none bs = some m := by
  intro ms
  induction ms with
  | nil =>
    rintro bs ⟨p, hp, _⟩
    cases hp
  | cons q rest ih =>
    rintro bs hex
    obtain ⟨f, t⟩ := q
    cases hexec : b.execute_move f t s with
    | error e =>
      simp only [minimaxMoveLoop, hexec]
      refine ih bs ?_
      obtain ⟨p, hp, tb, rec, hok, hlt⟩ := hex
      rcases List.mem_cons.mp hp with rfl | hp
      · have hok2 : b.execute_move f t s = .ok (tb, rec) := hok
        rw [hexec] at hok2
        cases hok2
      · exact ⟨p, hp, tb, rec, hok, hlt⟩
    | ok pr =>
      obtain ⟨tb, rec⟩ := pr
      simp only [minimaxMoveLoop, hexec]
      by_cases hlt : bs < minimax s d tb false i32min i32max
      · rw [if_pos hlt]
        exact minimaxMoveLoop_isSome s d b rest (f, t) _
      · rw [if_neg hlt]
        refine ih bs ?_
        obtain ⟨p, hp, tb2, rec2, hok2, hlt2⟩ := hex
        rcases List.mem_cons.mp hp with rfl | hp
        · exfalso
          have hok3 : b.execute_move f t s = .ok (tb2, rec2) := hok2
          rw [hexec] at hok3
          injection hok3 with h4
          injection h4 with h5 h6
          subst h5
          exact hlt hlt2
        · exact ⟨p, hp, tb2, rec2, hok2, hlt2⟩

theorem minimax_move_spec (b : Board) (ms : List ((Nat × Nat) × (Nat × Nat)))
    (side : Side) (depth : Nat) (hm : ModelWF b) (hms : ms ≠ [])
    (hsub : ∀ p ∈ ms, is_valid_move b p.1 p.2 side = true) :
    ∃ m ∈ ms, minimax_move b ms side depth = .ok m := by
  have hprog : ∃ mm, minimaxMoveLoop side (depth - 1) b ms none i32min = some mm := by
    apply minimaxMoveLoop_progress
    cases ms with
    | nil => exact absurd rfl hms
    | cons q rest =>
      have hq : q ∈ q :: rest := List.mem_cons_self _ _
      obtain ⟨tb, rec, hok⟩ := execute_move_ok_of_valid (hsub q hq)
      refine ⟨q, hq, tb, rec, hok, ?_⟩
      have hb := (minimax_bounds side (depth - 1) tb
        (execute_move_ModelWF hm (hsub q hq) hok) false i32min i32max).1
      omega
  obtain ⟨mm, hmm⟩ := hprog
  rcases minimaxMoveLoop_mem side (depth - 1) b ms none i32min mm hmm with h | h
  · cases h
  · refine ⟨mm, h, ?_⟩
    unfold minimax_move
    rw [hmm]

theorem random_move_spec (pick : Nat → Nat)
    (moves : List ((Nat × Nat) × (Nat × Nat)))
    (hp : pick moves.length < moves.length) :
    ∃ m ∈ moves, random_move pick moves = .ok m := by
  unfold random_move
  rw [List.getElem?_eq_getElem hp]
  exact ⟨moves[pick moves.length], List.getElem_mem hp, rfl⟩

theorem simple_eval_move_spec (pick : Nat → Nat)
    (hpick : ∀ n, 0 < n → pick n < n) (b : Board)
    (moves : List ((Nat × Nat) × (Nat × Nat))) (side : Side)
    (hne : moves ≠ []) :
    ∃ m ∈ moves, simple_eval_move pick b moves side = .ok m := by
  unfold simple_eval_move
  show ∃ m ∈ moves,
    (if (!(moves.filter (fun m =>
      match b.execute_move m.1 m.2 side with
      | .ok (_, record) => !record.captured.isEmpty
      | .error _ => false)).isEmpty) = true
      then random_move pick (moves.filter (fun m =>
      match b.execute_move m.1 m.2 side with
      | .ok (_, record) => !record.captured.isEmpty
      | .error _ => false))
      else random_move pick moves) = .ok m
  by_cases hc : (moves.filter (fun m =>
      match b.execute_move m.1 m.2 side with
      | .ok (_, record) => !record.captured.isEmpty
      | .error _ => false)).isEmpty
  · have hcond : (!(moves.filter (fun m =>
        match b.execute_move m.1 m.2 side with
        | .ok (_, record) => !record.captured.isEmpty
        | .error _ => false)).isEmpty) = false := by
      rw [hc]
      rfl
    rw [hcond]
    simp only [Bool.false_eq_true, if_false]
    exact random_move_spec pick moves
      (hpick _ (List.length_pos.mpr hne))
  · have hcempty : (moves.filter (fun m =>
        match b.execute_move m.1 m.2 side with
        | .ok (_, record) => !record.captured.isEmpty
        | .error _ => false)).isEmpty = false := by
      cases hcc : (moves.filter (fun m =>
          match b.execute_move m.1 m.2 side with
          | .ok (_, record) => !record.captured.isEmpty
          | .error _ => false)).isEmpty
      · rfl
      · exact absurd hcc hc
    have hcond : (!(moves.filter (fun m =>
        match b.execute_move m.1 m.2 side with
        | .ok (_, record) => !record.captured.isEmpty
        | .error _ => false)).isEmpty) = true := by
      rw [hcempty]
      rfl
    rw [hcond]
    simp only [if_true]
    have hfne : moves.filter (fun m =>
        match b.execute_move m.1 m.2 side with
        | .ok (_, record) => !record.captured.isEmpty
        | .error _ => false) ≠ [] := by
      intro hnil
      rw [hnil] at hcempty
      cases hcempty
    obtain ⟨m, hmf, hres⟩ := random_move_spec pick _
      (hpick _ (List.length_pos.mpr hfne))
    exact ⟨m, (List.mem_filter.mp hmf).1, hres⟩

/-- C7: under the spec's data model (the at-most-12-piece board satisfying the
invariant) and the `gen_range` contract for the rng draw, `select_move` fails
exactly when `get_valid_moves` is empty, and at every difficulty level any
returned move is one of the enumerated valid moves. -/
theorem select_move_characterization (pick : Nat → Nat)
    (hpick : ∀ n, 0 < n → pick n < n) (level : Nat) (b : Board) (side : Side)
    (hsz : b.pieces.length ≤ 12) (hwf : BoardWF b) :
    ((∃ e, select_move pick level b side = .error e) ↔
      get_valid_moves b side = []) ∧
    ∀ m, select_move pick level b side = .ok m →
      m ∈ get_valid_moves b side := by
  have hmw : ModelWF b := ⟨hsz, hwf⟩
  have hex : get_valid_moves b side ≠ [] →
      ∃ m ∈ get_valid_moves b side, select_move pick level b side = .ok m := by
    intro hvm
    have hlen : 0 < (get_valid_moves b side).length := List.length_pos.mpr hvm
    have hsub : ∀ p ∈ get_valid_moves b side,
        is_valid_move b p.1 p.2 side = true :=
      fun p hp => (gvm_mem_iff_valid b side hwf.2.1 p).mp hp
    have hEmpF : (get_valid_moves b side).isEmpty = false := by
      cases hgv : (get_valid_moves b side).isEmpty
      · rfl
      · exact absurd (List.isEmpty_iff.mp hgv) hvm
    show ∃ m ∈ get_valid_moves b side,
      (if (get_valid_moves b side).isEmpty = true then
        (.error "no legal move" : Except String ((Nat × Nat) × (Nat × Nat)))
      else
        match level with
        | 1 => random_move pick (get_valid_moves b side)
        | 2 => simple_eval_move pick b (get_valid_moves b side) side
        | 3 => minimax_move b (get_valid_moves b side) side 4
        | 4 => minimax_move b (get_valid_moves b side) side 6
        | 5 => optimal_move b (get_valid_moves b side) side
        | _ => random_move pick (get_valid_moves b side)) = .ok m
    rw [hEmpF]
    simp only [Bool.false_eq_true, if_false]
    match level with
    | 0 => exact random_move_spec pick _ (hpick _ hlen)
    | 1 => exact random_move_spec pick _ (hpick _ hlen)
    | 2 => exact simple_eval_move_spec pick hpick b _ side hvm
    | 3 => exact minimax_move_spec b _ side 4 hmw hvm hsub
    | 4 => exact minimax_move_spec b _ side 6 hmw hvm hsub
    | 5 => exact minimax_move_spec b _ side 8 hmw hvm hsub
    | (n + 6) => exact random_move_spec pick _ (hpick _ hlen)
  constructor
  · constructor
    · rintro ⟨e, he⟩
      by_contra hvm
      obtain ⟨m, hmem, hok⟩ := hex hvm
      rw [hok] at he
      cases he
    · intro hvm
      exact ⟨"no legal move", by simp [select_move, hvm]⟩
  · intro m hm2
    by_cases hvm : get_valid_moves b side = []
    · rw [show select_move pick level b side = .error "no legal move" from
        by simp [select_move, hvm]] at hm2
      cases hm2
    · obtain ⟨m2, hmem, hok⟩ := hex hvm
      rw [hok] at hm2
      injection hm2 with h3
      exact h3 ▸ hmem

/-- Witness for C7 at a concrete input: level 1 on `captureBoard` with the
always-zero rng draw. -/
theorem select_move_characterization_witness :
    (∀ n, 0 < n → (fun _ => 0) n < n) ∧
    captureBoard.pieces.length ≤ 12 ∧ BoardWF captureBoard ∧
    (((∃ e, select_move (fun _ => 0) 1 captureBoard .Black = .error e) ↔
        get_valid_moves captureBoard .Black = []) ∧
      ∀ m, select_move (fun _ => 0) 1 captureBoard .Black = .ok m →
        m ∈ get_valid_moves captureBoard .Black) :=
  ⟨fun n h => h, by decide, by decide,
    select_move_characterization (fun _ => 0) (fun n h => h) 1 captureBoard
      .Black (by decide) (by decide)⟩

/-! ## C2: two-vs-one capture characterization

The `spec*` definitions below transcribe the claim's wording for the
two-vs-one capture rule; the theorems relate them to the source's
`check_two_vs_one_in_direction` / `calculate_captures`. -/

/-- Spec side: the coordinate that varies along the axis. -/
def specLineCoord (horiz : Bool) (p : Piece) : Nat :=
  if horiz then p.position.1 else p.position.2

/-- Spec side: `p` lies on the row (horizontal) or column (vertical)
through `pos`. -/
def specOnLine (horiz : Bool) (pos : Nat × Nat) (p : Piece) : Prop :=
  if horiz then p.position.2 = pos.2 else p.position.1 = pos.1

/-- Spec side: the cell of the line through `pos` at varying coordinate `c`. -/
def specCell (horiz : Bool) (pos : Nat × Nat) (c : Nat) : Nat × Nat :=
  if horiz then (c, pos.2) else (pos.1, c)

/-- Spec side of claim C2, one axis: on the line through the moved piece
`M`'s position there are exactly 3 active pieces `p1, p2, e`; their varying
coordinates form the contiguous run `c, c+1, c+2` (in some order); the cells
immediately outside both ends of the run are off-board or empty; `p1, p2`
belong to the mover's side and `e` to the opponent (2-vs-1); the two
same-side pieces are adjacent within the run; the moved piece is one of the
two same-side pieces; and `i` is the opponent piece's id. -/
def specTwoVsOne (b : Board) (M : Piece) (horiz : Bool) (i : Nat) : Prop :=
  ∃ p1 p2 e : Piece, ∃ c : Nat,
    p1 ∈ b.pieces ∧ p2 ∈ b.pieces ∧ e ∈ b.pieces ∧
    p1 ≠ p2 ∧ p1 ≠ e ∧ p2 ≠ e ∧
    (∀ q ∈ b.pieces, (q.active = true ∧ specOnLine horiz M.position q) ↔
      (q = p1 ∨ q = p2 ∨ q = e)) ∧
    [specLineCoord horiz p1, specLineCoord horiz p2,
      specLineCoord horiz e].Perm [c, c + 1, c + 2] ∧
    (c = 0 ∨ b.is_empty (specCell horiz M.position (c - 1)).1
      (specCell horiz M.position (c - 1)).2 = true) ∧
    (3 < c + 3 ∨ b.is_empty (specCell horiz M.position (c + 3)).1
      (specCell horiz M.position (c + 3)).2 = true) ∧
    p1.side = M.side ∧ p2.side = M.side ∧ e.side ≠ M.side ∧
    (specLineCoord horiz p1 = specLineCoord horiz p2 + 1 ∨
      specLineCoord horiz p2 = specLineCoord horiz p1 + 1) ∧
    (M = p1 ∨ M = p2) ∧ i = e.id

theorem mem_linePieces_iff {b : Board} {x y : Nat} {H : Bool} {q : Piece} :
    q ∈ linePieces b x y H ↔
      q ∈ b.pieces ∧ q.active = true ∧ specOnLine H (x, y) q := by
  rw [linePieces, List.mem_filter]
  unfold lineFilter specOnLine
  cases H <;> simp [and_assoc]

theorem specLineCoord_eq (H : Bool) (p : Piece) :
    specLineCoord H p = lineCoord H p.position := by
  cases H <;> rfl

theorem lineCell_eq_specCell (x y : Nat) (H : Bool) (c : Nat) :
    lineCell x y H c = specCell H (x, y) c := by
  cases H <;> rfl

theorem pieces_nodup {b : Board} (hn : idsNodup b) : b.pieces.Nodup :=
  List.Nodup.of_map _ hn

theorem linePieces_nodup {b : Board} (hn : idsNodup b) (x y : Nat)
    (H : Bool) : (linePieces b x y H).Nodup :=
  List.Nodup.filter _ (pieces_nodup hn)

theorem filter_map_swap {α β : Type _} (f : α → β) (p : β → Bool)
    (l : List α) :
    (l.map f).filter p = (l.filter (fun a => p (f a))).map f := by
  induction l with
  | nil => rfl
  | cons a t ih =>
    simp only [List.map_cons, List.filter_cons]
    cases hp : p (f a) <;> simp [hp, ih]

theorem perm_pair {α : Type _} {l : List α} {a b : α} (h : l.Perm [a, b]) :
    l = [a, b] ∨ l = [b, a] := by
  have hlen : l.length = 2 := h.length_eq
  rcases l with _ | ⟨x, _ | ⟨y, _ | ⟨z, t⟩⟩⟩
  · cases hlen
  · cases hlen
  · have hx : x ∈ [a, b] := h.mem_iff.mp (List.mem_cons_self _ _)
    rcases List.mem_cons.mp hx with rfl | hx2
    · have h2 : [y].Perm [b] := (List.perm_cons x).mp h
      left
      rw [List.perm_singleton.mp h2]
    · have hx3 : x = b := List.mem_singleton.mp hx2
      subst hx3
      have h2 : [y].Perm [a] := (List.perm_cons x).mp
        (h.trans (List.Perm.swap x a []))
      right
      rw [List.perm_singleton.mp h2]
  · simp at hlen

theorem sorted_three_of_perm {a0 a1 a2 c : Nat} (h01 : a0 ≤ a1)
    (h12 : a1 ≤ a2)
    (hp : ([a0, a1, a2] : List Nat).Perm [c, c + 1, c + 2]) :
    a0 = c ∧ a1 = c + 1 ∧ a2 = c + 2 := by
  have hm0 : a0 ∈ [c, c + 1, c + 2] := hp.mem_iff.mp (by simp)
  have hm1 : a1 ∈ [c, c + 1, c + 2] := hp.mem_iff.mp (by simp)
  have hm2 : a2 ∈ [c, c + 1, c + 2] := hp.mem_iff.mp (by simp)
  have hnd : ([a0, a1, a2] : List Nat).Nodup := by
    rw [hp.nodup_iff]
    simp only [List.nodup_cons, List.mem_cons, List.mem_singleton,
      List.not_mem_nil, List.nodup_nil, or_false, and_true, not_or]
    exact ⟨⟨by omega, by omega⟩, by omega, fun h => h⟩
  simp only [List.mem_cons, List.mem_singleton, List.not_mem_nil,
    or_false] at hm0 hm1 hm2
  simp only [List.nodup_cons, List.mem_cons, List.mem_singleton,
    List.not_mem_nil, List.nodup_nil, or_false, and_true, not_or] at hnd
  rcases hm0 with h0 | h0 | h0 <;> rcases hm1 with h1 | h1 | h1 <;>
    rcases hm2 with h2 | h2 | h2 <;> omega

theorem sortedLinePositions_perm (b : Board) (x y : Nat) (H : Bool) :
    (sortedLinePositions b x y H).Perm
      ((linePieces b x y H).map (·.position)) :=
  List.perm_insertionSort _ _

theorem sortedLinePositions_sorted (b : Board) (x y : Nat) (H : Bool) :
    List.Sorted (fun a c => lineCoord H a ≤ lineCoord H c)
      (sortedLinePositions b x y H) := by
  haveI : IsTotal (Nat × Nat) (fun a c => lineCoord H a ≤ lineCoord H c) :=
    ⟨fun a c => Nat.le_total _ _⟩
  haveI : IsTrans (Nat × Nat) (fun a c => lineCoord H a ≤ lineCoord H c) :=
    ⟨fun a c d hab hbc => Nat.le_trans hab hbc⟩
  exact List.sorted_insertionSort _ _

theorem ownIndices_perm {b : Board} {x y : Nat} {H : Bool} {c0 : Nat}
    {side : Side} {p1 p2 e : Piece}
    (hperm : (linePieces b x y H).Perm [p1, p2, e])
    (h1 : p1.side = side) (h2 : p2.side = side) (h3 : e.side ≠ side) :
    (ownIndices b x y H c0 side).Perm
      [lineCoord H p1.position - c0, lineCoord H p2.position - c0] := by
  unfold ownIndices piecesWithIndex
  rw [List.map_map, filter_map_swap, List.map_map]
  refine List.Perm.trans (List.Perm.map _ (List.Perm.filter _ hperm)) ?_
  simp [h1, h2, h3]

theorem ownIds_perm {b : Board} {x y : Nat} {H : Bool} {c0 : Nat}
    {side : Side} {p1 p2 e : Piece}
    (hperm : (linePieces b x y H).Perm [p1, p2, e])
    (h1 : p1.side = side) (h2 : p2.side = side) (h3 : e.side ≠ side) :
    (ownIds b x y H c0 side).Perm [p1.id, p2.id] := by
  unfold ownIds piecesWithIndex
  rw [List.map_map, filter_map_swap, List.map_map]
  refine List.Perm.trans (List.Perm.map _ (List.Perm.filter _ hperm)) ?_
  simp [h1, h2, h3]

theorem enemyIndices_perm {b : Board} {x y : Nat} {H : Bool} {c0 : Nat}
    {side : Side} {p1 p2 e : Piece}
    (hperm : (linePieces b x y H).Perm [p1, p2, e])
    (h1 : p1.side = side) (h2 : p2.side = side) (h3 : e.side ≠ side) :
    (enemyIndices b x y H c0 side).Perm [lineCoord H e.position - c0] := by
  unfold enemyIndices piecesWithIndex
  rw [List.map_map, filter_map_swap, List.map_map]
  refine List.Perm.trans (List.Perm.map _ (List.Perm.filter _ hperm)) ?_
  simp [h1, h2, h3]

theorem ownIndices_length_eq {b : Board} {x y : Nat} {H : Bool} {c0 : Nat}
    {side : Side} :
    (ownIndices b x y H c0 side).length =
      ((linePieces b x y H).filter (fun p => decide (p.side = side))).length := by
  unfold ownIndices piecesWithIndex
  rw [List.map_map, filter_map_swap, List.map_map, List.length_map]
  rfl

theorem enemyIndices_length_eq {b : Board} {x y : Nat} {H : Bool} {c0 : Nat}
    {side : Side} :
    (enemyIndices b x y H c0 side).length =
      ((linePieces b x y H).filter (fun p => !decide (p.side = side))).length := by
  unfold enemyIndices piecesWithIndex
  rw [List.map_map, filter_map_swap, List.map_map, List.length_map]
  rfl

theorem piecesWithIndex_find_enemy {b : Board} {x y : Nat} {H : Bool}
    {c0 : Nat} {side : Side} {p1 p2 e : Piece}
    (hperm : (linePieces b x y H).Perm [p1, p2, e])
    (h1 : p1.side = side) (h2 : p2.side = side) (h3 : e.side ≠ side) :
    ∃ e2, (piecesWithIndex b x y H c0).find?
        (fun t => !decide (t.2.1 = side)) = some e2 ∧ e2.2.2 = e.id := by
  have hsome : ((piecesWithIndex b x y H c0).find?
      (fun t => !decide (t.2.1 = side))).isSome := by
    refine List.find?_isSome.mpr
      ⟨(lineCoord H e.position - c0, e.side, e.id), ?_, ?_⟩
    · unfold piecesWithIndex
      rw [List.map_map]
      refine List.mem_map.mpr ⟨e, ?_, rfl⟩
      exact hperm.mem_iff.mpr (by simp)
    · simp [h3]
  obtain ⟨e2, hfind⟩ := Option.isSome_iff_exists.mp hsome
  refine ⟨e2, hfind, ?_⟩
  have hmem := List.mem_of_find?_eq_some hfind
  have hpred := List.find?_some hfind
  unfold piecesWithIndex at hmem
  rw [List.map_map] at hmem
  obtain ⟨q, hq, rfl⟩ := List.mem_map.mp hmem
  have hqside : q.side ≠ side := by simpa using hpred
  have hq3 : q ∈ [p1, p2, e] := hperm.mem_iff.mp hq
  rcases (by simpa using hq3 : q = p1 ∨ q = p2 ∨ q = e) with rfl | rfl | rfl
  · exact absurd h1 hqside
  · exact absurd h2 hqside
  · rfl

/-- Shared builder: the source-side data extracted from a successful
`check_two_vs_one_in_direction` run yields the spec-side capture. -/
theorem spec_of_source {b : Board} {M : Piece} {H : Bool} {i : Nat}
    {p1 p2 e : Piece} {c0 : Nat}
    (hn : idsNodup b) (hMmem : M ∈ b.pieces)
    (hperm3 : (linePieces b M.position.1 M.position.2 H).Perm [p1, p2, e])
    (hs1 : p1.side = M.side) (hs2 : p2.side = M.side) (hs3 : e.side ≠ M.side)
    (hcperm : ((linePieces b M.position.1 M.position.2 H).map
        (fun p => lineCoord H p.position)).Perm [c0, c0 + 1, c0 + 2])
    (hflankL : c0 = 0 ∨ b.is_empty
        (lineCell M.position.1 M.position.2 H (c0 - 1)).1
        (lineCell M.position.1 M.position.2 H (c0 - 1)).2 = true)
    (hflankR : 3 < c0 + 3 ∨ b.is_empty
        (lineCell M.position.1 M.position.2 H (c0 + 3)).1
        (lineCell M.position.1 M.position.2 H (c0 + 3)).2 = true)
    (hadj : (((ownIndices b M.position.1 M.position.2 H c0 M.side).getD 0 0 : Int)
        - ((ownIndices b M.position.1 M.position.2 H c0 M.side).getD 1 0 : Int)).natAbs
        = 1)
    (hcont : M.id ∈ ownIds b M.position.1 M.position.2 H c0 M.side)
    (hieq : i = e.id) :
    specTwoVsOne b M H i := by
  have hp1LP : p1 ∈ linePieces b M.position.1 M.position.2 H :=
    hperm3.mem_iff.mpr (by simp)
  have hp2LP : p2 ∈ linePieces b M.position.1 M.position.2 H :=
    hperm3.mem_iff.mpr (by simp)
  have heLP : e ∈ linePieces b M.position.1 M.position.2 H :=
    hperm3.mem_iff.mpr (by simp)
  obtain ⟨hp1m, hp1act, hp1on⟩ := mem_linePieces_iff.mp hp1LP
  obtain ⟨hp2m, hp2act, hp2on⟩ := mem_linePieces_iff.mp hp2LP
  obtain ⟨hem, heact, heon⟩ := mem_linePieces_iff.mp heLP
  have hnod3 : ([p1, p2, e] : List Piece).Nodup :=
    hperm3.nodup_iff.mp (linePieces_nodup hn M.position.1 M.position.2 H)
  simp only [List.nodup_cons, List.mem_cons, List.mem_singleton,
    List.not_mem_nil, List.nodup_nil, or_false, and_true, not_or] at hnod3
  have hspecperm : [specLineCoord H p1, specLineCoord H p2,
      specLineCoord H e].Perm [c0, c0 + 1, c0 + 2] := by
    have h1 := List.Perm.map (fun p => lineCoord H p.position) hperm3
    have h2 := h1.symm.trans hcperm
    simpa [specLineCoord_eq] using h2
  have hc1mem : specLineCoord H p1 ∈ [c0, c0 + 1, c0 + 2] :=
    hspecperm.mem_iff.mp (by simp)
  have hc2mem : specLineCoord H p2 ∈ [c0, c0 + 1, c0 + 2] :=
    hspecperm.mem_iff.mp (by simp)
  have hadj2 : specLineCoord H p1 = specLineCoord H p2 + 1 ∨
      specLineCoord H p2 = specLineCoord H p1 + 1 := by
    have hoi := @ownIndices_perm b M.position.1 M.position.2 H c0 M.side
      p1 p2 e hperm3 hs1 hs2 hs3
    have hb1 : lineCoord H p1.position = specLineCoord H p1 :=
      (specLineCoord_eq H p1).symm
    have hb2 : lineCoord H p2.position = specLineCoord H p2 :=
      (specLineCoord_eq H p2).symm
    rw [hb1, hb2] at hoi
    simp only [List.mem_cons, List.mem_singleton, List.not_mem_nil,
      or_false] at hc1mem hc2mem
    rcases perm_pair hoi with hcase | hcase <;>
      rw [hcase] at hadj <;>
      simp only [List.getD_cons_zero, List.getD_cons_succ] at hadj <;>
      rcases hc1mem with hq1 | hq1 | hq1 <;>
      rcases hc2mem with hq2 | hq2 | hq2 <;> omega
  have hMp : M = p1 ∨ M = p2 := by
    have hids := @ownIds_perm b M.position.1 M.position.2 H c0 M.side
      p1 p2 e hperm3 hs1 hs2 hs3
    have hMin : M.id ∈ [p1.id, p2.id] := hids.mem_iff.mp hcont
    rcases (by simpa using hMin : M.id = p1.id ∨ M.id = p2.id) with hq | hq
    · exact Or.inl (mem_id_inj hn hMmem hp1m hq)
    · exact Or.inr (mem_id_inj hn hMmem hp2m hq)
  have hsetiff : ∀ q ∈ b.pieces,
      (q.active = true ∧ specOnLine H M.position q) ↔
        (q = p1 ∨ q = p2 ∨ q = e) := by
    intro q hqmem
    constructor
    · rintro ⟨hqa, hqon⟩
      have hqLP : q ∈ linePieces b M.position.1 M.position.2 H :=
        mem_linePieces_iff.mpr ⟨hqmem, hqa, hqon⟩
      simpa using hperm3.mem_iff.mp hqLP
    · intro hq
      rcases hq with rfl | rfl | rfl
      · exact ⟨hp1act, hp1on⟩
      · exact ⟨hp2act, hp2on⟩
      · exact ⟨heact, heon⟩
  exact ⟨p1, p2, e, c0, hp1m, hp2m, hem, hnod3.1.1, hnod3.1.2, hnod3.2.1,
    hsetiff, hspecperm, hflankL, hflankR, hs1, hs2, hs3, hadj2, hMp, hieq⟩

/-- Forward half of one scan call: every id in the result was already in the
accumulator or completes the spec-side two-vs-one capture on this axis. -/
theorem check_dir_forward {b : Board} {M : Piece} {dx dy : Int}
    {acc : List Nat} {i : Nat} (hn : idsNodup b)
    (hM : b.piece_by_id M.id = some M)
    (h : i ∈ check_two_vs_one_in_direction b M.position.1 M.position.2 M.side
      dx dy M.id acc) :
    i ∈ acc ∨ specTwoVsOne b M (dy == 0) i := by
  have hMmem : M ∈ b.pieces := List.mem_of_find?_eq_some hM
  rw [check_two_vs_one_in_direction.eq_def] at h
  split at h
  case h_1 => exact Or.inl h
  case h_2 mp heq =>
   rw [hM] at heq
   injection heq with heq2
   subst heq2
   split at h
   · exact Or.inl h
   next hact2 =>
    split at h
    · exact Or.inl h
    next hlen2 =>
     have hlen3 :
         (linePieces b M.position.1 M.position.2 (dy == 0)).length = 3 := by
       simpa using hlen2
     split at h
     case h_2 => exact Or.inl h
     case h_1 q0 q1 q2 hpos =>
      split at h
      · exact Or.inl h
      next hdiff =>
       split at h
       · exact Or.inl h
       next hleft =>
        split at h
        · exact Or.inl h
        next hright =>
         split at h
         · exact Or.inl h
         next hcounts =>
          split at h
          · exact Or.inl h
          next hadjraw =>
           split at h
           · exact Or.inl h
           next hcontraw =>
            split at h
            case h_2 => exact Or.inl h
            case h_1 e2 hfind =>
             split at h
             · exact Or.inl h
             next hdup =>
              rcases List.mem_append.mp h with h2 | h2
              · exact Or.inl h2
              · right
                have hieq : i = e2.2.2 := List.mem_singleton.mp h2
                have hdd : lineCoord (dy == 0) q1 - lineCoord (dy == 0) q0 = 1 ∧
                    lineCoord (dy == 0) q2 - lineCoord (dy == 0) q1 = 1 := by
                  simpa using hdiff
                have hperm0 := sortedLinePositions_perm b M.position.1
                  M.position.2 (dy == 0)
                rw [hpos] at hperm0
                have hsort := sortedLinePositions_sorted b M.position.1
                  M.position.2 (dy == 0)
                rw [hpos] at hsort
                simp only [List.sorted_cons, List.mem_cons,
                  List.mem_singleton, List.not_mem_nil, or_false, and_true,
                  forall_eq_or_imp, forall_eq, List.sorted_nil] at hsort
                obtain ⟨⟨hs01, hs02⟩, hs12⟩ := hsort
                have hq1 : lineCoord (dy == 0) q1 = lineCoord (dy == 0) q0 + 1 := by omega
                have hq2 : lineCoord (dy == 0) q2 = lineCoord (dy == 0) q0 + 2 := by omega
                have hcperm : ((linePieces b M.position.1 M.position.2
                    (dy == 0)).map
                    (fun p => lineCoord (dy == 0) p.position)).Perm
                    [lineCoord (dy == 0) q0, lineCoord (dy == 0) q0 + 1,
                      lineCoord (dy == 0) q0 + 2] := by
                  have h1 := hperm0.symm.map (lineCoord (dy == 0))
                  rw [List.map_map] at h1
                  simp only [List.map_cons, List.map_nil] at h1
                  rw [hq1, hq2] at h1
                  exact h1
                have hflankL : lineCoord (dy == 0) q0 = 0 ∨
                    b.is_empty (lineCell M.position.1 M.position.2 (dy == 0) (lineCoord (dy == 0) q0 - 1)).1
                      (lineCell M.position.1 M.position.2 (dy == 0) (lineCoord (dy == 0) q0 - 1)).2 = true := by
                  rcases Nat.eq_zero_or_pos (lineCoord (dy == 0) q0) with hc00 | hc00
                  · exact Or.inl hc00
                  · right
                    by_contra hemp
                    apply hleft
                    have htn : ((lineCoord (dy == 0) q0 : Int) - 1).toNat =
                        lineCoord (dy == 0) q0 - 1 := by omega
                    have hge : (0 : Int) ≤ (lineCoord (dy == 0) q0 : Int) - 1 := by
                      omega
                    have hempF : b.is_empty
                        (lineCell M.position.1 M.position.2 (dy == 0) (lineCoord (dy == 0) q0 - 1)).1
                        (lineCell M.position.1 M.position.2 (dy == 0) (lineCoord (dy == 0) q0 - 1)).2 = false := by
                      cases hcc : b.is_empty
                          (lineCell M.position.1 M.position.2 (dy == 0) (lineCoord (dy == 0) q0 - 1)).1
                          (lineCell M.position.1 M.position.2 (dy == 0) (lineCoord (dy == 0) q0 - 1)).2
                      · rfl
                      · exact absurd hcc hemp
                    rw [htn]
                    simp [hge, hempF]
                have hflankR : 3 < lineCoord (dy == 0) q0 + 3 ∨
                    b.is_empty (lineCell M.position.1 M.position.2 (dy == 0) (lineCoord (dy == 0) q0 + 3)).1
                      (lineCell M.position.1 M.position.2 (dy == 0) (lineCoord (dy == 0) q0 + 3)).2 = true := by
                  by_cases hc03 : 3 < lineCoord (dy == 0) q0 + 3
                  · exact Or.inl hc03
                  · right
                    by_contra hemp
                    apply hright
                    have htn : ((lineCoord (dy == 0) q2 : Int) + 1).toNat =
                        lineCoord (dy == 0) q0 + 3 := by omega
                    have hlt : (lineCoord (dy == 0) q2 : Int) + 1 < 4 := by omega
                    have hempF : b.is_empty
                        (lineCell M.position.1 M.position.2 (dy == 0) (lineCoord (dy == 0) q0 + 3)).1
                        (lineCell M.position.1 M.position.2 (dy == 0) (lineCoord (dy == 0) q0 + 3)).2 = false := by
                      cases hcc : b.is_empty
                          (lineCell M.position.1 M.position.2 (dy == 0) (lineCoord (dy == 0) q0 + 3)).1
                          (lineCell M.position.1 M.position.2 (dy == 0) (lineCoord (dy == 0) q0 + 3)).2
                      · rfl
                      · exact absurd hcc hemp
                    rw [htn]
                    simp [hlt, hempF]
                have hcounts2 := hcounts
                simp only [Bool.or_eq_true, bne_iff_ne, ne_eq, not_or,
                  Decidable.not_not] at hcounts2
                obtain ⟨hcn1, hcn2⟩ := hcounts2
                rw [@ownIndices_length_eq b M.position.1 M.position.2
                  (dy == 0) (lineCoord (dy == 0) q0) M.side] at hcn1
                rw [@enemyIndices_length_eq b M.position.1 M.position.2
                  (dy == 0) (lineCoord (dy == 0) q0) M.side] at hcn2
                have hadj : (((ownIndices b M.position.1 M.position.2
                    (dy == 0) (lineCoord (dy == 0) q0) M.side).getD 0 0 : Int) -
                    ((ownIndices b M.position.1 M.position.2 (dy == 0)
                    (lineCoord (dy == 0) q0) M.side).getD 1 0 : Int)).natAbs = 1 := by
                  simpa using hadjraw
                have hcont : M.id ∈ ownIds b M.position.1 M.position.2
                    (dy == 0) (lineCoord (dy == 0) q0) M.side := by
                  have hct : (ownIds b M.position.1 M.position.2 (dy == 0)
                      (lineCoord (dy == 0) q0) M.side).contains M.id = true := by
                    simpa using hcontraw
                  exact List.elem_iff.mp hct
                rcases hLP : linePieces b M.position.1 M.position.2 (dy == 0)
                  with _ | ⟨r0, _ | ⟨r1, _ | ⟨r2, _ | ⟨r3, tl⟩⟩⟩⟩
                · rw [hLP] at hlen3
                  simp at hlen3
                · rw [hLP] at hlen3
                  simp at hlen3
                · rw [hLP] at hlen3
                  simp at hlen3
                · rw [hLP] at hcn1 hcn2
                  by_cases h0 : r0.side = M.side <;>
                    by_cases h1 : r1.side = M.side <;>
                    by_cases h2 : r2.side = M.side
                  · simp [h0, h1, h2] at hcn1
                  · have hperm3 : (linePieces b M.position.1 M.position.2
                        (dy == 0)).Perm [r0, r1, r2] := by
                      rw [hLP]
                    obtain ⟨e3, hfind3, hid3⟩ :=
                      @piecesWithIndex_find_enemy b M.position.1 M.position.2
                        (dy == 0) (lineCoord (dy == 0) q0) M.side r0 r1 r2 hperm3
                        h0 h1 h2
                    rw [hfind] at hfind3
                    injection hfind3 with he23
                    refine spec_of_source hn hMmem hperm3 h0 h1 h2 hcperm
                      hflankL hflankR hadj hcont ?_
                    rw [hieq, he23]
                    exact hid3
                  · have hperm3 : (linePieces b M.position.1 M.position.2
                        (dy == 0)).Perm [r0, r2, r1] := by
                      rw [hLP]
                      exact List.Perm.cons r0 (List.Perm.swap r2 r1 [])
                    obtain ⟨e3, hfind3, hid3⟩ :=
                      @piecesWithIndex_find_enemy b M.position.1 M.position.2
                        (dy == 0) (lineCoord (dy == 0) q0) M.side r0 r2 r1 hperm3
                        h0 h2 h1
                    rw [hfind] at hfind3
                    injection hfind3 with he23
                    refine spec_of_source hn hMmem hperm3 h0 h2 h1 hcperm
                      hflankL hflankR hadj hcont ?_
                    rw [hieq, he23]
                    exact hid3
                  · simp [h0, h1, h2] at hcn1
                  · have hperm3 : (linePieces b M.position.1 M.position.2
                        (dy == 0)).Perm [r1, r2, r0] := by
                      rw [hLP]
                      exact List.Perm.trans (List.Perm.swap r1 r0 [r2])
                        (List.Perm.cons r1 (List.Perm.swap r2 r0 []))
                    obtain ⟨e3, hfind3, hid3⟩ :=
                      @piecesWithIndex_find_enemy b M.position.1 M.position.2
                        (dy == 0) (lineCoord (dy == 0) q0) M.side r1 r2 r0 hperm3
                        h1 h2 h0
                    rw [hfind] at hfind3
                    injection hfind3 with he23
                    refine spec_of_source hn hMmem hperm3 h1 h2 h0 hcperm
                      hflankL hflankR hadj hcont ?_
                    rw [hieq, he23]
                    exact hid3
                  · simp [h0, h1, h2] at hcn1
                  · simp [h0, h1, h2] at hcn1
                  · simp [h0, h1, h2] at hcn1
                · rw [hLP] at hlen3
                  simp at hlen3

/-- One scan call only ever appends: the accumulator survives. -/
theorem check_dir_acc_subset {b : Board} {x y : Nat} {side : Side}
    {dx dy : Int} {pid : Nat} {acc : List Nat} {i : Nat} (h : i ∈ acc) :
    i ∈ check_two_vs_one_in_direction b x y side dx dy pid acc := by
  rw [check_two_vs_one_in_direction.eq_def]
  repeat' split
  all_goals first
    | exact h
    | exact List.mem_append_left _ h

/-- Backward half of one scan call: a spec-side capture on this axis puts the
enemy id into the result. -/
theorem check_dir_of_spec {b : Board} {M : Piece} {dx dy : Int}
    {acc : List Nat} {i : Nat} (hn : idsNodup b)
    (hM : b.piece_by_id M.id = some M) (hact : M.active = true)
    (hspec : specTwoVsOne b M (dy == 0) i) :
    i ∈ check_two_vs_one_in_direction b M.position.1 M.position.2 M.side dx dy
      M.id acc := by
  obtain ⟨p1, p2, e, c, hp1m, hp2m, hem, hne12, hne1e, hne2e, hsetiff,
    hcperm0, hfL, hfR, hs1, hs2, hs3, hadjspec, hMp, hieq⟩ := hspec
  have hact1 := (hsetiff p1 hp1m).mpr (Or.inl rfl)
  have hact2p := (hsetiff p2 hp2m).mpr (Or.inr (Or.inl rfl))
  have hacte := (hsetiff e hem).mpr (Or.inr (Or.inr rfl))
  have hnd3 : ([p1, p2, e] : List Piece).Nodup := by
    simp [hne12, hne1e, hne2e]
  have hperm3 : (linePieces b M.position.1 M.position.2 (dy == 0)).Perm
      [p1, p2, e] := by
    rw [List.perm_ext_iff_of_nodup
      (linePieces_nodup hn M.position.1 M.position.2 (dy == 0)) hnd3]
    intro a
    rw [mem_linePieces_iff]
    constructor
    · rintro ⟨ham, haact, haon⟩
      simpa using (hsetiff a ham).mp ⟨haact, haon⟩
    · intro hmem
      rcases (by simpa using hmem : a = p1 ∨ a = p2 ∨ a = e) with rfl | rfl | rfl
      · exact ⟨hp1m, hact1.1, hact1.2⟩
      · exact ⟨hp2m, hact2p.1, hact2p.2⟩
      · exact ⟨hem, hacte.1, hacte.2⟩
  have hlen3 : (linePieces b M.position.1 M.position.2 (dy == 0)).length = 3 := by
    rw [hperm3.length_eq]
    rfl
  have hslen :
      (sortedLinePositions b M.position.1 M.position.2 (dy == 0)).length = 3 := by
    rw [(sortedLinePositions_perm b M.position.1 M.position.2
      (dy == 0)).length_eq, List.length_map, hlen3]
  rw [check_two_vs_one_in_direction.eq_def]
  split
  case h_1 heq => exact absurd heq (by rw [hM]; simp)
  case h_2 mp heq =>
   rw [hM] at heq
   injection heq with heq2
   subst heq2
   split
   next hcond => simp [hact] at hcond
   next =>
    split
    next hcond => simp [hlen3] at hcond
    next =>
     split
     case h_2 =>
      rename_i ls hne3
      rcases hsp : sortedLinePositions b M.position.1 M.position.2 (dy == 0)
        with _ | ⟨s0, _ | ⟨s1, _ | ⟨s2, _ | ⟨s3, tl⟩⟩⟩⟩ <;>
        rw [hsp] at hslen <;> try simp at hslen
      exact absurd hsp (by intro hh; exact hne3 s0 s1 s2 hh)
     case h_1 q0 q1 q2 heq3 =>
      have hsort := sortedLinePositions_sorted b M.position.1 M.position.2
        (dy == 0)
      rw [heq3] at hsort
      simp only [List.sorted_cons, List.mem_cons, List.mem_singleton,
        List.not_mem_nil, or_false, and_true, forall_eq_or_imp, forall_eq,
        List.sorted_nil] at hsort
      obtain ⟨⟨hs01, hs02⟩, hs12⟩ := hsort
      have hchain : [lineCoord (dy == 0) q0, lineCoord (dy == 0) q1,
          lineCoord (dy == 0) q2].Perm [c, c + 1, c + 2] := by
        have hp := sortedLinePositions_perm b M.position.1 M.position.2
          (dy == 0)
        rw [heq3] at hp
        have h1 := hp.map (lineCoord (dy == 0))
        simp only [List.map_cons, List.map_nil] at h1
        rw [List.map_map] at h1
        have h2 := List.Perm.map
          (fun p : Piece => lineCoord (dy == 0) p.position) hperm3
        simp only [List.map_cons, List.map_nil] at h2
        refine h1.trans (h2.trans ?_)
        have h3 := hcperm0
        simp only [specLineCoord_eq] at h3
        exact h3
      obtain ⟨hcs0, hcs1, hcs2⟩ := sorted_three_of_perm hs01 hs12.1 hchain
      have hoi := @ownIndices_perm b M.position.1 M.position.2 (dy == 0)
        (lineCoord (dy == 0) q0) M.side p1 p2 e hperm3 hs1 hs2 hs3
      have hei := @enemyIndices_perm b M.position.1 M.position.2 (dy == 0)
        (lineCoord (dy == 0) q0) M.side p1 p2 e hperm3 hs1 hs2 hs3
      have hc1mem : specLineCoord (dy == 0) p1 ∈ [c, c + 1, c + 2] :=
        hcperm0.mem_iff.mp (by simp)
      have hc2mem : specLineCoord (dy == 0) p2 ∈ [c, c + 1, c + 2] :=
        hcperm0.mem_iff.mp (by simp)
      simp only [List.mem_cons, List.mem_singleton, List.not_mem_nil,
        or_false] at hc1mem hc2mem
      rw [specLineCoord_eq] at hc1mem hc2mem hadjspec
      rw [specLineCoord_eq (dy == 0) p2] at hadjspec
      have hge1 : c ≤ lineCoord (dy == 0) p1.position := by
        rcases hc1mem with hq | hq | hq <;> omega
      have hge2 : c ≤ lineCoord (dy == 0) p2.position := by
        rcases hc2mem with hq | hq | hq <;> omega
      split
      next hcond =>
        rw [hcs0, hcs1, hcs2] at hcond
        simp at hcond
      next =>
       split
       next hcond =>
        rw [Bool.and_eq_true] at hcond
        obtain ⟨hA, hB⟩ := hcond
        rw [decide_eq_true_eq] at hA
        rcases hfL with hc0 | hemp
        · rw [hcs0] at hA
          omega
        · rw [Bool.not_eq_true'] at hB
          have htn : ((lineCoord (dy == 0) q0 : Int) - 1).toNat = c - 1 := by
            omega
          rw [htn] at hB
          have hemp2 : b.is_empty (lineCell M.position.1 M.position.2 (dy == 0) (c - 1)).1
              (lineCell M.position.1 M.position.2 (dy == 0) (c - 1)).2 = true := hemp
          rw [hemp2] at hB
          cases hB
       next =>
        split
        next hcond =>
         rw [Bool.and_eq_true] at hcond
         obtain ⟨hA, hB⟩ := hcond
         rw [decide_eq_true_eq] at hA
         rcases hfR with h3c | hemp
         · rw [hcs2] at hA
           omega
         · rw [Bool.not_eq_true'] at hB
           have htn : ((lineCoord (dy == 0) q2 : Int) + 1).toNat = c + 3 := by
             omega
           rw [htn] at hB
           have hemp2 : b.is_empty (lineCell M.position.1 M.position.2 (dy == 0) (c + 3)).1
               (lineCell M.position.1 M.position.2 (dy == 0) (c + 3)).2 = true := hemp
           rw [hemp2] at hB
           cases hB
        next =>
         split
         next hcond =>
          have hol : (ownIndices b M.position.1 M.position.2 (dy == 0)
              (lineCoord (dy == 0) q0) M.side).length = 2 := by
            rw [hoi.length_eq]
            rfl
          have hel2 : (enemyIndices b M.position.1 M.position.2 (dy == 0)
              (lineCoord (dy == 0) q0) M.side).length = 1 := by
            rw [hei.length_eq]
            rfl
          rw [hol, hel2] at hcond
          simp at hcond
         next =>
          split
          next hcond =>
           have hval : (((ownIndices b M.position.1 M.position.2 (dy == 0)
               (lineCoord (dy == 0) q0) M.side).getD 0 0 : Int) -
               ((ownIndices b M.position.1 M.position.2 (dy == 0)
               (lineCoord (dy == 0) q0) M.side).getD 1 0 : Int)).natAbs = 1 := by
             rcases perm_pair hoi with hcase | hcase <;>
               rw [hcase] <;>
               simp only [List.getD_cons_zero, List.getD_cons_succ] <;>
               rcases hadjspec with hq | hq <;> omega
           rw [hval] at hcond
           simp at hcond
          next =>
           split
           next hcond =>
            have hidsperm := @ownIds_perm b M.position.1 M.position.2
              (dy == 0) (lineCoord (dy == 0) q0) M.side p1 p2 e hperm3 hs1 hs2 hs3
            have hmemid : M.id ∈ ownIds b M.position.1 M.position.2 (dy == 0)
                (lineCoord (dy == 0) q0) M.side := by
              refine hidsperm.mem_iff.mpr ?_
              rcases hMp with hMe | hMe <;> rw [hMe] <;> simp
            have hct : (ownIds b M.position.1 M.position.2 (dy == 0)
                (lineCoord (dy == 0) q0) M.side).contains M.id = true :=
              List.elem_iff.mpr hmemid
            rw [hct] at hcond
            cases hcond
           next =>
            obtain ⟨e2, hfind, hid2⟩ := @piecesWithIndex_find_enemy b
              M.position.1 M.position.2 (dy == 0) (lineCoord (dy == 0) q0) M.side
              p1 p2 e hperm3 hs1 hs2 hs3
            split
            case h_2 heqn =>
              rw [hfind] at heqn
              cases heqn
            case h_1 e3 heq4 =>
              rw [hfind] at heq4
              injection heq4 with he23
              subst he23
              rw [hieq, ← hid2]
              split
              next hdup => exact List.elem_iff.mp hdup
              next hdup =>
                exact List.mem_append_right _ (List.mem_singleton.mpr rfl)

/-- One scan call, as a membership iff. -/
theorem check_dir_mem_iff {b : Board} {M : Piece} {dx dy : Int}
    {acc : List Nat} (hn : idsNodup b)
    (hM : b.piece_by_id M.id = some M) (hact : M.active = true) (i : Nat) :
    i ∈ check_two_vs_one_in_direction b M.position.1 M.position.2 M.side dx dy
        M.id acc ↔ i ∈ acc ∨ specTwoVsOne b M (dy == 0) i := by
  constructor
  · exact check_dir_forward hn hM
  · rintro (h | h)
    · exact check_dir_acc_subset h
    · exact check_dir_of_spec hn hM hact h

/-- Both scan calls of one axis, as a membership iff (the two calls only
differ in the ignored `dx`/sign, so they test the same axis condition). -/
theorem check_two_vs_one_mem_iff {b : Board} {M : Piece} {acc : List Nat}
    (hn : idsNodup b) (hM : b.piece_by_id M.id = some M)
    (hact : M.active = true) (horiz : Bool) (i : Nat) :
    i ∈ check_two_vs_one b M.position.1 M.position.2 M.side horiz M.id acc ↔
      i ∈ acc ∨ specTwoVsOne b M horiz i := by
  cases horiz
  · show i ∈ check_two_vs_one_in_direction b M.position.1 M.position.2 M.side
        (-(0 : Int)) (-(1 : Int)) M.id
        (check_two_vs_one_in_direction b M.position.1 M.position.2 M.side 0 1
          M.id acc) ↔ _
    rw [check_dir_mem_iff hn hM hact i, check_dir_mem_iff hn hM hact i]
    rw [show ((1 : Int) == 0) = false from rfl,
      show ((-(1 : Int)) == 0) = false from rfl]
    tauto
  · show i ∈ check_two_vs_one_in_direction b M.position.1 M.position.2 M.side
        (-(1 : Int)) (-(0 : Int)) M.id
        (check_two_vs_one_in_direction b M.position.1 M.position.2 M.side 1 0
          M.id acc) ↔ _
    rw [check_dir_mem_iff hn hM hact i, check_dir_mem_iff hn hM hact i]
    rw [show ((0 : Int) == 0) = true from rfl,
      show ((-(0 : Int)) == 0) = true from rfl]
    tauto

/-- C2: in normal mode (no side down to a single active piece) and under the
spec's unique-ids invariant, `calculate_captures` returns an opponent id `i`
exactly when, on the row or the column through the moved piece's position,
the spec-side two-vs-one condition holds: exactly 3 active pieces on that
line whose coordinates form a contiguous run with open (or off-board)
flanks, split 2-vs-1 with the two same-side pieces adjacent and the moved
piece among them, `i` being the lone opponent piece's id; in particular a
friend-enemy-friend arrangement never captures (the adjacency clause fails). -/
theorem two_vs_one_capture_characterization (b : Board) (pid : Nat)
    (hn : idsNodup b) (hmode : b.is_single_piece_mode = false) (i : Nat) :
    i ∈ calculate_captures b pid ↔
      ∃ M, b.piece_by_id pid = some M ∧ M.active = true ∧
        (specTwoVsOne b M true i ∨ specTwoVsOne b M false i) := by
  unfold calculate_captures
  cases hMp : b.piece_by_id pid with
  | none =>
    simp
  | some M =>
    have hid : M.id = pid := by simpa using List.find?_some hMp
    have hM2 : b.piece_by_id M.id = some M := by rw [hid]; exact hMp
    show i ∈ (if (!M.active) = true then ([] : List Nat)
        else if b.is_single_piece_mode = true then
          check_single_piece_capture b M.position.1 M.position.2 M.side false
            (check_single_piece_capture b M.position.1 M.position.2 M.side
              true [])
        else
          check_two_vs_one b M.position.1 M.position.2 M.side false pid
            (check_two_vs_one b M.position.1 M.position.2 M.side true pid []))
      ↔ _
    by_cases hact : M.active = true
    · rw [if_neg (by simp [hact])]
      rw [hmode]
      simp only [Bool.false_eq_true, if_false]
      rw [← hid]
      rw [check_two_vs_one_mem_iff hn hM2 hact false i,
        check_two_vs_one_mem_iff hn hM2 hact true i]
      constructor
      · rintro ((h | h) | h)
        · cases h
        · exact ⟨M, rfl, hact, Or.inl h⟩
        · exact ⟨M, rfl, hact, Or.inr h⟩
      · rintro ⟨M2, hM3, hact2, hsp⟩
        injection hM3 with hMM
        subst hMM
        rcases hsp with h | h
        · exact Or.inl (Or.inr h)
        · exact Or.inr h
    · rw [if_pos (by simp [Bool.not_eq_true'] at hact ⊢; exact hact)]
      constructor
      · intro h
        cases h
      · rintro ⟨M2, hM3, hact2, _⟩
        injection hM3 with hMM
        subst hMM
        exact absurd hact2 hact

/-- The board right after the capturing move of `captureBoard`, before the
capture deactivation: Black pieces at (1,1) and (2,1) flank White piece 3 at
(3,1) on row 1. -/
def specWitnessBoard : Board :=
  ⟨[ Piece.new 1 .Black 1 1, Piece.new 2 .Black 2 1, Piece.new 3 .White 3 1,
     Piece.new 4 .Black 0 3, Piece.new 5 .White 0 0, Piece.new 6 .White 2 3 ]⟩

/-- Witness for C2 at a concrete input. -/
theorem two_vs_one_capture_characterization_witness :
    idsNodup specWitnessBoard ∧
      specWitnessBoard.is_single_piece_mode = false ∧
      (3 ∈ calculate_captures specWitnessBoard 1 ↔
        ∃ M, specWitnessBoard.piece_by_id 1 = some M ∧ M.active = true ∧
          (specTwoVsOne specWitnessBoard M true 3 ∨
            specTwoVsOne specWitnessBoard M false 3)) :=
  ⟨by decide, by decide,
    two_vs_one_capture_characterization specWitnessBoard 1 (by decide)
      (by decide) 3⟩

end SixRush
